import Mathlib

/-!
TensorFlow Lite model reader (`src/tflite-model.js`).

A shallow embedding of the operator metadata catalog, the argument mapper, the
tensor value decoder, the attribute constructor, and the node, graph and model
builders with the model factory, followed by the properties proved about them.

Conventions of the embedding:
* a JavaScript property that may be missing is an `Option`; `none` is `undefined`;
* a JavaScript string used in a truthiness test is truthy when it is not `""`;
* raw tensor indices are 32-bit integers, embedded as `Int`;
* a `while`/`for` loop whose bound is not structural carries a fuel argument and
  returns `none` when the fuel is used up;
* an exception thrown by the code is the `error` of an `Except JsError`;
* a plain object `{}` that the code uses as a map also answers for the properties it
  inherits from `Object.prototype` (`objectPrototypeNames`, `mapHas`);
* a JavaScript number is a `JsNumber`: an exact finite value, an infinity or `NaN`;
* what the file takes from other modules (the enumerations of the generated schema
  module, the text decoder, `JSON.stringify`, the conversion of strings to numbers) is a
  parameter of the definition that uses it.
-/

namespace TFLite

/-! ## Operator metadata catalog -/

/-- One entry of `schema.inputs` in the metadata document: `name`, `option` and
`visible` are JSON properties that may be missing; `visible` is a JSON boolean. -/
structure InputSchema where
  name : Option String := none
  option : Option String := none
  visible : Option Bool := none
  deriving DecidableEq, Repr

/-- One entry of `schema.outputs`. -/
structure OutputSchema where
  name : Option String := none
  option : Option String := none
  deriving DecidableEq, Repr

/-- Truthiness of a possibly missing JavaScript string. -/
def truthyStr : Option String → Bool
  | some s => s != ""
  | none => false

/-- The `index.toString()` of a non-negative loop counter, in parentheses:
`'(' + index.toString() + ')'`. -/
def positionalName (index : Nat) : String :=
  "(" ++ toString index ++ ")"

/-- The name given to an argument: `name ? name : '(' + index.toString() + ')'`. -/
def argumentName (name : Option String) (index : Nat) : String :=
  match name with
  | some n => if truthyStr name then n else positionalName index
  | none => positionalName index

/-- The object pushed by `result.connections.push({ id: array[j] })`. -/
structure ConnectionRef where
  id : Int
  deriving DecidableEq, Repr

/-- The `result` object built by one turn of the loop of `getInputs`:
`visible` is `none` unless the loop body set `result.visible = false`. -/
structure InputResult where
  name : String
  visible : Option Bool
  connections : List ConnectionRef
  deriving DecidableEq, Repr

/-- A JavaScript number: a finite number with its exact value (both zeros are `finite 0`,
as no comparison of the reader tells them apart), an infinity, or `NaN`. -/
inductive JsNumber where
  | finite (q : ℚ)
  | posInf
  | negInf
  | nan
  deriving DecidableEq, Repr

instance (n : Nat) : OfNat JsNumber n := ⟨.finite n⟩

instance : IntCast JsNumber := ⟨fun n => .finite n⟩

/-- The comparison `a == b` of two numbers: `NaN` equals no number, itself included. -/
def JsNumber.eq (a b : JsNumber) : Bool :=
  a != .nan && a == b

/-- A JavaScript value as it occurs as an attribute value or as a JSON `default`:
`fn r` is a function value whose call returns the string `r` (the lazily rendered array of
an `Array`/`Length` field pair), `array` an array of integers (a typed array of the options
record, or a JSON array of integers), and `object t` any other object without indexed
elements (a nested table or a 64-bit integer of the binary layer, a JSON object, a JSON
array of other content), where `t` is the string the object converts to. -/
inductive JsValue where
  | undefined
  | null
  | bool (b : Bool)
  | num (x : JsNumber)
  | str (s : String)
  | fn (result : String)
  | array (items : List Int)
  | object (text : String)
  deriving DecidableEq, Repr

/-- One entry of `schema.attributes`: `type`, `visible` and `default` may be missing. -/
structure AttributeSchema where
  name : String
  type : Option String := none
  visible : Option Bool := none
  default : Option JsValue := none
  deriving DecidableEq, Repr

/-- The `schema` of one operator in the metadata document. -/
structure Schema where
  inputs : Option (List InputSchema) := none
  outputs : Option (List (Option OutputSchema)) := none
  attributes : Option (List AttributeSchema) := none
  category : Option String := none
  deriving DecidableEq, Repr

/-- One record of the parsed metadata document. -/
structure MetadataItem where
  name : Option String := none
  schema : Option Schema := none
  deriving DecidableEq, Repr

/-- The catalog `TensorFlowLiteOperatorMetadata`: `_map` as an association list, the most
recent assignment to a key first. -/
structure TensorFlowLiteOperatorMetadata where
  _map : List (String × Schema)
  deriving DecidableEq, Repr

/-- The constructor of the catalog: `if (item.name && item.schema) this._map[item.name] =
item.schema` for every item of the parsed document, in order. -/
def TensorFlowLiteOperatorMetadata.new (items : Option (List MetadataItem)) :
    TensorFlowLiteOperatorMetadata :=
  match items with
  | none => ⟨[]⟩
  | some items =>
    ⟨items.foldl (fun map item =>
      match item.name, item.schema with
      | some name, some schema => if name != "" then (name, schema) :: map else map
      | _, _ => map) []⟩

/-- The method `getSchema(operator)`: `this._map[operator]`. -/
def TensorFlowLiteOperatorMetadata.getSchema (metadata : TensorFlowLiteOperatorMetadata)
    (operator : String) : Option Schema :=
  metadata._map.lookup operator

/-- The operator record of the binary container, as far as the mapper reads it:
`inputs(i)` for `i < inputsLength()` and `outputs(i)` for `i < outputsLength()`. -/
structure OperatorRecord where
  inputs : List Int
  outputs : List Int
  deriving DecidableEq, Repr

/-- The entry `schema.inputs[index]` consulted by `getInputs`, when
`schema && schema.inputs && index < schema.inputs.length`. -/
def schemaInput (schema : Option Schema) (index : Nat) : Option InputSchema :=
  match schema with
  | none => none
  | some s =>
    match s.inputs with
    | none => none
    | some inputs => inputs[index]?

/-- The `while (index < connections.length)` loop of `getInputs`. One turn builds
`result` from `schema.inputs[index]` and `connections.slice(index, index + count)` and
advances `index` by `count`. -/
def getInputsLoop (schema : Option Schema) (connections : List Int) :
    Nat → Nat → List InputResult → Option (List InputResult)
  | 0, index, results => if index < connections.length then none else some results
  | fuel + 1, index, results =>
    if index < connections.length then
      let input := schemaInput schema index
      let count :=
        match input with
        | some input => if input.option = some "variadic" then connections.length - index else 1
        | none => 1
      let name :=
        match input with
        | some input => input.name
        | none => none
      let visible :=
        match input with
        | some input => if input.visible = some false then some false else none
        | none => none
      let resultName := argumentName name index
      let array := (connections.drop index).take count
      let resultConnections := (array.filter (fun c => c != -1)).map ConnectionRef.mk
      getInputsLoop schema connections fuel (index + count)
        (results ++ [⟨resultName, visible, resultConnections⟩])
    else some results

/-- The method `getInputs(node, operator)`: the raw indices are copied into `connections`,
then the loop runs from `index = 0`. Each turn advances `index` by at least one, so
`connections.length` turns are enough. -/
def TensorFlowLiteOperatorMetadata.getInputs (metadata : TensorFlowLiteOperatorMetadata)
    (node : OperatorRecord) (operator : String) : Option (List InputResult) :=
  let connections := node.inputs
  let schema := metadata.getSchema operator
  getInputsLoop schema connections connections.length 0 []

/-- The method `getOutputName(operator, index)`. -/
def TensorFlowLiteOperatorMetadata.getOutputName (metadata : TensorFlowLiteOperatorMetadata)
    (operator : String) (index : Nat) : String :=
  match metadata.getSchema operator with
  | some schema =>
    match schema.outputs with
    | some outputs =>
      if index < outputs.length then
        match outputs[index]? with
        | some (some output) =>
          if output.option ≠ some "variadic" then
            match output.name with
            | some name => if name != "" then name else positionalName index
            | none => positionalName index
          else positionalName index
        | _ => positionalName index
      else positionalName index
    | none => positionalName index
  | none => positionalName index


/-- Whether slot `index` of the schema is marked `option == 'variadic'`. -/
def slotVariadic (schema : Option Schema) (index : Nat) : Bool :=
  match schemaInput schema index with
  | some input => input.option = some "variadic"
  | none => false

/-- The name `getInputs` gives to the argument that starts at raw position `index`. -/
def slotName (schema : Option Schema) (index : Nat) : String :=
  argumentName ((schemaInput schema index).bind InputSchema.name) index

/-- The `visible` property `getInputs` gives to the argument that starts at `index`. -/
def slotVisible (schema : Option Schema) (index : Nat) : Option Bool :=
  match schemaInput schema index with
  | some input => if input.visible = some false then some false else none
  | none => none

/-- The connection list built from a slice of raw indices: the sentinel `-1` is skipped. -/
def sliceConnections (array : List Int) : List ConnectionRef :=
  (array.filter (fun c => c != -1)).map ConnectionRef.mk

/-- The argument produced for a slot that consumes exactly the raw position `i`. -/
def singleSlot (schema : Option Schema) (cs : List Int) (i : Nat) : InputResult :=
  ⟨slotName schema i, slotVisible schema i, sliceConnections (cs[i]?).toList⟩

/-! ### Example catalogs -/

/-- A catalog with one operator whose second input is variadic. -/
def variadicCatalog : TensorFlowLiteOperatorMetadata :=
  TensorFlowLiteOperatorMetadata.new (some [
    { name := some "Concat",
      schema := some { inputs := some [{ name := some "a" },
                                       { name := some "b", option := some "variadic" }] } }])

/-- The input schemas of the operator of `variadicCatalog`. -/
def variadicInputs : List InputSchema :=
  [{ name := some "a" }, { name := some "b", option := some "variadic" }]

/-- A node with four raw inputs and no output. -/
def fourInputNode : OperatorRecord := ⟨[3, 5, 7, 9], []⟩

/-- A catalog with one operator that declares three plain inputs and two outputs. -/
def plainCatalog : TensorFlowLiteOperatorMetadata :=
  TensorFlowLiteOperatorMetadata.new (some [
    { name := some "Conv",
      schema := some { inputs := some [{ name := some "input" }, { name := some "weights" },
                                       { name := some "bias", visible := some false }],
                       outputs := some [some { name := some "output" },
                                        some { name := some "rest", option := some "variadic" }] } }])

/-- A catalog whose variadic operator leaves the name of its first input empty. -/
def unnamedCatalog : TensorFlowLiteOperatorMetadata :=
  TensorFlowLiteOperatorMetadata.new (some [
    { name := some "Pack",
      schema := some { inputs := some [{ name := some "" },
                                       { name := some "b", option := some "variadic" }] } }])

/-- A catalog with one operator whose schema has a category and no inputs list. -/
def bareCatalog : TensorFlowLiteOperatorMetadata :=
  TensorFlowLiteOperatorMetadata.new (some [
    { name := some "Relu", schema := some { category := some "Activation" } }])

/-- A node with three raw inputs, the middle one the sentinel, and two outputs. -/
def sentinelNode : OperatorRecord := ⟨[3, -1, 7], [4, 5]⟩

/-- A node with five raw inputs, two more than the operator of `plainCatalog` declares. -/
def fiveInputNode : OperatorRecord := ⟨[3, 5, -1, 9, 11], []⟩

/-- The schema of the operator of `plainCatalog`. -/
def plainSchema : Schema :=
  { inputs := some [{ name := some "input" }, { name := some "weights" },
                    { name := some "bias", visible := some false }],
    outputs := some [some { name := some "output" },
                     some { name := some "rest", option := some "variadic" }] }

/-! ## Tensor records, types and shapes -/

/-- One byte of a `Uint8Array`. -/
abbrev Byte := Fin 256

/-- An exception thrown by the JavaScript code of the embedding. -/
inductive JsError where
  | rangeError
  | typeError
  deriving DecidableEq, Repr

/-- The tensor record of the binary container, as far as the reader uses it: `name()` is
absent (`null`) or a string, `type()` a type code, `shape(i)` for `i < shapeLength()` the
dimensions, `buffer()` the position of the backing buffer. -/
structure TensorRecord where
  name : Option String
  type : Int
  shape : List Int
  buffer : Nat
  deriving DecidableEq, Repr

/-- The buffer record of the binary container: `dataArray()` is the byte array when there
is one, and `dataLength()` its length, 0 when there is none. -/
structure BufferRecord where
  dataArray : Option (List Byte)
  deriving DecidableEq, Repr

/-- The `dataLength()` accessor of a buffer record. -/
def BufferRecord.dataLength (buffer : BufferRecord) : Nat :=
  match buffer.dataArray with
  | some data => data.length
  | none => 0

/-- The class `TensorFlowLiteTensorShape`. -/
structure TensorFlowLiteTensorShape where
  _dimensions : List Int
  deriving DecidableEq, Repr

/-- The constructor of `TensorFlowLiteTensorShape`: the dimensions are pushed in order when
`shapeLength() > 0`. -/
def TensorFlowLiteTensorShape.new (tensor : TensorRecord) : TensorFlowLiteTensorShape :=
  if tensor.shape.length > 0 then ⟨tensor.shape⟩ else ⟨[]⟩

/-- The `dimensions` getter. -/
def TensorFlowLiteTensorShape.dimensions (shape : TensorFlowLiteTensorShape) : List Int :=
  shape._dimensions

/-- The class `TensorFlowLiteTensorType`. -/
structure TensorFlowLiteTensorType where
  _dataType : String
  _shape : TensorFlowLiteTensorShape
  deriving DecidableEq, Repr

/-- The method `String.prototype.toLowerCase()` on the ASCII text the reader applies it to: every
uppercase letter is replaced by its lowercase form. -/
def toLowerCase (s : String) : String :=
  ⟨s.data.map Char.toLower⟩

/-- The constructor of `TensorFlowLiteTensorType`. The enumeration `tflite.TensorType` of the
generated schema module is the parameter `tensorTypes` (code to name, `none` for a code
without entry). -/
def TensorFlowLiteTensorType.new (tensorTypes : Int → Option String) (tensor : TensorRecord) :
    TensorFlowLiteTensorType :=
  let dataType := tensorTypes tensor.type
  ⟨if truthyStr dataType then toLowerCase (dataType.getD "") else "?",
   TensorFlowLiteTensorShape.new tensor⟩

/-- The `dataType` getter. -/
def TensorFlowLiteTensorType.dataType (type : TensorFlowLiteTensorType) : String :=
  type._dataType

/-- The `shape` getter. -/
def TensorFlowLiteTensorType.shape (type : TensorFlowLiteTensorType) :
    TensorFlowLiteTensorShape :=
  type._shape

/-! ## Tensor value decoder -/

/-- A decoded tensor value: a nested array whose leaves are the decoded scalars.
`number` is the result of `getUint8` and `getInt32`, `int64` the `Int64` object built from
`getInt64`, `float16` and `float32` the floating-point number read, kept as its bit pattern,
`string` an entry of the string table or the truncation marker `'...'`, and `undefined` a
read of the string table past its end. -/
inductive TensorValue where
  | number (n : Int)
  | int64 (n : Int)
  | float16 (bits : Nat)
  | float32 (bits : Nat)
  | string (s : String)
  | undefined
  | array (items : List TensorValue)
  deriving Repr

/-- The `context` object of `_context` and `_decode`. `context.data` holds the `DataView`
for the byte-width data types and the string table for `string`; the embedding keeps the
view in `data` and the table in `strings`. `limit` is `none` until `value` or `toString`
assigns it. -/
structure Context where
  state : Option String
  index : Nat
  count : Nat
  dataType : String
  dimensions : List Int
  data : List Byte
  strings : List String
  limit : Option Nat
  deriving Repr

/-- The unsigned number that a little-endian byte sequence denotes. -/
def littleEndian : List Byte → Nat
  | [] => 0
  | b :: rest => b.val + 256 * littleEndian rest

/-- The two's-complement reading of an unsigned `bits`-bit number. -/
def toSigned (bits : Nat) (n : Nat) : Int :=
  if n < 2 ^ (bits - 1) then (n : Int) else (n : Int) - (2 ^ bits : Nat)

/-- The `width` bytes of a `DataView` at `index`; a `RangeError` when the read would pass
the end of the view. -/
def readBytes (data : List Byte) (index width : Nat) : Except JsError (List Byte) :=
  if index + width ≤ data.length then .ok ((data.drop index).take width)
  else .error .rangeError

/-- The `DataView` accessor `getUint8(index)`. -/
def getUint8 (data : List Byte) (index : Nat) : Except JsError Int :=
  match readBytes data index 1 with
  | .ok bytes => .ok (littleEndian bytes : Nat)
  | .error e => .error e

/-- The `DataView` accessor `getInt32(index, true)`. -/
def getInt32 (data : List Byte) (index : Nat) : Except JsError Int :=
  match readBytes data index 4 with
  | .ok bytes => .ok (toSigned 32 (littleEndian bytes))
  | .error e => .error e

/-- The `DataView` accessor `getFloat32(index, true)`, the number kept as its bit pattern. -/
def getFloat32 (data : List Byte) (index : Nat) : Except JsError Nat :=
  match readBytes data index 4 with
  | .ok bytes => .ok (littleEndian bytes)
  | .error e => .error e

/-- Modelled from the spec: the accessor `getInt64(index, true)` added to `DataView` outside
this file, with the `Int64` wrapper: it reads the 8 bytes at the running offset as a signed
little-endian number, and a read past the end of the buffer is a defined failure. -/
def getInt64 (data : List Byte) (index : Nat) : Except JsError Int :=
  match readBytes data index 8 with
  | .ok bytes => .ok (toSigned 64 (littleEndian bytes))
  | .error e => .error e

/-- Modelled from the spec: the accessor `getFloat16(index, true)` added to `DataView`
outside this file: it reads the 2 bytes at the running offset, the number kept as its bit
pattern, and a read past the end of the buffer is a defined failure. -/
def getFloat16 (data : List Byte) (index : Nat) : Except JsError Nat :=
  match readBytes data index 2 with
  | .ok bytes => .ok (littleEndian bytes)
  | .error e => .error e

/-- The test `context.count > context.limit`; it is false while `limit` is unassigned. -/
def overLimit (context : Context) : Bool :=
  match context.limit with
  | some limit => context.count > limit
  | none => false

/-- The `switch (context.dataType)` of `_decode`: the value pushed, if any, and the context
after the case. -/
def decodeScalar (context : Context) : Except JsError (Option TensorValue × Context) :=
  if context.dataType = "uint8" then
    match getUint8 context.data context.index with
    | .ok v => .ok (some (.number v),
        { context with index := context.index + 1, count := context.count + 1 })
    | .error e => .error e
  else if context.dataType = "int32" then
    match getInt32 context.data context.index with
    | .ok v => .ok (some (.number v),
        { context with index := context.index + 4, count := context.count + 1 })
    | .error e => .error e
  else if context.dataType = "int64" then
    match getInt64 context.data context.index with
    | .ok v => .ok (some (.int64 v),
        { context with index := context.index + 8, count := context.count + 1 })
    | .error e => .error e
  else if context.dataType = "float16" then
    match getFloat16 context.data context.index with
    | .ok v => .ok (some (.float16 v),
        { context with index := context.index + 2, count := context.count + 1 })
    | .error e => .error e
  else if context.dataType = "float32" then
    match getFloat32 context.data context.index with
    | .ok v => .ok (some (.float32 v),
        { context with index := context.index + 4, count := context.count + 1 })
    | .error e => .error e
  else if context.dataType = "string" then
    .ok (some (match context.strings[context.index]? with
               | some s => .string s
               | none => .undefined),
        { context with index := context.index + 1, count := context.count + 1 })
  else .ok (none, context)

/-- The loop `for (var i = 0; i < size; i++)` of the last dimension, with `size - i` turns
left. -/
def decodeLeafLoop : Nat → Context → List TensorValue →
    Except JsError (List TensorValue × Context)
  | 0, context, results => .ok (results, context)
  | turns + 1, context, results =>
    if overLimit context then .ok (results ++ [.string "..."], context)
    else
      match decodeScalar context with
      | .ok (some v, context) => decodeLeafLoop turns context (results ++ [v])
      | .ok (none, context) => decodeLeafLoop turns context results
      | .error e => .error e

/-- The loop `for (var j = 0; j < size; j++)` of a dimension that is not the last, with
`size - j` turns left; `decode` is the call `this._decode(context, dimension + 1)`, which
gives `none` when it runs out of fuel. -/
def decodeNestedLoop (decode : Context → Option (Except JsError (TensorValue × Context))) :
    Nat → Context → List TensorValue → Option (Except JsError (List TensorValue × Context))
  | 0, context, results => some (.ok (results, context))
  | turns + 1, context, results =>
    if overLimit context then some (.ok (results ++ [.string "..."], context))
    else
      match decode context with
      | none => none
      | some (.error e) => some (.error e)
      | some (.ok (v, context)) => decodeNestedLoop decode turns context (results ++ [v])

/-- The number of turns of a loop `for (var i = 0; i < size; i++)`; `size` is
`context.dimensions[dimension]`, and no turn is taken when it is `undefined`. -/
def loopTurns (size : Option Int) : Nat :=
  match size with
  | some size => size.toNat
  | none => 0

/-- The method `_decode(context, dimension)`: the array decoded for `dimension` and the
context as the call leaves it. The recursion goes one dimension down, so `dimensions.length + 1` units of
fuel are enough for `_decode(context, 0)`. -/
def _decode : Nat → Context → Nat → Option (Except JsError (TensorValue × Context))
  | 0, _, _ => none
  | fuel + 1, context, dimension =>
    let size := context.dimensions[dimension]?
    if (dimension : Int) = (context.dimensions.length : Int) - 1 then
      match decodeLeafLoop (loopTurns size) context [] with
      | .ok (results, context) => some (.ok (.array results, context))
      | .error e => some (.error e)
    else
      match decodeNestedLoop (fun context => _decode fuel context (dimension + 1))
          (loopTurns size) context [] with
      | none => none
      | some (.ok (results, context)) => some (.ok (.array results, context))
      | some (.error e) => some (.error e)

/-- The class `TensorFlowLiteTensor`; `_data` is `none` for `null`. -/
structure TensorFlowLiteTensor where
  _id : Nat
  _name : Option String
  _type : TensorFlowLiteTensorType
  _data : Option (List Byte)
  deriving Repr

/-- The constructor of `TensorFlowLiteTensor`. -/
def TensorFlowLiteTensor.new (tensorTypes : Int → Option String) (tensor : TensorRecord)
    (index : Nat) (buffer : BufferRecord) : TensorFlowLiteTensor :=
  ⟨index, tensor.name, TensorFlowLiteTensorType.new tensorTypes tensor,
   if buffer.dataLength > 0 then buffer.dataArray else none⟩

/-- The method `Uint8Array.prototype.subarray(begin, end)`. -/
def subarray (data : List Byte) (b e : Int) : List Byte :=
  let len : Int := data.length
  let first := if b < 0 then max (len + b) 0 else min b len
  let last := if e < 0 then max (len + e) 0 else min e len
  (data.drop first.toNat).take (last - first).toNat

/-- The loop `for (var j = 0; j < count; j++)` of `_context` that reads the offset table,
with `count - j` turns left. -/
def readOffsetTable (data : List Byte) : Nat → Nat → List Int → Except JsError (List Int)
  | 0, _, offsetTable => .ok offsetTable
  | turns + 1, offset, offsetTable =>
    match getInt32 data offset with
    | .ok v => readOffsetTable data turns (offset + 4) (offsetTable ++ [v])
    | .error e => .error e

/-- The string table that `_context` builds for the data type `string`; `decodeText` is the
text decoder (`TextDecoder` or `String.fromCharCode`). -/
def readStringTable (decodeText : List Byte → String) (data : List Byte) :
    Except JsError (List String) :=
  match getInt32 data 0 with
  | .error e => .error e
  | .ok count =>
    match readOffsetTable data count.toNat 4 [] with
    | .error e => .error e
    | .ok offsetTable =>
      let offsetTable := offsetTable ++ [(data.length : Int)]
      .ok ((List.range count.toNat).map (fun k =>
        decodeText (subarray data (offsetTable.getD k 0) (offsetTable.getD (k + 1) 0))))

/-- The method `_context()`. With no data only `state`, `index` and `count` are assigned; the other
fields of the embedding are then never read. -/
def TensorFlowLiteTensor._context (decodeText : List Byte → String)
    (tensor : TensorFlowLiteTensor) : Except JsError Context :=
  match tensor._data with
  | none => .ok ⟨some "Tensor data is empty.", 0, 0, "", [], [], [], none⟩
  | some data =>
    if tensor._type.dataType = "string" then
      match readStringTable decodeText data with
      | .ok table =>
        .ok ⟨none, 0, 0, tensor._type.dataType, tensor._type.shape.dimensions, data, table, none⟩
      | .error e => .error e
    else
      .ok ⟨none, 0, 0, tensor._type.dataType, tensor._type.shape.dimensions, data, [], none⟩

/-- The `state` getter: `this._context().state`. -/
def TensorFlowLiteTensor.state (decodeText : List Byte → String)
    (tensor : TensorFlowLiteTensor) : Except JsError (Option String) :=
  match tensor._context decodeText with
  | .ok context => .ok context.state
  | .error e => .error e

/-- The constant `Number.MAX_SAFE_INTEGER`. -/
def MAX_SAFE_INTEGER : Nat := 2 ^ 53 - 1

/-- The `value` getter: `null` (`none`) when the context carries a state, else the decoded
array. The outer `Option` is `none` only if `_decode` runs out of fuel. -/
def TensorFlowLiteTensor.value (decodeText : List Byte → String)
    (tensor : TensorFlowLiteTensor) : Option (Except JsError (Option TensorValue)) :=
  match tensor._context decodeText with
  | .error e => some (.error e)
  | .ok context =>
    if context.state.isSome then some (.ok none)
    else
      let context := { context with limit := some MAX_SAFE_INTEGER }
      match _decode (context.dimensions.length + 1) context 0 with
      | none => none
      | some (.ok (value, _)) => some (.ok (some value))
      | some (.error e) => some (.error e)

/-- The method `toString()`: the empty string when the context carries a state, else the
rendering of the array decoded with `limit = 10000`; `stringify` is `JSON.stringify(value, null, 4)`. -/
def TensorFlowLiteTensor.toString (decodeText : List Byte → String)
    (stringify : TensorValue → String) (tensor : TensorFlowLiteTensor) :
    Option (Except JsError String) :=
  match tensor._context decodeText with
  | .error e => some (.error e)
  | .ok context =>
    if context.state.isSome then some (.ok "")
    else
      let context := { context with limit := some 10000 }
      match _decode (context.dimensions.length + 1) context 0 with
      | none => none
      | some (.ok (value, _)) => some (.ok (stringify value))
      | some (.error e) => some (.error e)

mutual
/-- The number of decoded scalars in a value: every leaf but the marker string. -/
def TensorValue.leaves : TensorValue → Nat
  | .number _ => 1
  | .int64 _ => 1
  | .float16 _ => 1
  | .float32 _ => 1
  | .string _ => 0
  | .undefined => 0
  | .array items => TensorValue.leavesList items
/-- The number of decoded scalars in a list of values. -/
def TensorValue.leavesList : List TensorValue → Nat
  | [] => 0
  | item :: items => item.leaves + TensorValue.leavesList items
end

mutual
/-- The integer scalars of a value in order, the nesting removed. -/
def TensorValue.flatten : TensorValue → List Int
  | .number n => [n]
  | .int64 n => [n]
  | .array items => TensorValue.flattenList items
  | _ => []
/-- The integer scalars of a list of values in order. -/
def TensorValue.flattenList : List TensorValue → List Int
  | [] => []
  | item :: items => item.flatten ++ TensorValue.flattenList items
end

/-! ## Attributes -/

/-- Truthiness of a JavaScript value. -/
def JsValue.truthy : JsValue → Bool
  | .undefined => false
  | .null => false
  | .bool b => b
  | .num x => x != 0 && x != .nan
  | .str s => s != ""
  | .fn _ => true
  | .array _ => true
  | .object _ => true

/-- The number a boolean converts to. -/
def boolNumber (b : Bool) : JsNumber := if b then 1 else 0

/-- The string an array of integers converts to: `items.join(',')`. -/
def arrayText (items : List Int) : String :=
  ",".intercalate (items.map toString)

/-- The loose equality `a == b` of JavaScript. `toNumber` is the conversion of a string to
a number (`NaN` when the string is no numeric literal). An array or another object is
compared with a primitive value through the string it converts to. Two objects are equal
only when they are the same object, which an attribute value and a JSON default never are;
a function is never compared, as the constructor calls a function value first. -/
def looseEq (toNumber : String → JsNumber) : JsValue → JsValue → Bool
  | .undefined, .undefined => true
  | .undefined, .null => true
  | .null, .undefined => true
  | .null, .null => true
  | .bool a, .bool b => a == b
  | .num a, .num b => a.eq b
  | .str a, .str b => a == b
  | .num a, .str b => a.eq (toNumber b)
  | .str a, .num b => (toNumber a).eq b
  | .bool a, .num b => (boolNumber a).eq b
  | .num a, .bool b => a.eq (boolNumber b)
  | .bool a, .str b => (boolNumber a).eq (toNumber b)
  | .str a, .bool b => (toNumber a).eq (boolNumber b)
  | .array a, .str b => arrayText a == b
  | .str a, .array b => a == arrayText b
  | .array a, .num b => (toNumber (arrayText a)).eq b
  | .num a, .array b => a.eq (toNumber (arrayText b))
  | .array a, .bool b => (toNumber (arrayText a)).eq (boolNumber b)
  | .bool a, .array b => (boolNumber a).eq (toNumber (arrayText b))
  | .object a, .str b => a == b
  | .str a, .object b => a == b
  | .object a, .num b => (toNumber a).eq b
  | .num a, .object b => a.eq (toNumber b)
  | .object a, .bool b => (toNumber a).eq (boolNumber b)
  | .bool a, .object b => (boolNumber a).eq (toNumber b)
  | _, _ => false

/-- The loop of the attribute constructor that builds `this._name`: position `i` gives
`name[i]` when `name[i] == lower[i]` and `'_' + lower[i]` otherwise, `lower` being
`name.toLowerCase()`. -/
def snakeCase (name : String) : String :=
  ⟨(List.zip name.data (toLowerCase name).data).flatMap
    (fun p => if p.1 = p.2 then [p.1] else ['_', p.2])⟩

/-- The method `getAttributeSchema(operator, name)`: the attribute map is built from
`schema.attributes`, a later attribute of the same name replacing an earlier one, and
`name` is looked up in it. The map is cached on the schema; the embedding rebuilds it. For
a name without entry the plain object `attributeMap` can still give a property it inherits;
that value has no `type` and no own `visible` or `default`, so the attribute constructor
treats it like no schema, and the embedding returns `none` for it. -/
def TensorFlowLiteOperatorMetadata.getAttributeSchema
    (metadata : TensorFlowLiteOperatorMetadata) (operator : String) (name : String) :
    Option AttributeSchema :=
  match metadata.getSchema operator with
  | some schema =>
    let attributeMap :=
      match schema.attributes with
      | some attributes => attributes.foldl (fun map (a : AttributeSchema) => (a.name, a) :: map)
          ([] : List (String × AttributeSchema))
      | none => []
    attributeMap.lookup name
  | none => none

/-- The class `TensorFlowLiteAttribute`; `_visible` is `none` unless the constructor
assigned `false`. -/
structure TensorFlowLiteAttribute where
  _type : Option String
  _value : JsValue
  _name : String
  _visible : Option Bool
  deriving DecidableEq, Repr

/-- The value compared with the default: `if (typeof value == 'function') value = value()`. -/
def resolveValue : JsValue → JsValue
  | .fn result => .str result
  | value => value

/-- The constructor of `TensorFlowLiteAttribute`. `enumLookup t v` is `tflite[t][v]` of the
generated schema module, `undefined` when `tflite[t]` or the entry is missing. -/
def TensorFlowLiteAttribute.new (enumLookup : String → JsValue → JsValue)
    (toNumber : String → JsNumber) (metadata : TensorFlowLiteOperatorMetadata)
    (operator : String) (name : String) (value : JsValue) : TensorFlowLiteAttribute :=
  let _name := snakeCase name
  match metadata.getAttributeSchema operator _name with
  | none => ⟨none, value, _name, none⟩
  | some schema =>
    let _type := if truthyStr schema.type then schema.type else none
    let _value :=
      match _type with
      | some t => if (enumLookup t value).truthy then enumLookup t value else value
      | none => value
    let _visible :=
      if schema.visible = some false then some false
      else
        match schema.default with
        | some d => if looseEq toNumber (resolveValue _value) d then some false else none
        | none => none
    ⟨_type, _value, _name, _visible⟩

/-- The `name` getter. -/
def TensorFlowLiteAttribute.name (a : TensorFlowLiteAttribute) : String :=
  a._name

/-- The `type` getter. -/
def TensorFlowLiteAttribute.type (a : TensorFlowLiteAttribute) : Option String :=
  a._type

/-- The `value` getter. -/
def TensorFlowLiteAttribute.value (a : TensorFlowLiteAttribute) : JsValue :=
  a._value

/-- The `visible` getter: `this._visible == false ? false : true`. -/
def TensorFlowLiteAttribute.visible (a : TensorFlowLiteAttribute) : Bool :=
  if a._visible = some false then false else true

/-- The options record `Reflect.construct(optionsType, [])` after
`node.builtinOptions(options)`: `keys` is `Object.keys(Object.getPrototypeOf(options))` and
`accessor name` the result of the call `options[name]()`, `none` when `options[name]` is
not a function. -/
structure OptionsRecord where
  keys : List String
  accessor : String → Option JsValue

/-- The names of the properties that a plain object `{}` inherits from `Object.prototype`.
The value of each is a function or an object, so the test `map[name]` on a plain object
`map` succeeds for these names also when `name` was never assigned. -/
def objectPrototypeNames : List String :=
  ["constructor", "__defineGetter__", "__defineSetter__", "hasOwnProperty",
   "__lookupGetter__", "__lookupSetter__", "isPrototypeOf", "propertyIsEnumerable",
   "toString", "valueOf", "__proto__", "toLocaleString"]

/-- The own keys `Object.keys(map)` of a plain object `map = {}` after `map[name] = true`
for every `name` of `names`: the assignment to `__proto__` creates no own key. The keys
come in the order of `names` when `names` is itself the result of `Object.keys`. -/
def assignedKeys (names : List String) : List String :=
  names.filter (fun name => name != "__proto__")

/-- The test `map[name]` on a plain object `map = {}` after `map[name] = true` for every
`name` of `names`: it succeeds for an own key and for an inherited property. -/
def mapHas (names : List String) (name : String) : Bool :=
  decide (name ∈ assignedKeys names) || decide (name ∈ objectPrototypeNames)

/-- The list `attributeNames` of the node constructor when its last loop starts: the keys
other than `'__init'`, filtered once for every own key `attributeName` of
`attributeNamesMap` that passes the test
`attributeNamesMap[attributeName + 'Array'] && attributeNamesMap[attributeName + 'Length']`. -/
def attributeNames (keys : List String) : List String :=
  (assignedKeys keys).foldl
    (fun names attributeName =>
      if mapHas keys (attributeName ++ "Array") ∧ mapHas keys (attributeName ++ "Length") then
        names.filter (fun item =>
          item != attributeName ++ "Array" && item != attributeName ++ "Length")
      else names)
    (keys.filter (fun attributeName => attributeName != "__init"))

/-- The names assigned in `attributeArrayNamesMap`: the own keys of `attributeNamesMap` that
pass the test of both partners. -/
def arrayNames (keys : List String) : List String :=
  (assignedKeys keys).filter (fun attributeName =>
    mapHas keys (attributeName ++ "Array") && mapHas keys (attributeName ++ "Length"))

/-- The test `attributeArrayNamesMap[name]` on the plain object `attributeArrayNamesMap`. -/
def isArrayName (keys : List String) (name : String) : Bool :=
  mapHas (arrayNames keys) name

/-- The call `options[name]()`; a `TypeError` when `options[name]` is not a function. -/
def callAccessor (options : OptionsRecord) (name : String) : Except JsError JsValue :=
  match options.accessor name with
  | some value => .ok value
  | none => .error .typeError

/-- The largest length of an array, `2 ^ 32 - 1`: the call `array.push` that would make
the array longer raises a `RangeError`. -/
def MAX_ARRAY_LENGTH : Nat := 2 ^ 32 - 1

/-- The number of indices `i = 0, 1, ...` with `i < x`, counted up to `MAX_ARRAY_LENGTH + 1`:
none for `NaN`, and `MAX_ARRAY_LENGTH + 1` stands for every larger count. -/
def numberTurns : JsNumber → Nat
  | .finite q => min (-((-q.num) / (q.den : Int))).toNat (MAX_ARRAY_LENGTH + 1)
  | .posInf => MAX_ARRAY_LENGTH + 1
  | _ => 0

/-- The number of turns that `for (var i = 0; i < length; i++)` asks for, counted up to
`MAX_ARRAY_LENGTH + 1`; `i < length` converts `length` to a number. -/
def lengthTurns (toNumber : String → JsNumber) : JsValue → Nat
  | .num x => numberTurns x
  | .bool b => numberTurns (boolNumber b)
  | .str s => numberTurns (toNumber s)
  | .array items => numberTurns (toNumber (arrayText items))
  | .object text => numberTurns (toNumber text)
  | _ => 0

/-- The text that `array.join(', ')` shows for the element `a[i]` pushed by the loop; the
read `a[i]` is a `TypeError` when `a` is `null` or `undefined`. -/
def elementText (a : JsValue) (i : Nat) : Except JsError String :=
  match a with
  | .array items =>
    .ok (match items[i]? with
         | some n => toString n
         | none => "")
  | .str s =>
    .ok (match s.data[i]? with
         | some c => String.singleton c
         | none => "")
  | .null => .error .typeError
  | .undefined => .error .typeError
  | _ => .ok ""

/-- The loop `for (var i = 0; i < length; i++) array.push(a[i])`, over the positions left. -/
def collectElements (a : JsValue) : List Nat → List String → Except JsError (List String)
  | [], array => .ok array
  | i :: rest, array =>
    match elementText a i with
    | .ok text => collectElements a rest (array ++ [text])
    | .error e => .error e

/-- The `value` the node constructor computes for the field `name`: the lazily rendered
array for an `Array`/`Length` pair, the result of the accessor otherwise. -/
def attributeValue (toNumber : String → JsNumber) (options : OptionsRecord)
    (name : String) : Except JsError JsValue :=
  if isArrayName options.keys name then
    match callAccessor options (name ++ "Length") with
    | .error e => .error e
    | .ok length =>
      match callAccessor options (name ++ "Array") with
      | .error e => .error e
      | .ok a =>
        match collectElements a
            (List.range (min (lengthTurns toNumber length) MAX_ARRAY_LENGTH)) [] with
        | .error e => .error e
        | .ok array =>
          if lengthTurns toNumber length ≤ MAX_ARRAY_LENGTH then
            .ok (.fn ("[" ++ ", ".intercalate array ++ "]"))
          else .error .rangeError
  else callAccessor options name

/-- The loop `attributeNames.forEach` of the node constructor, over the names left. -/
def attributesLoop (enumLookup : String → JsValue → JsValue) (toNumber : String → JsNumber)
    (metadata : TensorFlowLiteOperatorMetadata) (operator : String)
    (options : OptionsRecord) :
    List String → List TensorFlowLiteAttribute → Except JsError (List TensorFlowLiteAttribute)
  | [], attributes => .ok attributes
  | name :: rest, attributes =>
    if (options.accessor name).isSome then
      match attributeValue toNumber options name with
      | .ok value =>
        attributesLoop enumLookup toNumber metadata operator options rest
          (attributes ++ [TensorFlowLiteAttribute.new enumLookup toNumber metadata operator
            name value])
      | .error e => .error e
    else attributesLoop enumLookup toNumber metadata operator options rest attributes

/-- The part of the constructor of `TensorFlowLiteNode` that builds `this._attributes`, the
list the `attributes` getter returns. `options` is `none` when the operator has no options
type (`typeof optionsType !== 'function'`). -/
def nodeAttributes (enumLookup : String → JsValue → JsValue) (toNumber : String → JsNumber)
    (metadata : TensorFlowLiteOperatorMetadata) (operator : String)
    (options : Option OptionsRecord) : Except JsError (List TensorFlowLiteAttribute) :=
  match options with
  | none => .ok []
  | some options =>
    attributesLoop enumLookup toNumber metadata operator options
      (attributeNames options.keys) []

/-! ### Notions used to state the decoder properties -/

/-- The byte width of a fixed-width data type, as the `switch` of `_decode` advances
`context.index`. -/
def scalarWidth (dataType : String) : Option Nat :=
  if dataType = "uint8" then some 1
  else if dataType = "int32" then some 4
  else if dataType = "int64" then some 8
  else if dataType = "float16" then some 2
  else if dataType = "float32" then some 4
  else none

/-- The number of scalars of a shape: the product of its dimensions (a negative dimension
gives no loop turn and counts as 0); 1 for the empty shape. -/
def elementCount (dimensions : List Int) : Nat :=
  (dimensions.map Int.toNat).prod

/-- The integer scalar that a read of data type `dataType` at byte offset `index` gives,
as a list; empty for the data types that are not integers. -/
def intScalarAt (dataType : String) (data : List Byte) (index : Nat) : List Int :=
  if dataType = "uint8" then [(littleEndian ((data.drop index).take 1) : Nat)]
  else if dataType = "int32" then [toSigned 32 (littleEndian ((data.drop index).take 4))]
  else if dataType = "int64" then [toSigned 64 (littleEndian ((data.drop index).take 8))]
  else []

/-- The context with `elements` more scalars of width `width` consumed. -/
def Context.advance (context : Context) (width elements : Nat) : Context :=
  { context with index := context.index + width * elements,
                 count := context.count + elements }

/-- The `width` little-endian bytes of the unsigned number `n`. -/
def encodeLittleEndian : Nat → Nat → List Byte
  | 0, _ => []
  | width + 1, n => ⟨n % 256, Nat.mod_lt _ (by decide)⟩ :: encodeLittleEndian width (n / 256)

/-- The little-endian encoding of a scalar of data type `uint8` (one byte) or `int32`
(four bytes, two's complement). -/
def encodeScalar (dataType : String) (x : Int) : List Byte :=
  if dataType = "uint8" then encodeLittleEndian 1 (x % 256).toNat
  else encodeLittleEndian 4 (x % 2 ^ 32).toNat

/-- Whether `x` is a scalar of data type `uint8`, respectively `int32`. -/
def inScalarRange (dataType : String) (x : Int) : Prop :=
  if dataType = "uint8" then 0 ≤ x ∧ x < 256 else -(2 ^ 31) ≤ x ∧ x < 2 ^ 31

instance (dataType : String) (x : Int) : Decidable (inScalarRange dataType x) := by
  unfold inScalarRange
  infer_instance

/-- The buffer that holds the flat scalar sequence `xs`, little-endian. -/
def encodeBuffer (dataType : String) (xs : List Int) : List Byte :=
  xs.flatMap (encodeScalar dataType)

/-- The integer scalars read by `n` successive reads of width `width` that start at byte
offset `index`. -/
def flatScalars (dataType : String) (data : List Byte) (width index n : Nat) : List Int :=
  (List.range n).flatMap (fun j => intScalarAt dataType data (index + width * j))

/-- The running offset is `width` times the running count and lies within the buffer, and
the buffer is no longer than the cutoff: the situation of a decode with unbounded cutoff. -/
def Context.tight (context : Context) (width : Nat) : Prop :=
  context.index = width * context.count ∧ context.index ≤ context.data.length ∧
    ∀ limit, context.limit = some limit → context.data.length ≤ limit

/-- The behaviour of a decoding step `decode` that consumes `elements` scalars of data type
`dataType` from `data` under shape `dimensions`: it succeeds with that many scalars when
they fit into the buffer and fails with a `RangeError` when they do not. -/
def DecodesExactly (dataType : String) (dimensions : List Int) (data : List Byte)
    (width : Nat) (decode : Context → Option (Except JsError (TensorValue × Context)))
    (elements : Nat) : Prop :=
  ∀ context : Context, context.dataType = dataType → context.dimensions = dimensions →
    context.data = data → context.tight width →
    (context.index + width * elements ≤ data.length →
      ∃ v, decode context = some (.ok (v, context.advance width elements)) ∧
        v.leaves = elements ∧
        v.flatten = flatScalars dataType data width context.index elements) ∧
    (¬ context.index + width * elements ≤ data.length →
      decode context = some (.error .rangeError))

/-! ### Example tensors -/

/-- A sample of the enumeration `tflite.TensorType`. -/
def sampleTensorTypes (code : Int) : Option String :=
  if code = 0 then some "FLOAT32"
  else if code = 1 then some "FLOAT16"
  else if code = 2 then some "INT32"
  else if code = 3 then some "UINT8"
  else if code = 4 then some "INT64"
  else if code = 5 then some "STRING"
  else none

/-- A text decoder for the examples; none of them has the data type `string`. -/
def sampleDecodeText (_ : List Byte) : String := ""

/-- A rendering for the examples; none of them reads the rendered text. -/
def sampleStringify (_ : TensorValue) : String := "[]"

/-- A context for five `uint8` scalars under shape `[5]` with cutoff 2. -/
def cutoffContext : Context :=
  ⟨none, 0, 0, "uint8", [5], [10, 20, 30, 40, 50], [], some 2⟩

/-- A context for two `int32` scalars under shape `[2, 1]` with the cutoff of `value`. -/
def int32Context : Context :=
  ⟨none, 0, 0, "int32", [2, 1], [1, 0, 0, 0, 255, 255, 255, 255], [], some MAX_SAFE_INTEGER⟩

/-- The context of `int32Context` with a buffer one byte short. -/
def shortContext : Context :=
  ⟨none, 0, 0, "int32", [2, 1], [1, 0, 0, 0, 255, 255, 255], [], some MAX_SAFE_INTEGER⟩

/-- A `uint8` tensor record of shape `[2, 2]`. -/
def squareRecord : TensorRecord := ⟨some "weights", 3, [2, 2], 1⟩

/-- An `int32` tensor record of shape `[2, 1]`. -/
def columnRecord : TensorRecord := ⟨some "offsets", 2, [2, 1], 1⟩

/-- A `uint8` tensor record of the empty shape. -/
def scalarRecord : TensorRecord := ⟨some "axis", 3, [], 1⟩

/-- A `uint8` tensor record of shape `[0]`. -/
def emptyRecord : TensorRecord := ⟨some "none", 3, [0], 1⟩

/-! ### Notions and examples used to state the attribute properties -/

/-- The fields for which the node constructor builds an attribute: the names left in
`attributeNames` whose accessor is a function, in order. -/
def emittedFields (options : OptionsRecord) : List String :=
  (attributeNames options.keys).filter (fun name => (options.accessor name).isSome)

/-- The value of `attributeValue` when it does not fail. -/
def fieldValue (toNumber : String → JsNumber) (options : OptionsRecord) (name : String) :
    JsValue :=
  match attributeValue toNumber options name with
  | .ok value => value
  | .error _ => .undefined

/-- A sample of the enumerations of the generated schema module. -/
def sampleEnumLookup (t : String) (v : JsValue) : JsValue :=
  if t = "ActivationFunctionType" then
    (if v = .num 0 then .str "NONE" else if v = .num 1 then .str "RELU" else .undefined)
  else .undefined

/-- A sample of the conversion of strings to numbers. -/
def sampleToNumber (s : String) : JsNumber :=
  if s = "" then 0 else if s = "0" then 0 else if s = "1" then 1 else .nan

/-- A catalog with one operator that declares a default for `axis` and marks `hidden`
invisible. -/
def attributeCatalog : TensorFlowLiteOperatorMetadata :=
  TensorFlowLiteOperatorMetadata.new (some [
    { name := some "Squeeze",
      schema := some { attributes := some [
        { name := "axis", default := some (.num 0) },
        { name := "hidden", visible := some false }] } }])

/-- Attribute entries with defaults of several kinds: a string, a fraction, an integer
declared twice, and a boolean next to `visible: true`; and an entry marked invisible. -/
def defaultsAttributes : List AttributeSchema :=
  [{ name := "new_shape", default := some (.str "[1, 2]") },
   { name := "alpha", default := some (.num (.finite (mkRat 1 2))) },
   { name := "axis", default := some (.num 7) },
   { name := "axis", default := some (.num 0) },
   { name := "hidden", visible := some false },
   { name := "shown", visible := some true, default := some (.bool true) }]

/-- A catalog whose operator `Reshape` declares the entries of `defaultsAttributes`. -/
def defaultsCatalog : TensorFlowLiteOperatorMetadata :=
  TensorFlowLiteOperatorMetadata.new (some [
    { name := some "Reshape", schema := some { attributes := some defaultsAttributes } }])

/-- The attribute that the constructor builds for a field of the operator `Reshape` under
`defaultsCatalog`. -/
def defaultsAttribute (name : String) (value : JsValue) : TensorFlowLiteAttribute :=
  TensorFlowLiteAttribute.new sampleEnumLookup sampleToNumber defaultsCatalog "Reshape" name
    value

/-- An options record with the fields `axis` and `hidden`. -/
def squeezeOptions (axis : Int) : OptionsRecord :=
  ⟨["__init", "axis", "hidden"],
   fun name =>
     if name = "__init" then some .undefined
     else if name = "axis" then some (.num axis)
     else if name = "hidden" then some (.num 5)
     else none⟩

/-! ## Model, graph, node and connection -/

/-- The method `String.prototype.split(separator)` for a one-character separator, on the
characters of the string. -/
def splitChars (separator : Char) : List Char → List (List Char)
  | [] => [[]]
  | c :: rest =>
    if c = separator then [] :: splitChars separator rest
    else
      match splitChars separator rest with
      | [] => [[c]]
      | piece :: pieces => (c :: piece) :: pieces

/-- The keys of the object `upperCase` of the model constructor. The enumeration keys are
uppercase, so a piece never names an inherited property of that object. -/
def upperCase : List (List Char) :=
  ["2D".data, "LSH".data, "SVDF".data, "RNN".data, "L2".data, "LSTM".data]

/-- The function mapped over the pieces of an enumeration key:
`(s.length < 1 || upperCase[s]) ? s : s.substring(0, 1) + s.substring(1).toLowerCase()`. -/
def canonicalPiece (s : List Char) : List Char :=
  if s.length < 1 ∨ s ∈ upperCase then s else s.take 1 ++ (s.drop 1).map Char.toLower

/-- The canonical builtin operator name of an enumeration key:
`key.split('_').map(...).join('')`. -/
def canonicalName (key : String) : String :=
  ⟨((splitChars '_' key.data).map canonicalPiece).flatten⟩

/-- A JavaScript value that is a string, `null` or `undefined`: an operator name or an
argument name. -/
inductive JsName where
  | str (s : String)
  | null
  | undefined
  deriving DecidableEq, Repr

/-- The string a name converts to, as a property key or in a concatenation. -/
def JsName.text : JsName → String
  | .str s => s
  | .null => "null"
  | .undefined => "undefined"

/-- The `id` getter of `TensorFlowLiteTensor`. -/
def TensorFlowLiteTensor.id (tensor : TensorFlowLiteTensor) : String :=
  ToString.toString tensor._id

/-- The `name` getter of `TensorFlowLiteTensor`; `none` is `null`. -/
def TensorFlowLiteTensor.name (tensor : TensorFlowLiteTensor) : Option String :=
  tensor._name

/-- The `type` getter of `TensorFlowLiteTensor`. -/
def TensorFlowLiteTensor.type (tensor : TensorFlowLiteTensor) : TensorFlowLiteTensorType :=
  tensor._type

/-- The values reached from `window` by `_getType`: an object with its properties, the
class of a typed options record (a function) with the keys of its prototype, or another
truthy value. -/
inductive WindowValue where
  | object (properties : List (String × WindowValue))
  | optionsType (keys : List String)
  | other

/-- What the reader takes from outside this file: the enumerations `tflite.TensorType` and
`tflite.BuiltinOperator` and the enumeration lookup `tflite[t][v]` of the generated schema
module, the conversion of strings to numbers, the global object `window`, the catalog
`TensorFlowLiteOperatorMetadata.operatorMetadata`, and the quantization expression of a
tensor, which the connection constructor builds from floating-point fields. -/
structure Environment where
  tensorTypes : Int → Option String
  builtinOperators : List (String × Int)
  enumLookup : String → JsValue → JsValue
  toNumber : String → JsNumber
  quantization : TensorRecord → Option String
  window : WindowValue
  metadata : TensorFlowLiteOperatorMetadata

/-- The class `TensorFlowLiteConnection`; `_type` and `_initializer` are `none` for `null`,
`_quantization` is `none` when it is not assigned. -/
structure TensorFlowLiteConnection where
  _id : String
  _type : Option TensorFlowLiteTensorType
  _initializer : Option TensorFlowLiteTensor
  _quantization : Option String
  deriving Repr

/-- The constructor of `TensorFlowLiteConnection`. -/
def TensorFlowLiteConnection.new (env : Environment) (tensor : TensorRecord) (index : Nat)
    (initializer : Option TensorFlowLiteTensor) : TensorFlowLiteConnection :=
  { _id := if truthyStr tensor.name then tensor.name.getD "" else toString index,
    _type :=
      match initializer with
      | some _ => none
      | none => some (TensorFlowLiteTensorType.new env.tensorTypes tensor),
    _initializer := initializer,
    _quantization := env.quantization tensor }

/-- The `id` getter of `TensorFlowLiteConnection`; `none` is `null`. -/
def TensorFlowLiteConnection.id (connection : TensorFlowLiteConnection) : Option String :=
  match connection._initializer with
  | some initializer => initializer.name
  | none => some connection._id

/-- The `type` getter of `TensorFlowLiteConnection`. -/
def TensorFlowLiteConnection.type (connection : TensorFlowLiteConnection) :
    Option TensorFlowLiteTensorType :=
  match connection._initializer with
  | some initializer => some initializer.type
  | none => connection._type

/-- The `initializer` getter of `TensorFlowLiteConnection`. -/
def TensorFlowLiteConnection.initializer (connection : TensorFlowLiteConnection) :
    Option TensorFlowLiteTensor :=
  connection._initializer

/-- The `quantization` getter of `TensorFlowLiteConnection`. -/
def TensorFlowLiteConnection.quantization (connection : TensorFlowLiteConnection) :
    Option String :=
  connection._quantization

/-- The class `TensorFlowLiteArgument`; an entry of `_connections` is `none` when the index
read from the connection table gave `undefined`. -/
structure TensorFlowLiteArgument where
  _name : JsName
  _visible : Bool
  _connections : List (Option TensorFlowLiteConnection)
  deriving Repr

/-- The `name` getter of `TensorFlowLiteArgument`. -/
def TensorFlowLiteArgument.name (argument : TensorFlowLiteArgument) : JsName :=
  argument._name

/-- The `visible` getter of `TensorFlowLiteArgument`. -/
def TensorFlowLiteArgument.visible (argument : TensorFlowLiteArgument) : Bool :=
  argument._visible

/-- The `connections` getter of `TensorFlowLiteArgument`. -/
def TensorFlowLiteArgument.connections (argument : TensorFlowLiteArgument) :
    List (Option TensorFlowLiteConnection) :=
  argument._connections

/-- The read `connections[index]` of the connection table for a raw tensor index. -/
def connectionAt (connections : List TensorFlowLiteConnection) (index : Int) :
    Option TensorFlowLiteConnection :=
  if index < 0 then none else connections[index.toNat]?

/-- The operator record of a subgraph: the raw inputs and outputs, `opcodeIndex()`, and for
each method name of an options record filled by `builtinOptions(options)` the result of its
call (`none` when that property is no function). -/
structure SubGraphOperator extends OperatorRecord where
  opcodeIndex : Nat
  accessor : String → Option JsValue

/-- The loop of the static method `_getType(name)` over the pieces of the name left. -/
def getTypeLoop : List String → WindowValue → Option WindowValue
  | [], type => some type
  | item :: rest, type =>
    match type with
    | .object properties =>
      match properties.lookup item with
      | some next => getTypeLoop rest next
      | none => none
    | _ => none

/-- The static method `_getType(name)`: the value reached from `window` along the pieces
of `name.split('.')`, `none` for `null`. -/
def _getType (window : WindowValue) (name : String) : Option WindowValue :=
  getTypeLoop ((splitChars '.' name.data).map String.mk) window

/-- The options record the node constructor reads: present when
`typeof optionsType === 'function'`. -/
def nodeOptions (window : WindowValue) (node : SubGraphOperator) (operator : JsName) :
    Option OptionsRecord :=
  match _getType window ("tflite." ++ operator.text ++ "Options") with
  | some (.optionsType keys) => some ⟨keys, node.accessor⟩
  | _ => none

/-- The class `TensorFlowLiteNode`. -/
structure TensorFlowLiteNode where
  _operator : JsName
  _inputs : List TensorFlowLiteArgument
  _outputs : List TensorFlowLiteArgument
  _attributes : List TensorFlowLiteAttribute
  deriving Repr

/-- The constructor of `TensorFlowLiteNode`. The outer `Option` is `none` only if
`getInputs` runs out of fuel. -/
def TensorFlowLiteNode.new (env : Environment) (node : SubGraphOperator) (operator : JsName)
    (connections : List TensorFlowLiteConnection) :
    Option (Except JsError TensorFlowLiteNode) :=
  match env.metadata.getInputs node.toOperatorRecord operator.text with
  | none => none
  | some inputs =>
    let _inputs := inputs.map (fun input =>
      (⟨.str input.name, input.visible != some false,
        input.connections.map (fun connection => connectionAt connections connection.id)⟩ :
        TensorFlowLiteArgument))
    let _outputs := ((List.range node.outputs.length).zip node.outputs).map (fun p =>
      (⟨.str (env.metadata.getOutputName operator.text p.1), true,
        [connectionAt connections p.2]⟩ : TensorFlowLiteArgument))
    match nodeAttributes env.enumLookup env.toNumber env.metadata operator.text
        (nodeOptions env.window node operator) with
    | .ok _attributes => some (.ok ⟨operator, _inputs, _outputs, _attributes⟩)
    | .error e => some (.error e)

/-- The `operator` getter of `TensorFlowLiteNode`. -/
def TensorFlowLiteNode.operator (node : TensorFlowLiteNode) : JsName :=
  node._operator

/-- The `inputs` getter of `TensorFlowLiteNode`. -/
def TensorFlowLiteNode.inputs (node : TensorFlowLiteNode) : List TensorFlowLiteArgument :=
  node._inputs

/-- The `outputs` getter of `TensorFlowLiteNode`. -/
def TensorFlowLiteNode.outputs (node : TensorFlowLiteNode) : List TensorFlowLiteArgument :=
  node._outputs

/-- The `attributes` getter of `TensorFlowLiteNode`. -/
def TensorFlowLiteNode.attributes (node : TensorFlowLiteNode) :
    List TensorFlowLiteAttribute :=
  node._attributes

/-- The subgraph record of the binary container. -/
structure SubGraphRecord where
  name : Option String
  tensors : List TensorRecord
  operators : List SubGraphOperator
  inputs : List Int
  outputs : List Int

/-- The operator-code record of the binary container. -/
structure OperatorCodeRecord where
  builtinCode : Int
  customCode : Option String
  deriving DecidableEq, Repr

/-- The model record of the binary container; `buffers index` is `none` when the accessor
gives `null`. -/
structure ModelRecord where
  version : Nat
  description : Option String
  operatorCodes : List OperatorCodeRecord
  subgraphs : List SubGraphRecord
  buffers : Nat → Option BufferRecord

/-- The first loop of the graph constructor, over the tensor records left: the connection
table and the list of tensor names. Reading `dataLength()` of a buffer that is `null` is a
`TypeError`. -/
def buildConnections (env : Environment) (model : ModelRecord) :
    List TensorRecord → Nat → List TensorFlowLiteConnection → List (Option String) →
    Except JsError (List TensorFlowLiteConnection × List (Option String))
  | [], _, connections, names => .ok (connections, names)
  | tensor :: rest, i, connections, names =>
    match model.buffers tensor.buffer with
    | none => .error .typeError
    | some buffer =>
      let initializer :=
        if buffer.dataLength > 0 then
          some (TensorFlowLiteTensor.new env.tensorTypes tensor i buffer)
        else none
      buildConnections env model rest (i + 1)
        (connections ++ [TensorFlowLiteConnection.new env tensor i initializer])
        (names ++ [tensor.name])

/-- The operator name the graph constructor resolves for an opcode index. -/
def operatorNameAt (operatorCodeList : List JsName) (opcodeIndex : Nat) : JsName :=
  if opcodeIndex < operatorCodeList.length then operatorCodeList.getD opcodeIndex .undefined
  else .str ("(" ++ toString opcodeIndex ++ ")")

/-- A value of the tally `this._operators`, a plain object: a count, or the text that
`+ 1` makes of the property `Object.prototype[base]` that the object inherits, which is
that property as a string followed by `ones` digits `1`. -/
inductive TallyValue where
  | count (n : Nat)
  | text (base : String) (ones : Nat)
  deriving DecidableEq, Repr

/-- The update `this._operators[key] = (this._operators[key] || 0) + 1` of the tally, an
association list in the order of the first assignments. For a key that the plain object
inherits the value read is an object or a function, so `+ 1` appends to its text; the
assignment of that text to `__proto__` creates no key. -/
def tallyOperator (operators : List (String × TallyValue)) (key : String) :
    List (String × TallyValue) :=
  match operators.lookup key with
  | some (.count n) =>
    operators.map (fun p => if p.1 = key then (p.1, .count (n + 1)) else p)
  | some (.text base ones) =>
    operators.map (fun p => if p.1 = key then (p.1, .text base (ones + 1)) else p)
  | none =>
    if key = "__proto__" then operators
    else if key ∈ objectPrototypeNames then operators ++ [(key, .text key 1)]
    else operators ++ [(key, .count 1)]

/-- The second loop of the graph constructor, over the operator records left. -/
def buildNodes (env : Environment) (operatorCodeList : List JsName)
    (connections : List TensorFlowLiteConnection) :
    List SubGraphOperator → List TensorFlowLiteNode → List (String × TallyValue) →
    Option (Except JsError (List TensorFlowLiteNode × List (String × TallyValue)))
  | [], nodes, operators => some (.ok (nodes, operators))
  | operator :: rest, nodes, operators =>
    match TensorFlowLiteNode.new env operator
        (operatorNameAt operatorCodeList operator.opcodeIndex) connections with
    | none => none
    | some (.error e) => some (.error e)
    | some (.ok node) =>
      buildNodes env operatorCodeList connections rest (nodes ++ [node])
        (tallyOperator operators node.operator.text)

/-- The name `names[index]` of a graph input or output. -/
def nameAt (names : List (Option String)) (index : Int) : JsName :=
  if index < 0 then .undefined
  else
    match names[index.toNat]? with
    | some (some name) => .str name
    | some none => .null
    | none => .undefined

/-- The class `TensorFlowLiteGraph`. -/
structure TensorFlowLiteGraph where
  _name : String
  _nodes : List TensorFlowLiteNode
  _inputs : List TensorFlowLiteArgument
  _outputs : List TensorFlowLiteArgument
  _operators : List (String × TallyValue)
  deriving Repr

/-- The constructor of `TensorFlowLiteGraph`. -/
def TensorFlowLiteGraph.new (env : Environment) (graph : SubGraphRecord) (name : String)
    (operatorCodeList : List JsName) (model : ModelRecord) :
    Option (Except JsError TensorFlowLiteGraph) :=
  let _name := if truthyStr graph.name then graph.name.getD "" else name
  match buildConnections env model graph.tensors 0 [] [] with
  | .error e => some (.error e)
  | .ok (connections, names) =>
    match buildNodes env operatorCodeList connections graph.operators [] [] with
    | none => none
    | some (.error e) => some (.error e)
    | some (.ok (nodes, operators)) =>
      let _inputs := graph.inputs.map (fun inputIndex =>
        (⟨nameAt names inputIndex, true, [connectionAt connections inputIndex]⟩ :
          TensorFlowLiteArgument))
      let _outputs := graph.outputs.map (fun outputIndex =>
        (⟨nameAt names outputIndex, true, [connectionAt connections outputIndex]⟩ :
          TensorFlowLiteArgument))
      some (.ok ⟨_name, nodes, _inputs, _outputs, operators⟩)

/-- The `name` getter of `TensorFlowLiteGraph`. -/
def TensorFlowLiteGraph.name (graph : TensorFlowLiteGraph) : String :=
  graph._name

/-- The `nodes` getter of `TensorFlowLiteGraph`. -/
def TensorFlowLiteGraph.nodes (graph : TensorFlowLiteGraph) : List TensorFlowLiteNode :=
  graph._nodes

/-- The `inputs` getter of `TensorFlowLiteGraph`. -/
def TensorFlowLiteGraph.inputs (graph : TensorFlowLiteGraph) : List TensorFlowLiteArgument :=
  graph._inputs

/-- The `outputs` getter of `TensorFlowLiteGraph`. -/
def TensorFlowLiteGraph.outputs (graph : TensorFlowLiteGraph) :
    List TensorFlowLiteArgument :=
  graph._outputs

/-- The `operators` getter of `TensorFlowLiteGraph`. -/
def TensorFlowLiteGraph.operators (graph : TensorFlowLiteGraph) : List (String × TallyValue) :=
  graph._operators

/-- The object `builtinOperatorMap` of the model constructor: the canonical name of every
enumeration key under its index, a later key of the same index replacing an earlier one. -/
def builtinOperatorMap (builtinOperators : List (String × Int)) : List (Int × String) :=
  builtinOperators.foldl (fun map entry => (entry.2, canonicalName entry.1) :: map) []

/-- The list `operatorCodeList` of the model constructor. -/
def operatorCodeList (builtinOperators : List (String × Int))
    (operatorCodes : List OperatorCodeRecord) : List JsName :=
  operatorCodes.map (fun operatorCode =>
    if some operatorCode.builtinCode = builtinOperators.lookup "CUSTOM" then
      (match operatorCode.customCode with
       | some code => JsName.str code
       | none => JsName.null)
    else
      (match (builtinOperatorMap builtinOperators).lookup operatorCode.builtinCode with
       | some name => JsName.str name
       | none => JsName.undefined))

/-- The class `TensorFlowLiteModel`; `_description` is `none` for `null`. -/
structure TensorFlowLiteModel where
  _graphs : List TensorFlowLiteGraph
  _format : String
  _description : Option String
  deriving Repr

/-- The loop of the model constructor over the subgraph records left, `subgraph` being the
position of the first of them. -/
def buildGraphs (env : Environment) (model : ModelRecord) (operatorCodeList : List JsName)
    (subgraphsLength : Nat) :
    List SubGraphRecord → Nat → List TensorFlowLiteGraph →
    Option (Except JsError (List TensorFlowLiteGraph))
  | [], _, graphs => some (.ok graphs)
  | graph :: rest, subgraph, graphs =>
    let name := if subgraphsLength > 1 then "(" ++ toString subgraph ++ ")" else ""
    match TensorFlowLiteGraph.new env graph name operatorCodeList model with
    | none => none
    | some (.error e) => some (.error e)
    | some (.ok built) =>
      buildGraphs env model operatorCodeList subgraphsLength rest (subgraph + 1)
        (graphs ++ [built])

/-- The constructor of `TensorFlowLiteModel`. -/
def TensorFlowLiteModel.new (env : Environment) (model : ModelRecord) :
    Option (Except JsError TensorFlowLiteModel) :=
  let _format := "TensorFlow Lite v" ++ toString model.version
  let _description := if truthyStr model.description then model.description else none
  let codes := operatorCodeList env.builtinOperators model.operatorCodes
  match buildGraphs env model codes model.subgraphs.length model.subgraphs 0 [] with
  | none => none
  | some (.error e) => some (.error e)
  | some (.ok graphs) => some (.ok ⟨graphs, _format, _description⟩)

/-- The `format` getter of `TensorFlowLiteModel`. -/
def TensorFlowLiteModel.format (model : TensorFlowLiteModel) : String :=
  model._format

/-- The `description` getter of `TensorFlowLiteModel`. -/
def TensorFlowLiteModel.description (model : TensorFlowLiteModel) : Option String :=
  model._description

/-- The `graphs` getter of `TensorFlowLiteModel`. -/
def TensorFlowLiteModel.graphs (model : TensorFlowLiteModel) : List TensorFlowLiteGraph :=
  model._graphs

/-- The `context` of the model factory: the file identifier and the container bytes. -/
structure OpenContext where
  identifier : String
  buffer : List Byte
  deriving DecidableEq, Repr

/-- One call of the `callback` of `open`: `callback(err, null)` with the error of
`host.require`, `callback(new TensorFlowLiteError(message), ...)`, or
`callback(null, model)`. -/
inductive CallbackCall where
  | requireError (err : String)
  | error (message : String)
  | model (model : TensorFlowLiteModel)
  deriving Repr

/-- The binary layer of the generated schema module and the error texts of the runtime:
`tflite.Model.bufferHasIdentifier`, `tflite.Model.getRootAsModel`, and `error.message`. -/
structure SchemaReader where
  bufferHasIdentifier : List Byte → Except JsError Bool
  getRootAsModel : List Byte → Except JsError ModelRecord
  errorMessage : JsError → String

/-- The method `match(context, host)` of the model factory. -/
def TensorFlowLiteModelFactory.matches (context : OpenContext) : Bool :=
  let extension := String.mk ((splitChars '.' context.identifier.data).getLastD [])
  extension == "tflite" || extension == "lite"

/-- The text `identifier` that `open` puts into the message of a mismatch: the bytes
`buffer.slice(4, 8)` as characters when there are at least 8 bytes and each of the four
satisfies `c >= 32 && c <= 127`, the empty string otherwise. -/
def identifierText (buffer : List Byte) : String :=
  if buffer.length ≥ 8 ∧ ((buffer.drop 4).take 4).all (fun c => c.val ≥ 32 && c.val ≤ 127)
  then String.mk (((buffer.drop 4).take 4).map (fun c => Char.ofNat c.val))
  else ""

/-- The callback given to `TensorFlowLiteOperatorMetadata.open` by `open`:
`callback(null, new TensorFlowLiteModel(model))`, or the error the constructor throws;
with `model` still `null` the constructor throws a `TypeError`. -/
def openModel (env : Environment) (reader : SchemaReader) (model : Option ModelRecord) :
    Option (List CallbackCall) :=
  match model with
  | none => some [.error (reader.errorMessage .typeError)]
  | some model =>
    match TensorFlowLiteModel.new env model with
    | none => none
    | some (.ok built) => some [.model built]
    | some (.error e) => some [.error (reader.errorMessage e)]

/-- The method `open(context, host, callback)` of the model factory: the calls of
`callback`, in order. `requireError` is the error of `host.require`, if any; `env.metadata`
is the catalog that `TensorFlowLiteOperatorMetadata.open` hands over. -/
def TensorFlowLiteModelFactory.open (env : Environment) (reader : SchemaReader)
    (requireError : Option String) (context : OpenContext) : Option (List CallbackCall) :=
  match requireError with
  | some err => some [.requireError err]
  | none =>
    match reader.bufferHasIdentifier context.buffer with
    | .ok false =>
      some [.error ("Invalid FlatBuffers identifier '" ++ identifierText context.buffer
        ++ "' in '" ++ context.identifier ++ "'.")]
    | .ok true =>
      match reader.getRootAsModel context.buffer with
      | .ok model => openModel env reader (some model)
      | .error e =>
        (openModel env reader none).map (fun calls => .error (reader.errorMessage e) :: calls)
    | .error e =>
      (openModel env reader none).map (fun calls => .error (reader.errorMessage e) :: calls)

/-! ### Notions and examples used to state the graph and model properties -/

/-- The initializer the graph constructor builds for the tensor at position `i`. -/
def tensorInitializer (env : Environment) (model : ModelRecord) (i : Nat)
    (tensor : TensorRecord) : Option TensorFlowLiteTensor :=
  match model.buffers tensor.buffer with
  | some buffer =>
    if buffer.dataLength > 0 then some (TensorFlowLiteTensor.new env.tensorTypes tensor i buffer)
    else none
  | none => none

/-- The connection the graph constructor builds for the tensor at position `i`. -/
def tensorConnection (env : Environment) (model : ModelRecord) (i : Nat)
    (tensor : TensorRecord) : TensorFlowLiteConnection :=
  TensorFlowLiteConnection.new env tensor i (tensorInitializer env model i tensor)

/-- Reading the option fields of the operator record raises no error. -/
def attributesReadable (env : Environment) (operatorCodeList : List JsName)
    (operator : SubGraphOperator) : Bool :=
  (nodeAttributes env.enumLookup env.toNumber env.metadata
    (operatorNameAt operatorCodeList operator.opcodeIndex).text
    (nodeOptions env.window operator
      (operatorNameAt operatorCodeList operator.opcodeIndex))).toBool

/-- The conditions under which the graph constructor raises no error: every tensor has a
backing buffer record, and reading the option fields of every operator raises no error. -/
def GraphBuilds (env : Environment) (model : ModelRecord) (operatorCodeList : List JsName)
    (graph : SubGraphRecord) : Prop :=
  (∀ tensor ∈ graph.tensors, (model.buffers tensor.buffer).isSome = true) ∧
  (∀ operator ∈ graph.operators, attributesReadable env operatorCodeList operator = true)

instance (env : Environment) (model : ModelRecord) (operatorCodeList : List JsName)
    (graph : SubGraphRecord) : Decidable (GraphBuilds env model operatorCodeList graph) := by
  unfold GraphBuilds
  infer_instance

/-- A sample of the enumeration `tflite.BuiltinOperator`. -/
def sampleBuiltinOperators : List (String × Int) :=
  [("ADD", 0), ("CONV_2D", 3), ("SQUEEZE", 43), ("CUSTOM", 32)]

/-- A sample of the global object: the module `tflite` with one options class. -/
def sampleWindow : WindowValue :=
  .object [("tflite", .object [("SqueezeOptions", .optionsType ["__init", "axis", "hidden"])])]

/-- A sample environment: no tensor has a quantization expression. -/
def sampleEnvironment : Environment :=
  { tensorTypes := sampleTensorTypes,
    builtinOperators := sampleBuiltinOperators,
    enumLookup := sampleEnumLookup,
    toNumber := sampleToNumber,
    quantization := fun _ => none,
    window := sampleWindow,
    metadata := attributeCatalog }

/-- A subgraph with two tensors, the first with backing data, and two operators, the second
with an opcode index outside the operator-code table. -/
def sampleSubGraph : SubGraphRecord :=
  { name := none,
    tensors := [⟨some "weights", 3, [2, 2], 1⟩, ⟨some "input", 3, [2, 2], 0⟩],
    operators := [
      { inputs := [1, 0], outputs := [], opcodeIndex := 0,
        accessor := (squeezeOptions 1).accessor },
      { inputs := [1], outputs := [0], opcodeIndex := 7, accessor := fun _ => none }],
    inputs := [1],
    outputs := [] }

/-- A model record of version 3 with the sample subgraph; buffer 0 is empty, buffer 1 holds
four bytes. -/
def sampleModel : ModelRecord :=
  { version := 3,
    description := some "",
    operatorCodes := [⟨43, none⟩],
    subgraphs := [sampleSubGraph],
    buffers := fun index =>
      if index = 0 then some ⟨none⟩
      else if index = 1 then some ⟨some [1, 2, 3, 4]⟩
      else none }

/-- The model record of `sampleModel` with a second, named subgraph without tensors. -/
def twoGraphModel : ModelRecord :=
  { sampleModel with
    description := some "two graphs",
    subgraphs := [sampleSubGraph, { name := some "main", tensors := [], operators := [],
                                    inputs := [], outputs := [] }] }

/-- A sample of the binary layer: the identifier is `TFL3` at offsets 4 to 7. -/
def sampleReader : SchemaReader :=
  { bufferHasIdentifier := fun buffer =>
      .ok (decide (((buffer.drop 4).take 4).map (fun c => c.val) = [84, 70, 76, 51])),
    getRootAsModel := fun _ => .ok sampleModel,
    errorMessage := fun e =>
      match e with
      | .rangeError => "Offset is outside the bounds of the DataView"
      | .typeError => "Cannot read property of null" }

/-- The connection table the graph constructor builds for a subgraph record, with the list
of tensor names. -/
def graphConnections (env : Environment) (model : ModelRecord) (graph : SubGraphRecord) :
    Except JsError (List TensorFlowLiteConnection × List (Option String)) :=
  buildConnections env model graph.tensors 0 [] []

/-- The number a list of decimal digit characters denotes. -/
def decimalValue (digits : List Char) : Nat :=
  digits.foldl (fun acc c => acc * 10 + (c.toNat - 48)) 0

/-- A subgraph with two tensors of the same declared name and no backing data. -/
def sameNameSubGraph : SubGraphRecord :=
  { name := none,
    tensors := [⟨some "x", 3, [1], 0⟩, ⟨some "x", 3, [1], 0⟩],
    operators := [], inputs := [], outputs := [] }

/-- A subgraph with one tensor that has no declared name; its buffer is buffer 1 of the
sample model, which holds data. -/
def unnamedDataSubGraph : SubGraphRecord :=
  { name := none,
    tensors := [⟨none, 3, [2, 2], 1⟩],
    operators := [], inputs := [], outputs := [] }

/-- The subgraph of `unnamedDataSubGraph` with the tensor backed by the empty buffer 0. -/
def unnamedSubGraph : SubGraphRecord :=
  { name := none,
    tensors := [⟨none, 3, [2, 2], 0⟩],
    operators := [], inputs := [], outputs := [] }

/-- A container whose tag at offsets 4..7 is `TFL4`. -/
def mismatchContext : OpenContext := ⟨"model.tflite", [0, 0, 0, 0, 84, 70, 76, 52, 1]⟩

/-- A container of 5 bytes. -/
def shortBufferContext : OpenContext := ⟨"model.lite", [0, 0, 0, 0, 84]⟩

/-- A context whose buffer has the byte 127 (DEL) at each of the offsets 4..7. -/
def deleteContext : OpenContext := ⟨"model.tflite", [0, 0, 0, 0, 127, 127, 127, 127]⟩

/-- The printable range as the claim on the mismatch message words it: the ASCII codes from
the space (32) to the tilde (126); 127 (DEL) is a control code. -/
def printableCode (c : Nat) : Bool := decide (32 ≤ c) && decide (c ≤ 126)

/-- The tag of the mismatch message as the claim words it: the 4 bytes at offsets 4..7 as
characters when the buffer has at least 8 bytes and each of them lies in the printable
range, and the empty string otherwise. -/
def printableTag (buffer : List Byte) : String :=
  if buffer.length ≥ 8 ∧ ((buffer.drop 4).take 4).all (fun c => printableCode c.val)
  then String.mk (((buffer.drop 4).take 4).map (fun c => Char.ofNat c.val))
  else ""

/-- The field `name` is the `Array` or the `Length` partner of a base `b` for which `b`,
`b + "Array"` and `b + "Length"` all occur in `keys`. -/
def pairedField (keys : List String) (name : String) : Prop :=
  ∃ b ∈ keys, (b ++ "Array") ∈ keys ∧ (b ++ "Length") ∈ keys ∧
    (name = b ++ "Array" ∨ name = b ++ "Length")

instance (keys : List String) (name : String) : Decidable (pairedField keys name) := by
  unfold pairedField
  infer_instance

/-- The text that `join` shows for element `k` of an array of integers. -/
def itemText (items : List Int) (k : Nat) : String :=
  match items[k]? with
  | some n => toString n
  | none => ""

/-- An options record whose only fields are the partners of `__init`. -/
def initPairOptions : OptionsRecord :=
  ⟨["__init", "__initArray", "__initLength"], fun _ => some (.num 0)⟩

/-- An options record in which `xArray` is a partner of `x` and has partners of its own. -/
def nestedPairOptions : OptionsRecord :=
  ⟨["__init", "x", "xArray", "xLength", "xArrayArray", "xArrayLength"],
   fun name =>
     if name = "xLength" then some (.num 2)
     else if name = "xArray" then some (.array [4, -1, 9])
     else if name = "xArrayArray" then some (.array [7])
     else if name = "xArrayLength" then some (.num 1)
     else some .undefined⟩

/-- The options record of `reshapeOptions` when the vector `newShape` is absent: the length
is 0 and the array accessor returns `null`. -/
def absentVectorOptions : OptionsRecord :=
  ⟨["__init", "axis", "newShape", "newShapeLength", "newShapeArray"],
   fun name =>
     if name = "axis" then some (.num 1)
     else if name = "newShapeLength" then some (.num 0)
     else if name = "newShapeArray" then some .null
     else some .undefined⟩

/-- An options record with a field named `toString`, a name that every plain object
inherits, and no field `toStringLength`. -/
def inheritedNameOptions : OptionsRecord :=
  ⟨["__init", "toString"], fun name =>
     if name = "__init" then some .undefined
     else if name = "toString" then some (.str "text")
     else none⟩

/-- An options record with the field `axis` and the field pair of `newShape`. -/
def reshapeOptions : OptionsRecord :=
  ⟨["__init", "axis", "newShape", "newShapeLength", "newShapeArray"],
   fun name =>
     if name = "axis" then some (.num 1)
     else if name = "newShapeLength" then some (.num 2)
     else if name = "newShapeArray" then some (.array [4, -1])
     else some .undefined⟩

mutual
/-- Whether the truncation marker `'...'` occurs in a value. -/
def TensorValue.hasMarker : TensorValue → Bool
  | .string s => s == "..."
  | .array items => TensorValue.hasMarkerList items
  | _ => false
/-- Whether the truncation marker occurs in a list of values. -/
def TensorValue.hasMarkerList : List TensorValue → Bool
  | [] => false
  | item :: items => item.hasMarker || TensorValue.hasMarkerList items
end

/-- The context with the cutoff `limit` assigned: `context.limit = limit`. -/
def Context.withLimit (context : Context) (limit : Nat) : Context :=
  { context with limit := some limit }

/-- The behaviour under a cutoff `limit` of a decoding step `decode` over `elements`
scalars of data type `dataType` when the buffer holds the scalars it emits: entered with a
count of at most `limit`, it emits scalars until the count is `limit + 1`, shows the marker
exactly when scalars are left over, and without leftover returns the same value under any
other cutoff that leaves none over. -/
def DecodesUpTo (dataType : String) (dimensions : List Int) (data : List Byte)
    (width limit : Nat) (decode : Context → Option (Except JsError (TensorValue × Context)))
    (elements : Nat) : Prop :=
  ∀ context : Context, context.dataType = dataType → context.dimensions = dimensions →
    context.data = data → context.limit = some limit → context.count ≤ limit →
    context.index + width * min elements (limit + 1 - context.count) ≤ data.length →
    ∃ v, decode context
          = some (.ok (v, context.advance width (min elements (limit + 1 - context.count)))) ∧
      v.leaves = min elements (limit + 1 - context.count) ∧
      (v.hasMarker = true ↔ limit + 1 < context.count + elements) ∧
      (context.count + elements ≤ limit + 1 →
        ∀ other : Nat, context.count ≤ other → context.count + elements ≤ other + 1 →
          decode (context.withLimit other)
            = some (.ok (v, (context.advance width elements).withLimit other)))

/-- A `uint8` tensor of shape `[2, 3]` over six bytes. -/
def previewTensor : TensorFlowLiteTensor :=
  ⟨0, some "bias", ⟨"uint8", ⟨[2, 3]⟩⟩, some [1, 2, 3, 4, 5, 6]⟩

/-- A context for six `uint8` scalars under shape `[2, 3]` with cutoff 3. -/
def cutoffMatrixContext : Context :=
  ⟨none, 0, 0, "uint8", [2, 3], [1, 2, 3, 4, 5, 6], [], some 3⟩

/-- A context for shape `[2, 3]` with cutoff 3 over a buffer of four `uint8` scalars. -/
def truncatedContext : Context :=
  ⟨none, 0, 0, "uint8", [2, 3], [1, 2, 3, 4], [], some 3⟩

/-! # Theorems -/

theorem getInputsLoop_done (schema : Option Schema) (cs : List Int) (fuel index : Nat)
    (results : List InputResult) (h : ¬ index < cs.length) :
    getInputsLoop schema cs fuel index results = some results := by
  cases fuel <;> simp [getInputsLoop, h]

theorem getInputsLoop_single (schema : Option Schema) (cs : List Int) (fuel index : Nat)
    (results : List InputResult) (h : index < cs.length)
    (hv : slotVariadic schema index = false) :
    getInputsLoop schema cs (fuel + 1) index results =
      getInputsLoop schema cs fuel (index + 1)
        (results ++ [⟨slotName schema index, slotVisible schema index,
          sliceConnections [cs[index]]⟩]) := by
  have hslice : List.take 1 (List.drop index cs) = [cs[index]] := by
    rw [List.drop_eq_getElem_cons h, List.take_succ_cons, List.take_zero]
  unfold slotVariadic at hv
  unfold slotName slotVisible sliceConnections
  rw [getInputsLoop]
  cases hsi : schemaInput schema index with
  | none => simp [h, hslice]
  | some input =>
    rw [hsi] at hv
    have hv2 : input.option ≠ some "variadic" := by simpa using hv
    cases hn : input.name <;> simp [h, hv2, hslice, truthyStr, hn]

theorem getInputsLoop_variadic (schema : Option Schema) (cs : List Int) (fuel index : Nat)
    (results : List InputResult) (h : index < cs.length)
    (hv : slotVariadic schema index = true) :
    getInputsLoop schema cs (fuel + 1) index results =
      some (results ++ [⟨slotName schema index, slotVisible schema index,
          sliceConnections (cs.drop index)⟩]) := by
  unfold slotVariadic at hv
  unfold slotName slotVisible sliceConnections
  rw [getInputsLoop]
  cases hsi : schemaInput schema index with
  | none => rw [hsi] at hv; simp at hv
  | some input =>
    rw [hsi] at hv
    have hv2 : input.option = some "variadic" := by simpa using hv
    have htake : List.take (cs.length - index) (List.drop index cs) = List.drop index cs := by
      apply List.take_of_length_le; simp
    have hlen : index + (cs.length - index) = cs.length := by omega
    have hnot : ¬ cs.length < cs.length := by omega
    cases hn : input.name <;>
      simp [h, hv2, truthyStr, hn, hlen, htake, getInputsLoop_done _ _ _ _ _ hnot]

theorem getInputsLoop_singles (schema : Option Schema) (cs : List Int) (k : Nat) :
    ∀ (fuel index : Nat) (results : List InputResult), index + k ≤ cs.length → k ≤ fuel →
      (∀ i, index ≤ i → i < index + k → slotVariadic schema i = false) →
      getInputsLoop schema cs fuel index results =
        getInputsLoop schema cs (fuel - k) (index + k)
          (results ++ (List.range k).map (fun j => singleSlot schema cs (index + j))) := by
  induction k with
  | zero => intro fuel index results _ _ _; simp
  | succ k ih =>
    intro fuel index results hlen hfuel hnv
    obtain ⟨fuel, rfl⟩ : ∃ f, fuel = f + 1 := ⟨fuel - 1, by omega⟩
    have hidx : index < cs.length := by omega
    rw [getInputsLoop_single schema cs fuel index results hidx (hnv index (le_refl _) (by omega))]
    rw [ih fuel (index + 1) _ (by omega) (by omega) (fun i h1 h2 => hnv i (by omega) (by omega))]
    have hfu : fuel + 1 - (k + 1) = fuel - k := by omega
    have hix : index + 1 + k = index + (k + 1) := by omega
    rw [hfu, hix, List.range_succ_eq_map]
    congr 1
    simp only [List.append_assoc, List.map_cons, List.map_map, List.singleton_append,
      Nat.add_zero]
    congr 2
    · simp [singleSlot, List.getElem?_eq_getElem hidx]
    · apply List.map_congr_left
      intro j _
      simp only [Function.comp, Nat.succ_eq_add_one]
      congr 1
      omega

/-- When no slot met by the loop is variadic, every raw position gets its own argument. -/
theorem getInputsLoop_all_single (schema : Option Schema) (cs : List Int)
    (hnv : ∀ i < cs.length, slotVariadic schema i = false) :
    getInputsLoop schema cs cs.length 0 [] =
      some ((List.range cs.length).map (fun j => singleSlot schema cs j)) := by
  rw [getInputsLoop_singles schema cs cs.length cs.length 0 [] (by omega) (le_refl _)
    (fun i _ h => hnv i (by omega))]
  rw [getInputsLoop_done _ _ _ _ _ (by omega)]
  simp

/-- When slot `v` is the first variadic one, the loop gives `v` single arguments and one
argument that takes every remaining raw position. -/
theorem getInputsLoop_first_variadic (schema : Option Schema) (cs : List Int) (v : Nat)
    (hlen : v < cs.length) (hnv : ∀ i < v, slotVariadic schema i = false)
    (hv : slotVariadic schema v = true) :
    getInputsLoop schema cs cs.length 0 [] =
      some ((List.range v).map (fun j => singleSlot schema cs j) ++
        [⟨slotName schema v, slotVisible schema v, sliceConnections (cs.drop v)⟩]) := by
  rw [getInputsLoop_singles schema cs v cs.length 0 [] (by omega) (by omega)
    (fun i _ h => hnv i (by omega))]
  obtain ⟨f, hf⟩ : ∃ f, cs.length - v = f + 1 := ⟨cs.length - v - 1, by omega⟩
  rw [hf, Nat.zero_add, getInputsLoop_variadic schema cs f v _ hlen hv]
  simp

theorem sliceConnections_singleton (c : Int) :
    sliceConnections [c] = if c = -1 then [] else [⟨c⟩] := by
  unfold sliceConnections
  by_cases h : c = -1 <;> simp [h]

theorem not_mem_sliceConnections (array : List Int) :
    (⟨-1⟩ : ConnectionRef) ∉ sliceConnections array := by
  unfold sliceConnections
  simp

/-! ## Properties of `getInputs` and `getOutputName` -/

/-- C1 (as stated, refuted): with inputs `[{name:'a'}, {name:'b', option:'variadic'}]` and raw
indices `[-1, 5, 7]` the first argument holds no connection, not `[-1]`; and with inputs
`[{name:''}, {name:'b', option:'variadic'}]` and raw indices `[3, 5]` the first argument is
named `(0)`, not by the empty declared name. -/
theorem getInputs_variadic_slot_counterexample :
    (variadicCatalog.getInputs ⟨[-1, 5, 7], []⟩ "Concat"
        = some [⟨"a", none, []⟩, ⟨"b", none, [⟨5⟩, ⟨7⟩]⟩]) ∧
    (unnamedCatalog.getInputs ⟨[3, 5], []⟩ "Pack"
        = some [⟨"(0)", none, [⟨3⟩]⟩, ⟨"b", none, [⟨5⟩]⟩]) := by
  decide

/-- C1 (amended): when inputs `0..v-1` of the schema are not variadic, input `v` is marked
`variadic` and the node has `n > v` raw inputs, `getInputs` returns exactly `v + 1` arguments;
argument `i < v` is named by `schema.inputs[i].name` when that name is non-empty and `(i)`
otherwise, and holds `[c[i]]`, or nothing when `c[i]` is the sentinel `-1`; argument `v` is
named the same way from `schema.inputs[v].name` and holds `c[v..n-1]` in order without the
sentinels. -/
theorem getInputs_variadic_slot (metadata : TensorFlowLiteOperatorMetadata)
    (node : OperatorRecord) (operator : String) (schema : Schema) (inputs : List InputSchema)
    (v : Nat)
    (hs : metadata.getSchema operator = some schema) (hi : schema.inputs = some inputs)
    (hnv : ∀ i < v, (inputs[i]?).bind InputSchema.option ≠ some "variadic")
    (hv : (inputs[v]?).bind InputSchema.option = some "variadic")
    (hn : v < node.inputs.length) :
    ∃ results, metadata.getInputs node operator = some results ∧
      results.length = v + 1 ∧
      (∀ (i : Nat) (c : Int), i < v → node.inputs[i]? = some c → ∃ r, results[i]? = some r ∧
        r.name = argumentName ((inputs[i]?).bind InputSchema.name) i ∧
        r.connections = if c = -1 then [] else [⟨c⟩]) ∧
      (∃ r, results[v]? = some r ∧
        r.name = argumentName ((inputs[v]?).bind InputSchema.name) v ∧
        r.connections =
          ((node.inputs.drop v).filter (fun c => c != -1)).map ConnectionRef.mk) := by
  have hsi : ∀ i, schemaInput (metadata.getSchema operator) i = inputs[i]? := by
    intro i; simp [schemaInput, hs, hi]
  have hnv2 : ∀ i < v, slotVariadic (metadata.getSchema operator) i = false := by
    intro i hiv
    have := hnv i hiv
    unfold slotVariadic
    rw [hsi]
    cases hx : inputs[i]? with
    | none => rfl
    | some x => rw [hx] at this; simpa using this
  have hv2 : slotVariadic (metadata.getSchema operator) v = true := by
    unfold slotVariadic
    rw [hsi]
    cases hx : inputs[v]? with
    | none => rw [hx] at hv; simp at hv
    | some x => rw [hx] at hv; simpa using hv
  refine ⟨_, getInputsLoop_first_variadic _ node.inputs v hn hnv2 hv2, by simp, ?_, ?_⟩
  · intro i c h hc
    refine ⟨singleSlot (metadata.getSchema operator) node.inputs i, ?_, ?_, ?_⟩
    · rw [List.getElem?_append_left (by simpa using h)]
      simp [h]
    · simp [singleSlot, slotName, hsi]
    · simp [singleSlot, hc, sliceConnections_singleton]
  · refine ⟨⟨slotName (metadata.getSchema operator) v,
      slotVisible (metadata.getSchema operator) v, sliceConnections (node.inputs.drop v)⟩,
      ?_, ?_, rfl⟩
    · rw [List.getElem?_append_right (by simp)]
      simp
    · simp [slotName, hsi]

/-- C1 witness: raw indices `[3, 5, 7, 9]` with inputs `[{name:'a'}, {name:'b',
option:'variadic'}]` give `'a' -> [3]`, `'b' -> [5, 7, 9]`. -/
theorem getInputs_variadic_slot_witness :
    variadicCatalog.getInputs fourInputNode "Concat"
        = some [⟨"a", none, [⟨3⟩]⟩, ⟨"b", none, [⟨5⟩, ⟨7⟩, ⟨9⟩]⟩] ∧
    ∃ results, variadicCatalog.getInputs fourInputNode "Concat" = some results ∧
      results.length = 1 + 1 ∧
      (∀ (i : Nat) (c : Int), i < 1 → fourInputNode.inputs[i]? = some c → ∃ r, results[i]? = some r ∧
        r.name = argumentName ((variadicInputs[i]?).bind InputSchema.name) i ∧
        r.connections = if c = -1 then [] else [⟨c⟩]) ∧
      (∃ r, results[1]? = some r ∧
        r.name = argumentName ((variadicInputs[1]?).bind InputSchema.name) 1 ∧
        r.connections =
          ((fourInputNode.inputs.drop 1).filter (fun c => c != -1)).map ConnectionRef.mk) :=
  ⟨by decide,
   getInputs_variadic_slot variadicCatalog fourInputNode "Concat"
    { inputs := some variadicInputs } variadicInputs 1
    (by decide) rfl (by decide) (by decide) (by decide)⟩



/-- C2: when no slot among the first `n` schema inputs is variadic (or there is no schema),
`getInputs` returns exactly `n` arguments, argument `i` holds `[c[i]]` when `c[i]` is not
`-1` and no connection when it is, and the sentinel occurs in no connection list. -/
theorem getInputs_sentinel (metadata : TensorFlowLiteOperatorMetadata)
    (node : OperatorRecord) (operator : String)
    (hnv : ∀ i < node.inputs.length,
      (schemaInput (metadata.getSchema operator) i).bind InputSchema.option
        ≠ some "variadic") :
    ∃ results, metadata.getInputs node operator = some results ∧
      results.length = node.inputs.length ∧
      (∀ (i : Nat) (c : Int), node.inputs[i]? = some c → ∃ r, results[i]? = some r ∧
        r.connections = if c = -1 then [] else [⟨c⟩]) ∧
      (∀ r ∈ results, (⟨-1⟩ : ConnectionRef) ∉ r.connections) := by
  have hnv2 : ∀ i < node.inputs.length,
      slotVariadic (metadata.getSchema operator) i = false := by
    intro i hi
    have := hnv i hi
    unfold slotVariadic
    cases hx : schemaInput (metadata.getSchema operator) i with
    | none => rfl
    | some x => rw [hx] at this; simpa using this
  refine ⟨_, getInputsLoop_all_single _ node.inputs hnv2, by simp, ?_, ?_⟩
  · intro i c hc
    have hi : i < node.inputs.length := by
      by_contra hge
      rw [List.getElem?_eq_none (by omega)] at hc
      exact Option.noConfusion hc
    refine ⟨singleSlot (metadata.getSchema operator) node.inputs i, ?_, ?_⟩
    · simp [hi]
    · simp [singleSlot, hc, sliceConnections_singleton]
  · intro r hr
    simp only [List.mem_map, List.mem_range] at hr
    obtain ⟨j, _, rfl⟩ := hr
    exact not_mem_sliceConnections _

/-- C2 witness: `[3, -1, 7]` under a non-variadic 3-slot schema gives three arguments, the
middle one with zero connections. -/
theorem getInputs_sentinel_witness :
    plainCatalog.getInputs sentinelNode "Conv"
        = some [⟨"input", none, [⟨3⟩]⟩, ⟨"weights", none, []⟩, ⟨"bias", some false, [⟨7⟩]⟩] ∧
    ∃ results, plainCatalog.getInputs sentinelNode "Conv" = some results ∧
      results.length = sentinelNode.inputs.length ∧
      (∀ (i : Nat) (c : Int), sentinelNode.inputs[i]? = some c → ∃ r, results[i]? = some r ∧
        r.connections = if c = -1 then [] else [⟨c⟩]) ∧
      (∀ r ∈ results, (⟨-1⟩ : ConnectionRef) ∉ r.connections) :=
  ⟨by decide, getInputs_sentinel plainCatalog sentinelNode "Conv" (by decide)⟩

/-- C3: when the operator has no schema, or its schema has no inputs list (so declares no
input), or its schema declares `m` inputs none of which is variadic, the argument produced for
each raw position `i` with `m ≤ i < n` is named `(i)`, is not marked invisible and holds only
the raw index at position `i` (nothing when that index is the sentinel). -/
theorem getInputs_positional_fallback (metadata : TensorFlowLiteOperatorMetadata)
    (node : OperatorRecord) (operator : String) (m : Nat)
    (hschema : (metadata.getSchema operator = none ∧ m = 0) ∨
      (∃ schema, metadata.getSchema operator = some schema ∧ schema.inputs = none ∧ m = 0) ∨
      ∃ schema inputs, metadata.getSchema operator = some schema ∧
        schema.inputs = some inputs ∧ inputs.length = m ∧
        ∀ x ∈ inputs, x.option ≠ some "variadic") :
    ∃ results, metadata.getInputs node operator = some results ∧
      ∀ (i : Nat) (c : Int), m ≤ i → node.inputs[i]? = some c →
        results[i]? = some ⟨"(" ++ toString i ++ ")", none, if c = -1 then [] else [⟨c⟩]⟩ := by
  have hsi : ∀ i, m ≤ i → schemaInput (metadata.getSchema operator) i = none := by
    intro i hmi
    rcases hschema with ⟨h, _⟩ | ⟨schema, hs, hin, _⟩ | ⟨schema, inputs, hs, hin, hlen, _⟩
    · simp [schemaInput, h]
    · simp [schemaInput, hs, hin]
    · simp only [schemaInput, hs, hin]
      exact List.getElem?_eq_none (by omega)
  have hnv : ∀ i < node.inputs.length,
      slotVariadic (metadata.getSchema operator) i = false := by
    intro i _
    unfold slotVariadic
    rcases hschema with ⟨h, _⟩ | ⟨schema, hs, hin, _⟩ | ⟨schema, inputs, hs, hin, _, hall⟩
    · simp [schemaInput, h]
    · simp [schemaInput, hs, hin]
    · simp only [schemaInput, hs, hin]
      cases hx : inputs[i]? with
      | none => rfl
      | some x => simpa using hall x (List.getElem?_mem hx)
  refine ⟨_, getInputsLoop_all_single _ node.inputs hnv, ?_⟩
  intro i c hmi hc
  have hi : i < node.inputs.length := by
    by_contra hge
    rw [List.getElem?_eq_none (by omega)] at hc
    exact Option.noConfusion hc
  simp [hi, singleSlot, slotName, slotVisible, hsi i hmi, argumentName, positionalName, hc,
    sliceConnections_singleton]

/-- C3 witness: five raw inputs under a schema that declares three plain inputs, where
positions 3 and 4 are named `(3)` and `(4)`; the same node under a schema without an inputs
list and under no schema, where every position is named by its index. -/
theorem getInputs_positional_fallback_witness :
    plainCatalog.getInputs fiveInputNode "Conv"
        = some [⟨"input", none, [⟨3⟩]⟩, ⟨"weights", none, [⟨5⟩]⟩, ⟨"bias", some false, []⟩,
                ⟨"(3)", none, [⟨9⟩]⟩, ⟨"(4)", none, [⟨11⟩]⟩] ∧
    bareCatalog.getInputs fiveInputNode "Relu"
        = some [⟨"(0)", none, [⟨3⟩]⟩, ⟨"(1)", none, [⟨5⟩]⟩, ⟨"(2)", none, []⟩,
                ⟨"(3)", none, [⟨9⟩]⟩, ⟨"(4)", none, [⟨11⟩]⟩] ∧
    (∃ results, plainCatalog.getInputs fiveInputNode "Conv" = some results ∧
      ∀ (i : Nat) (c : Int), 3 ≤ i → fiveInputNode.inputs[i]? = some c →
        results[i]? = some ⟨"(" ++ toString i ++ ")", none, if c = -1 then [] else [⟨c⟩]⟩) ∧
    (∃ results, bareCatalog.getInputs fiveInputNode "Relu" = some results ∧
      ∀ (i : Nat) (c : Int), 0 ≤ i → fiveInputNode.inputs[i]? = some c →
        results[i]? = some ⟨"(" ++ toString i ++ ")", none, if c = -1 then [] else [⟨c⟩]⟩) ∧
    (∃ results, bareCatalog.getInputs fiveInputNode "Conv" = some results ∧
      ∀ (i : Nat) (c : Int), 0 ≤ i → fiveInputNode.inputs[i]? = some c →
        results[i]? = some ⟨"(" ++ toString i ++ ")", none, if c = -1 then [] else [⟨c⟩]⟩) :=
  ⟨by decide, by decide,
   getInputs_positional_fallback plainCatalog fiveInputNode "Conv" 3
    (Or.inr (Or.inr ⟨plainSchema, [{ name := some "input" }, { name := some "weights" },
        { name := some "bias", visible := some false }], by decide, rfl, rfl, by decide⟩)),
   getInputs_positional_fallback bareCatalog fiveInputNode "Relu" 0
    (Or.inr (Or.inl ⟨{ category := some "Activation" }, by decide, rfl, rfl⟩)),
   getInputs_positional_fallback bareCatalog fiveInputNode "Conv" 0
    (Or.inl ⟨by decide, rfl⟩)⟩

/-- C4: `getOutputName(operator, index)` returns the schema-declared name of output `index`
when the operator has a schema, `index < schema.outputs.length`, that output is not marked
`variadic` and its name is non-empty; in every other case it returns `"(" + index + ")"`. -/
theorem getOutputName_cases (metadata : TensorFlowLiteOperatorMetadata) (operator : String)
    (index : Nat) :
    (∃ schema outputs output name, metadata.getSchema operator = some schema ∧
        schema.outputs = some outputs ∧ index < outputs.length ∧
        outputs[index]? = some (some output) ∧ output.option ≠ some "variadic" ∧
        output.name = some name ∧ name ≠ "" ∧
        metadata.getOutputName operator index = name) ∨
    ((¬ ∃ schema outputs output name, metadata.getSchema operator = some schema ∧
        schema.outputs = some outputs ∧ index < outputs.length ∧
        outputs[index]? = some (some output) ∧ output.option ≠ some "variadic" ∧
        output.name = some name ∧ name ≠ "") ∧
      metadata.getOutputName operator index = "(" ++ toString index ++ ")") := by
  unfold TensorFlowLiteOperatorMetadata.getOutputName positionalName
  cases hs : metadata.getSchema operator with
  | none => right; simp
  | some schema =>
    cases ho : schema.outputs with
    | none => right; simp [ho]
    | some outputs =>
      by_cases hlt : index < outputs.length
      · cases hx : outputs[index]? with
        | none => right; simp [ho, hx]
        | some o =>
          cases o with
          | none => right; simp [ho, hx, hlt]
          | some output =>
            by_cases hopt : output.option = some "variadic"
            · right; simp [ho, hx, hlt, hopt]
            · cases hname : output.name with
              | none => right; simp [ho, hx, hlt, hopt, hname]
              | some name =>
                by_cases hne : name = ""
                · right; simp [ho, hx, hlt, hopt, hname, hne]
                · left
                  exact ⟨schema, outputs, output, name, rfl, ho, hlt, hx, hopt, hname, hne,
                    by simp [ho, hx, hname, hlt, hopt, hne]⟩
      · right; simp [ho, hlt]

theorem scalarWidth_pos (t : String) (w : Nat) (h : scalarWidth t = some w) : 0 < w := by
  unfold scalarWidth at h
  split_ifs at h <;> simp at h <;> omega

theorem decodeScalar_fits (context : Context) (w : Nat)
    (hw : scalarWidth context.dataType = some w)
    (hfit : context.index + w ≤ context.data.length) :
    ∃ v, decodeScalar context = .ok (some v, context.advance w 1) ∧ v.leaves = 1 ∧
      v.flatten = intScalarAt context.dataType context.data context.index := by
  unfold scalarWidth at hw
  unfold decodeScalar intScalarAt Context.advance
  split_ifs at hw with h1 h2 h3 h4 h5 <;> simp only [Option.some.injEq] at hw <;> subst hw
  · exact ⟨.number (littleEndian ((context.data.drop context.index).take 1) : Nat),
      by simp [h1, getUint8, readBytes, hfit], by simp [TensorValue.leaves],
      by simp [TensorValue.flatten, h1]⟩
  · exact ⟨.number (toSigned 32 (littleEndian ((context.data.drop context.index).take 4))),
      by simp [h1, h2, getInt32, readBytes, hfit], by simp [TensorValue.leaves],
      by simp [TensorValue.flatten, h1, h2]⟩
  · exact ⟨.int64 (toSigned 64 (littleEndian ((context.data.drop context.index).take 8))),
      by simp [h1, h2, h3, getInt64, readBytes, hfit], by simp [TensorValue.leaves],
      by simp [TensorValue.flatten, h1, h2, h3]⟩
  · exact ⟨.float16 (littleEndian ((context.data.drop context.index).take 2)),
      by simp [h1, h2, h3, h4, getFloat16, readBytes, hfit], by simp [TensorValue.leaves],
      by simp [TensorValue.flatten, h1, h2, h3]⟩
  · exact ⟨.float32 (littleEndian ((context.data.drop context.index).take 4)),
      by simp [h1, h2, h3, h4, h5, getFloat32, readBytes, hfit], by simp [TensorValue.leaves],
      by simp [TensorValue.flatten, h1, h2, h3]⟩

theorem decodeScalar_overrun (context : Context) (w : Nat)
    (hw : scalarWidth context.dataType = some w)
    (hfit : ¬ context.index + w ≤ context.data.length) :
    decodeScalar context = .error .rangeError := by
  unfold scalarWidth at hw
  unfold decodeScalar
  split_ifs at hw with h1 h2 h3 h4 h5 <;> simp only [Option.some.injEq] at hw <;> subst hw
  · simp [h1, getUint8, readBytes, hfit]
  · simp [h1, h2, getInt32, readBytes, hfit]
  · simp [h1, h2, h3, getInt64, readBytes, hfit]
  · simp [h1, h2, h3, h4, getFloat16, readBytes, hfit]
  · simp [h1, h2, h3, h4, h5, getFloat32, readBytes, hfit]

theorem Context.advance_zero (context : Context) (w : Nat) : context.advance w 0 = context := by
  cases context; simp [Context.advance]

theorem Context.advance_advance (context : Context) (w a b : Nat) :
    (context.advance w a).advance w b = context.advance w (a + b) := by
  cases context; simp [Context.advance, Nat.mul_add, Nat.add_assoc]

theorem Context.tight_advance (context : Context) (w n : Nat) (h : context.tight w)
    (hfit : context.index + w * n ≤ context.data.length) : (context.advance w n).tight w := by
  obtain ⟨h1, _, h3⟩ := h
  refine ⟨?_, hfit, h3⟩
  simp only [Context.advance]
  rw [h1, Nat.mul_add]

theorem overLimit_of_tight (context : Context) (w : Nat) (hw : 0 < w) (h : context.tight w) :
    overLimit context = false := by
  obtain ⟨h1, h2, h3⟩ := h
  unfold overLimit
  cases hl : context.limit with
  | none => rfl
  | some l =>
    have := h3 l hl
    have hc : context.count ≤ w * context.count := Nat.le_mul_of_pos_left _ hw
    simp only [decide_eq_false_iff_not, not_lt, gt_iff_lt]
    omega

theorem TensorValue.leavesList_append (xs ys : List TensorValue) :
    TensorValue.leavesList (xs ++ ys) = TensorValue.leavesList xs + TensorValue.leavesList ys := by
  induction xs with
  | nil => simp [TensorValue.leavesList]
  | cons x xs ih => simp [TensorValue.leavesList, ih, Nat.add_assoc]

theorem TensorValue.flattenList_append (xs ys : List TensorValue) :
    TensorValue.flattenList (xs ++ ys) =
      TensorValue.flattenList xs ++ TensorValue.flattenList ys := by
  induction xs with
  | nil => simp [TensorValue.flattenList]
  | cons x xs ih => simp [TensorValue.flattenList, ih]

theorem flatScalars_add (t : String) (data : List Byte) (w index a b : Nat) :
    flatScalars t data w index (a + b) =
      flatScalars t data w index a ++ flatScalars t data w (index + w * a) b := by
  unfold flatScalars
  rw [List.range_add, List.flatMap_append, List.flatMap_map]
  congr 1
  apply List.flatMap_congr
  intro j _
  simp [Nat.mul_add, Nat.add_assoc]

theorem flatScalars_one (t : String) (data : List Byte) (w index : Nat) :
    flatScalars t data w index 1 = intScalarAt t data index := by
  simp [flatScalars, List.range_succ]

theorem decodeLeafLoop_tight (w : Nat) (n : Nat) :
    ∀ (context : Context) (results : List TensorValue),
      scalarWidth context.dataType = some w → context.tight w →
      (context.index + w * n ≤ context.data.length →
        ∃ vs, decodeLeafLoop n context results = .ok (results ++ vs, context.advance w n) ∧
          TensorValue.leavesList vs = n ∧
          TensorValue.flattenList vs =
            flatScalars context.dataType context.data w context.index n) ∧
      (¬ context.index + w * n ≤ context.data.length →
        decodeLeafLoop n context results = .error .rangeError) := by
  induction n with
  | zero =>
    intro context results _ ht
    refine ⟨fun _ => ⟨[], ?_, ?_, ?_⟩, fun h => ?_⟩
    · simp [decodeLeafLoop, Context.advance_zero]
    · simp [TensorValue.leavesList]
    · simp [TensorValue.flattenList, flatScalars]
    · exact absurd (by simpa using ht.2.1) h
  | succ n ih =>
    intro context results hw ht
    have hpos := scalarWidth_pos _ _ hw
    have hol := overLimit_of_tight context w hpos ht
    by_cases hfit1 : context.index + w ≤ context.data.length
    · obtain ⟨v, hv, hleaf, hflat⟩ := decodeScalar_fits context w hw hfit1
      have ht1 : (context.advance w 1).tight w :=
        Context.tight_advance context w 1 ht (by simpa using hfit1)
      have hih := ih (context.advance w 1) (results ++ [v]) hw ht1
      have hidx : (context.advance w 1).index = context.index + w := by
        simp [Context.advance]
      have hstep : decodeLeafLoop (n + 1) context results =
          decodeLeafLoop n (context.advance w 1) (results ++ [v]) := by
        rw [decodeLeafLoop]; simp [hol, hv]
      have hdata : (context.advance w 1).data = context.data := rfl
      have hty : (context.advance w 1).dataType = context.dataType := rfl
      rw [hidx, hdata, hty] at hih
      rw [hstep]
      constructor
      · intro hfit
        obtain ⟨vs, h1, h2, h3⟩ := hih.1 (by rw [Nat.mul_add] at hfit; omega)
        refine ⟨v :: vs, ?_, ?_, ?_⟩
        · rw [h1, Context.advance_advance, Nat.add_comm 1 n]; simp
        · simp [TensorValue.leavesList, h2, hleaf, Nat.add_comm]
        · rw [Nat.add_comm n 1, flatScalars_add, flatScalars_one]
          simp [TensorValue.flattenList, h3, hflat]
      · intro hfit
        exact hih.2 (by rw [Nat.mul_add] at hfit; omega)
    · constructor
      · intro hfit
        rw [Nat.mul_add] at hfit
        omega
      · intro _
        rw [decodeLeafLoop]
        simp [hol, decodeScalar_overrun context w hw hfit1]

theorem decodeNestedLoop_tight (t : String) (dims : List Int) (data : List Byte) (w p : Nat)
    (hw : 0 < w)
    (decode : Context → Option (Except JsError (TensorValue × Context)))
    (hdec : DecodesExactly t dims data w decode p) (n : Nat) :
    ∀ (context : Context) (results : List TensorValue),
      context.dataType = t → context.dimensions = dims → context.data = data →
      context.tight w →
      (context.index + w * (n * p) ≤ data.length →
        ∃ vs, decodeNestedLoop decode n context results =
            some (.ok (results ++ vs, context.advance w (n * p))) ∧
          TensorValue.leavesList vs = n * p ∧
          TensorValue.flattenList vs = flatScalars t data w context.index (n * p)) ∧
      (¬ context.index + w * (n * p) ≤ data.length →
        decodeNestedLoop decode n context results = some (.error .rangeError)) := by
  induction n with
  | zero =>
    intro context results _ _ hdata ht
    refine ⟨fun _ => ⟨[], ?_, ?_, ?_⟩, fun h => ?_⟩
    · simp [decodeNestedLoop, Context.advance_zero]
    · simp [TensorValue.leavesList]
    · simp [TensorValue.flattenList, flatScalars]
    · exact absurd (by simpa [hdata] using ht.2.1) h
  | succ n ih =>
    intro context results hty hdims hdata ht
    have hol := overLimit_of_tight context w hw ht
    have hmul : (n + 1) * p = p + n * p := by rw [Nat.add_mul, Nat.one_mul, Nat.add_comm]
    obtain ⟨hok, herr⟩ := hdec context hty hdims hdata ht
    by_cases hfit1 : context.index + w * p ≤ data.length
    · obtain ⟨v, hv, hleaf, hflat⟩ := hok hfit1
      have ht1 : (context.advance w p).tight w :=
        Context.tight_advance context w p ht (by rw [hdata]; exact hfit1)
      have hih := ih (context.advance w p) (results ++ [v]) hty hdims hdata ht1
      have hidx : (context.advance w p).index = context.index + w * p := rfl
      have hstep : decodeNestedLoop decode (n + 1) context results =
          decodeNestedLoop decode n (context.advance w p) (results ++ [v]) := by
        rw [decodeNestedLoop]; simp [hol, hv]
      rw [hidx] at hih
      rw [hstep, hmul]
      constructor
      · intro hfit
        obtain ⟨vs, h1, h2, h3⟩ := hih.1 (by rw [Nat.mul_add] at hfit; omega)
        refine ⟨v :: vs, ?_, ?_, ?_⟩
        · rw [h1, Context.advance_advance]; simp
        · simp [TensorValue.leavesList, h2, hleaf]
        · rw [flatScalars_add]
          simp [TensorValue.flattenList, h3, hflat]
      · intro hfit
        exact hih.2 (by rw [Nat.mul_add] at hfit; omega)
    · constructor
      · intro hfit
        rw [hmul, Nat.mul_add] at hfit
        omega
      · intro _
        rw [decodeNestedLoop]
        simp [hol, herr hfit1]

theorem elementCount_drop (dims : List Int) (d : Nat) (s : Int) (h : dims[d]? = some s) :
    elementCount (dims.drop d) = s.toNat * elementCount (dims.drop (d + 1)) := by
  have hd : d < dims.length := by
    by_contra hge
    rw [List.getElem?_eq_none (by omega)] at h
    exact Option.noConfusion h
  have hs : dims[d] = s := by
    rw [List.getElem?_eq_getElem hd] at h
    exact Option.some.inj h
  rw [List.drop_eq_getElem_cons hd, hs]
  simp [elementCount]

theorem _decode_tight (t : String) (dims : List Int) (data : List Byte) (w : Nat)
    (hw : scalarWidth t = some w) :
    ∀ (fuel d : Nat), d < dims.length → dims.length - d ≤ fuel →
      DecodesExactly t dims data w (fun context => _decode fuel context d)
        (elementCount (dims.drop d)) := by
  intro fuel
  induction fuel with
  | zero => intro d h1 h2; omega
  | succ fuel ih =>
    intro d hd hfuel context hty hdims hdata ht
    obtain ⟨s, hs⟩ : ∃ s, dims[d]? = some s := ⟨dims[d], List.getElem?_eq_getElem hd⟩
    have hcount := elementCount_drop dims d s hs
    simp only [_decode, hdims, hs, loopTurns]
    by_cases hlast : d + 1 = dims.length
    · have hcond : (d : Int) = (dims.length : Int) - 1 := by omega
      have hnil : dims.drop (d + 1) = [] := List.drop_eq_nil_of_le (by omega)
      have hp : elementCount (dims.drop d) = s.toNat := by
        rw [hcount, hnil]; simp [elementCount]
      rw [hp]
      obtain ⟨hok, herr⟩ := decodeLeafLoop_tight w s.toNat context [] (by rw [hty]; exact hw) ht
      rw [hty, hdata] at hok
      rw [hdata] at herr
      simp only [hcond, if_true]
      constructor
      · intro hfit
        obtain ⟨vs, h1, h2, h3⟩ := hok hfit
        refine ⟨.array vs, ?_, ?_, ?_⟩
        · rw [h1]; simp
        · simpa [TensorValue.leaves] using h2
        · simpa [TensorValue.flatten] using h3
      · intro hfit
        rw [herr hfit]
    · have hcond : ¬ (d : Int) = (dims.length : Int) - 1 := by omega
      have hsub := ih (d + 1) (by omega) (by omega)
      obtain ⟨hok, herr⟩ := decodeNestedLoop_tight t dims data w _ (scalarWidth_pos _ _ hw)
        _ hsub s.toNat context [] hty hdims hdata ht
      rw [hcount]
      simp only [hcond, if_false]
      constructor
      · intro hfit
        obtain ⟨vs, h1, h2, h3⟩ := hok hfit
        refine ⟨.array vs, ?_, ?_, ?_⟩
        · rw [h1]; simp
        · simpa [TensorValue.leaves] using h2
        · simpa [TensorValue.flatten] using h3
      · intro hfit
        rw [herr hfit]

/-! ## Properties of the tensor value decoder -/

/-- C5 counterexample: with `limit = 2`, data type `uint8`, shape `[5]` and a buffer of five
bytes `_decode` returns three scalars before the marker, so the value does not hold at most
2 decoded leaf elements; with `limit = 0` it returns one scalar, not at most 0. -/
theorem decode_cutoff_counterexample :
    (∃ v final, _decode 2 cutoffContext 0 = some (.ok (v, final)) ∧
      v = .array [.number 10, .number 20, .number 30, .string "..."] ∧ ¬ v.leaves ≤ 2) ∧
    (∃ v final, _decode 2 { cutoffContext with limit := some 0 } 0 = some (.ok (v, final)) ∧
      v = .array [.number 10, .string "..."] ∧ ¬ v.leaves ≤ 0) :=
  ⟨⟨_, _, rfl, rfl, by decide⟩, ⟨_, _, rfl, rfl, by decide⟩⟩

/-- C7: for a fixed-width data type of width `w`, a non-empty shape and the cutoff of
`value`, `_decode` from offset 0 succeeds when `w * elementCount` is at most the buffer
length, and then leaves the running offset at `w` times the running count, which is
`w * elementCount` and within the buffer; it ends in a `RangeError` when
`w * elementCount` exceeds the buffer length. Every single read succeeds exactly when its
`w` bytes at the running offset lie within the buffer, and then advances the offset by `w`
and the count by one. The buffer is at most `MAX_SAFE_INTEGER` bytes long. -/
theorem decode_bounds (context : Context) (w : Nat)
    (hw : scalarWidth context.dataType = some w)
    (hshape : context.dimensions ≠ [])
    (hindex : context.index = 0) (hcount : context.count = 0)
    (hlimit : context.limit = some MAX_SAFE_INTEGER)
    (hlen : context.data.length ≤ MAX_SAFE_INTEGER) :
    (w * elementCount context.dimensions ≤ context.data.length →
      ∃ v final, _decode (context.dimensions.length + 1) context 0 = some (.ok (v, final)) ∧
        final.index = w * final.count ∧ final.count = elementCount context.dimensions ∧
        final.index ≤ context.data.length ∧ v.leaves = elementCount context.dimensions) ∧
    (context.data.length < w * elementCount context.dimensions →
      _decode (context.dimensions.length + 1) context 0 = some (.error .rangeError)) ∧
    (∀ c : Context, c.dataType = context.dataType →
      (c.index + w ≤ c.data.length →
        ∃ v, decodeScalar c = .ok (some v, { c with index := c.index + w,
                                                    count := c.count + 1 })) ∧
      (c.data.length < c.index + w → decodeScalar c = .error .rangeError)) := by
  have hpos : 0 < context.dimensions.length := List.length_pos.mpr hshape
  have htight : context.tight w := by
    refine ⟨by simp [hindex, hcount], by rw [hindex]; exact Nat.zero_le _, ?_⟩
    intro l hl
    rw [hlimit] at hl
    cases hl
    exact hlen
  obtain ⟨hok, herr⟩ := _decode_tight context.dataType context.dimensions context.data w hw
    (context.dimensions.length + 1) 0 hpos (by omega) context rfl rfl rfl htight
  simp only [List.drop_zero, hindex, Nat.zero_add] at hok herr
  refine ⟨?_, ?_, ?_⟩
  · intro hfit
    obtain ⟨v, hv, hleaf, _⟩ := hok hfit
    refine ⟨v, _, hv, ?_, ?_, ?_, hleaf⟩
    · simp [Context.advance, hindex, hcount]
    · simp [Context.advance, hcount]
    · simpa [Context.advance, hindex] using hfit
  · intro hfit
    exact herr (by omega)
  · intro c hc
    constructor
    · intro hfit
      obtain ⟨v, hv, _, _⟩ := decodeScalar_fits c w (by rw [hc]; exact hw) hfit
      exact ⟨v, by simpa [Context.advance] using hv⟩
    · intro hfit
      exact decodeScalar_overrun c w (by rw [hc]; exact hw) (by omega)

/-- C7 witness: two `int32` scalars under shape `[2, 1]` decode from a buffer of 8 bytes and
leave the offset at 8; a buffer of 7 bytes ends in a `RangeError`. -/
theorem decode_bounds_witness :
    ((_decode 3 int32Context 0).map (fun r => r.toOption.map (fun p => (p.1, p.2.index)))
      = some (some (.array [.array [.number 1], .array [.number (-1)]], 8))) ∧
    (_decode 3 shortContext 0 = some (.error .rangeError)) ∧
    ((4 * elementCount int32Context.dimensions ≤ int32Context.data.length →
      ∃ v final, _decode (int32Context.dimensions.length + 1) int32Context 0
          = some (.ok (v, final)) ∧
        final.index = 4 * final.count ∧ final.count = elementCount int32Context.dimensions ∧
        final.index ≤ int32Context.data.length ∧
        v.leaves = elementCount int32Context.dimensions) ∧
    (int32Context.data.length < 4 * elementCount int32Context.dimensions →
      _decode (int32Context.dimensions.length + 1) int32Context 0
        = some (.error .rangeError)) ∧
    (∀ c : Context, c.dataType = int32Context.dataType →
      (c.index + 4 ≤ c.data.length →
        ∃ v, decodeScalar c = .ok (some v, { c with index := c.index + 4,
                                                    count := c.count + 1 })) ∧
      (c.data.length < c.index + 4 → decodeScalar c = .error .rangeError))) :=
  ⟨rfl, rfl,
   decode_bounds int32Context 4 (by decide) (by decide) rfl rfl rfl (by decide)⟩

/-- C8: a tensor built over a buffer of data length 0 has the state
`"Tensor data is empty."`, the value `null` and the text `""`, none of them failing; a
tensor built over non-empty data whose data type is not `string` has no state. -/
theorem tensor_empty_data_state (tensorTypes : Int → Option String)
    (decodeText : List Byte → String) (stringify : TensorValue → String)
    (tensor : TensorRecord) (index : Nat) (buffer : BufferRecord) :
    (buffer.dataLength = 0 →
      (TensorFlowLiteTensor.new tensorTypes tensor index buffer).state decodeText
        = .ok (some "Tensor data is empty.") ∧
      (TensorFlowLiteTensor.new tensorTypes tensor index buffer).value decodeText
        = some (.ok none) ∧
      (TensorFlowLiteTensor.new tensorTypes tensor index buffer).toString decodeText stringify
        = some (.ok "")) ∧
    (0 < buffer.dataLength →
      (TensorFlowLiteTensorType.new tensorTypes tensor).dataType ≠ "string" →
      (TensorFlowLiteTensor.new tensorTypes tensor index buffer).state decodeText
        = .ok none) := by
  constructor
  · intro h
    simp [TensorFlowLiteTensor.new, TensorFlowLiteTensor.state, TensorFlowLiteTensor.value,
      TensorFlowLiteTensor.toString, TensorFlowLiteTensor._context, h]
  · intro h hty
    have hdata : ∃ data, buffer.dataArray = some data := by
      cases hb : buffer.dataArray with
      | none => simp [BufferRecord.dataLength, hb] at h
      | some data => exact ⟨data, rfl⟩
    obtain ⟨data, hdata⟩ := hdata
    simp [TensorFlowLiteTensor.new, TensorFlowLiteTensor.state,
      TensorFlowLiteTensor._context, h, hdata, hty]

/-- C8 witness: a tensor over an absent buffer, and a `uint8` tensor over four bytes. -/
theorem tensor_empty_data_state_witness :
    ((⟨none⟩ : BufferRecord).dataLength = 0 ∧
      (TensorFlowLiteTensor.new sampleTensorTypes squareRecord 0 ⟨none⟩).state
          sampleDecodeText = .ok (some "Tensor data is empty.") ∧
      (TensorFlowLiteTensor.new sampleTensorTypes squareRecord 0 ⟨none⟩).value
          sampleDecodeText = some (.ok none) ∧
      (TensorFlowLiteTensor.new sampleTensorTypes squareRecord 0 ⟨none⟩).toString
          sampleDecodeText sampleStringify = some (.ok "")) ∧
    (0 < (⟨some [1, 2, 3, 4]⟩ : BufferRecord).dataLength ∧
      (TensorFlowLiteTensor.new sampleTensorTypes squareRecord 0 ⟨some [1, 2, 3, 4]⟩).state
          sampleDecodeText = .ok none) :=
  ⟨⟨by decide,
    (tensor_empty_data_state sampleTensorTypes sampleDecodeText sampleStringify squareRecord 0
      ⟨none⟩).1 (by decide)⟩,
   ⟨by decide,
    (tensor_empty_data_state sampleTensorTypes sampleDecodeText sampleStringify squareRecord 0
      ⟨some [1, 2, 3, 4]⟩).2 (by decide) (by decide)⟩⟩

theorem encodeLittleEndian_length (w n : Nat) : (encodeLittleEndian w n).length = w := by
  induction w generalizing n with
  | zero => rfl
  | succ w ih => simp [encodeLittleEndian, ih]

theorem littleEndian_encodeLittleEndian (w n : Nat) :
    littleEndian (encodeLittleEndian w n) = n % 256 ^ w := by
  induction w generalizing n with
  | zero => simp [encodeLittleEndian, littleEndian, Nat.mod_one]
  | succ w ih =>
    simp only [encodeLittleEndian, littleEndian, ih]
    rw [pow_succ', Nat.mod_mul]

theorem encodeScalar_length (t : String) (w : Nat) (x : Int)
    (ht : t = "uint8" ∨ t = "int32") (hw : scalarWidth t = some w) :
    (encodeScalar t x).length = w := by
  rcases ht with rfl | rfl
  · have : w = 1 := by simpa [scalarWidth] using hw.symm
    simp [encodeScalar, encodeLittleEndian_length, this]
  · have : w = 4 := by simpa [scalarWidth] using hw.symm
    rw [this, encodeScalar, if_neg (by decide), encodeLittleEndian_length]

theorem intScalarAt_encodeScalar (t : String) (x : Int) (rest : List Byte)
    (ht : t = "uint8" ∨ t = "int32") (hx : inScalarRange t x) :
    intScalarAt t (encodeScalar t x ++ rest) 0 = [x] := by
  rcases ht with rfl | rfl
  · have hr : 0 ≤ x ∧ x < 256 := by simpa [inScalarRange] using hx
    have htake : List.take 1 (encodeScalar "uint8" x ++ rest) = encodeScalar "uint8" x := by
      rw [List.take_append_of_le_length (by simp [encodeScalar, encodeLittleEndian_length])]
      exact List.take_of_length_le (by simp [encodeScalar, encodeLittleEndian_length])
    simp only [intScalarAt, if_true, List.drop_zero, htake]
    simp only [encodeScalar, if_true, littleEndian_encodeLittleEndian]
    congr 1
    omega
  · have hr : -(2 ^ 31) ≤ x ∧ x < 2 ^ 31 := by
      have h := hx
      simp only [inScalarRange] at h
      rw [if_neg (by decide)] at h
      exact h
    have hlen : (encodeScalar "int32" x).length = 4 := by
      rw [encodeScalar, if_neg (by decide), encodeLittleEndian_length]
    have htake : List.take 4 (encodeScalar "int32" x ++ rest) = encodeScalar "int32" x := by
      rw [List.take_append_of_le_length (by omega)]
      exact List.take_of_length_le (by omega)
    rw [intScalarAt, if_neg (by decide), if_pos rfl, List.drop_zero, htake, encodeScalar,
      if_neg (by decide), littleEndian_encodeLittleEndian]
    congr 1
    unfold toSigned
    norm_num at hr ⊢
    split_ifs with h <;> omega

theorem intScalarAt_append (t : String) (pre rest : List Byte) (i : Nat) :
    intScalarAt t (pre ++ rest) (pre.length + i) = intScalarAt t rest i := by
  simp [intScalarAt, List.drop_append]

theorem flatScalars_append (t : String) (pre rest : List Byte) (w i n : Nat) :
    flatScalars t (pre ++ rest) w (pre.length + i) n = flatScalars t rest w i n := by
  unfold flatScalars
  apply List.flatMap_congr
  intro j _
  rw [Nat.add_assoc, intScalarAt_append]

theorem flatScalars_encodeBuffer (t : String) (w : Nat) (xs : List Int)
    (ht : t = "uint8" ∨ t = "int32") (hw : scalarWidth t = some w)
    (hx : ∀ x ∈ xs, inScalarRange t x) :
    flatScalars t (encodeBuffer t xs) w 0 xs.length = xs := by
  induction xs with
  | nil => simp [flatScalars]
  | cons x xs ih =>
    have hlen := encodeScalar_length t w x ht hw
    have hbuf : encodeBuffer t (x :: xs) = encodeScalar t x ++ encodeBuffer t xs := by
      simp [encodeBuffer]
    rw [hbuf, List.length_cons, Nat.add_comm xs.length 1, flatScalars_add, flatScalars_one,
      intScalarAt_encodeScalar t x _ ht (hx x (List.mem_cons_self _ _))]
    have hidx : 0 + w * 1 = (encodeScalar t x).length + 0 := by omega
    rw [hidx, flatScalars_append, ih (fun y hy => hx y (List.mem_cons_of_mem _ hy))]
    rfl

theorem encodeBuffer_length (t : String) (w : Nat) (xs : List Int)
    (ht : t = "uint8" ∨ t = "int32") (hw : scalarWidth t = some w) :
    (encodeBuffer t xs).length = w * xs.length := by
  induction xs with
  | nil => simp [encodeBuffer]
  | cons x xs ih =>
    have hbuf : encodeBuffer t (x :: xs) = encodeScalar t x ++ encodeBuffer t xs := by
      simp [encodeBuffer]
    rw [hbuf, List.length_append, ih, encodeScalar_length t w x ht hw, List.length_cons,
      Nat.mul_add, Nat.mul_one, Nat.add_comm]

theorem TensorFlowLiteTensorShape.new_dimensions (tensor : TensorRecord) :
    (TensorFlowLiteTensorShape.new tensor).dimensions = tensor.shape := by
  unfold TensorFlowLiteTensorShape.new TensorFlowLiteTensorShape.dimensions
  split_ifs with h
  · rfl
  · have : tensor.shape = [] := List.length_eq_zero.mp (by omega)
    rw [this]

/-- C6 counterexample: a `uint8` tensor of shape `[0]` over the empty buffer of its exact
byte length has the state `"Tensor data is empty."` and the value `null`, so there is no
nested result to flatten; and a `uint8` tensor of the empty shape over the one-byte buffer
`[7]` has the value `[]`, whose flattening is empty and not `[7]`. The first is the guard
`this._data == null` of `_context`; the second is a case `_decode` misses: for the empty
shape `dimension == context.dimensions.length - 1` compares 0 with -1, and the other branch
loops up to the undefined `context.dimensions[0]`, so the one scalar is never read. -/
theorem value_round_trip_counterexample :
    ((TensorFlowLiteTensor.new sampleTensorTypes emptyRecord 0
        ⟨some (encodeBuffer "uint8" [])⟩).value sampleDecodeText
      = some (.ok none)) ∧
    ((TensorFlowLiteTensor.new sampleTensorTypes emptyRecord 0
        ⟨some (encodeBuffer "uint8" [])⟩).state sampleDecodeText
      = .ok (some "Tensor data is empty.")) ∧
    ((TensorFlowLiteTensor.new sampleTensorTypes scalarRecord 0
        ⟨some (encodeBuffer "uint8" [7])⟩).value sampleDecodeText
      = some (.ok (some (.array [])))) ∧
    (TensorValue.array []).flatten ≠ [7] :=
  ⟨rfl, rfl, rfl, by decide⟩

/-- C6: for the data types `uint8` and `int32` and every non-empty shape, take a flat
sequence of as many in-range scalars as the shape has elements and encode it little-endian
into a buffer of exactly width x element count bytes (at most `MAX_SAFE_INTEGER`). When the
element count is positive, `value` decodes the tensor built over that buffer and flattening
the result gives the original sequence in order; when the element count is zero the buffer
is empty, the tensor has the state `"Tensor data is empty."` and `value` is `null`. -/
theorem value_round_trip (tensorTypes : Int → Option String)
    (decodeText : List Byte → String) (tensor : TensorRecord) (index : Nat) (t : String)
    (xs : List Int)
    (ht : t = "uint8" ∨ t = "int32")
    (htype : (TensorFlowLiteTensorType.new tensorTypes tensor).dataType = t)
    (hshape : tensor.shape ≠ [])
    (hcount : xs.length = elementCount tensor.shape)
    (hrange : ∀ x ∈ xs, inScalarRange t x)
    (hlen : (encodeBuffer t xs).length ≤ MAX_SAFE_INTEGER) :
    (0 < elementCount tensor.shape →
      ∃ v, (TensorFlowLiteTensor.new tensorTypes tensor index
          ⟨some (encodeBuffer t xs)⟩).value decodeText = some (.ok (some v)) ∧
        v.flatten = xs) ∧
    (elementCount tensor.shape = 0 →
      encodeBuffer t xs = [] ∧
      (TensorFlowLiteTensor.new tensorTypes tensor index
          ⟨some (encodeBuffer t xs)⟩).state decodeText
        = .ok (some "Tensor data is empty.") ∧
      (TensorFlowLiteTensor.new tensorTypes tensor index
          ⟨some (encodeBuffer t xs)⟩).value decodeText = some (.ok none)) := by
  obtain ⟨w, hw⟩ : ∃ w, scalarWidth t = some w := by
    rcases ht with rfl | rfl
    · exact ⟨1, by decide⟩
    · exact ⟨4, by decide⟩
  have hwpos := scalarWidth_pos t w hw
  have hbuf := encodeBuffer_length t w xs ht hw
  have hstr : t ≠ "string" := by
    rcases ht with rfl | rfl <;> decide
  have hdims : (TensorFlowLiteTensorType.new tensorTypes tensor).shape.dimensions
      = tensor.shape := TensorFlowLiteTensorShape.new_dimensions tensor
  constructor
  · intro hpos
    have hdl : 0 < (⟨some (encodeBuffer t xs)⟩ : BufferRecord).dataLength := by
      simp only [BufferRecord.dataLength, hbuf, hcount]
      exact Nat.mul_pos hwpos hpos
    have hne : 0 < tensor.shape.length := List.length_pos.mpr hshape
    have htight : (⟨none, 0, 0, t, tensor.shape, encodeBuffer t xs, [],
        some MAX_SAFE_INTEGER⟩ : Context).tight w := by
      refine ⟨by simp, by simp, ?_⟩
      intro l hl
      cases hl
      exact hlen
    obtain ⟨hok, _⟩ := _decode_tight t tensor.shape (encodeBuffer t xs) w hw
      (tensor.shape.length + 1) 0 hne (by omega)
      ⟨none, 0, 0, t, tensor.shape, encodeBuffer t xs, [], some MAX_SAFE_INTEGER⟩
      rfl rfl rfl htight
    simp only [List.drop_zero, Nat.zero_add] at hok
    obtain ⟨v, hv, _, hflat⟩ := hok (by rw [hbuf, hcount])
    refine ⟨v, ?_, ?_⟩
    · simp only [TensorFlowLiteTensor.value, TensorFlowLiteTensor._context,
        TensorFlowLiteTensor.new, hdl, if_true, htype, hstr, if_false, hdims,
        Option.isSome_none, Bool.false_eq_true]
      rw [hv]
    · rw [hflat, ← hcount]
      exact flatScalars_encodeBuffer t w xs ht hw hrange
  · intro hzero
    have hdl : (⟨some (encodeBuffer t xs)⟩ : BufferRecord).dataLength = 0 := by
      simp only [BufferRecord.dataLength, hbuf, hcount, hzero, Nat.mul_zero]
    refine ⟨List.eq_nil_of_length_eq_zero (by rw [hbuf, hcount, hzero, Nat.mul_zero]), ?_, ?_⟩
    · simp [TensorFlowLiteTensor.state, TensorFlowLiteTensor._context,
        TensorFlowLiteTensor.new, hdl]
    · simp [TensorFlowLiteTensor.value, TensorFlowLiteTensor._context,
        TensorFlowLiteTensor.new, hdl]

/-- C6 witness: the sequence `[1, 2, 3, 250]` under the `uint8` shape `[2, 2]` and the
sequence `[1, -1]` under the `int32` shape `[2, 1]` come back from `value`; the empty sequence
under the `uint8` shape `[0]` gives the empty buffer, the state and the value `null`. -/
theorem value_round_trip_witness :
    ((TensorFlowLiteTensor.new sampleTensorTypes squareRecord 0
        ⟨some (encodeBuffer "uint8" [1, 2, 3, 250])⟩).value sampleDecodeText
      = some (.ok (some (.array [.array [.number 1, .number 2],
                                 .array [.number 3, .number 250]])))) ∧
    (∃ v, (TensorFlowLiteTensor.new sampleTensorTypes squareRecord 0
          ⟨some (encodeBuffer "uint8" [1, 2, 3, 250])⟩).value sampleDecodeText
          = some (.ok (some v)) ∧
        v.flatten = [1, 2, 3, 250]) ∧
    (∃ v, (TensorFlowLiteTensor.new sampleTensorTypes columnRecord 0
          ⟨some (encodeBuffer "int32" [1, -1])⟩).value sampleDecodeText
          = some (.ok (some v)) ∧
        v.flatten = [1, -1]) ∧
    (encodeBuffer "uint8" [] = [] ∧
      (TensorFlowLiteTensor.new sampleTensorTypes emptyRecord 0
          ⟨some (encodeBuffer "uint8" [])⟩).state sampleDecodeText
        = .ok (some "Tensor data is empty.") ∧
      (TensorFlowLiteTensor.new sampleTensorTypes emptyRecord 0
          ⟨some (encodeBuffer "uint8" [])⟩).value sampleDecodeText = some (.ok none)) :=
  ⟨rfl,
   (value_round_trip sampleTensorTypes sampleDecodeText squareRecord 0 "uint8" [1, 2, 3, 250]
    (Or.inl rfl) (by decide) (by decide) (by decide) (by decide) (by decide)).1 (by decide),
   (value_round_trip sampleTensorTypes sampleDecodeText columnRecord 0 "int32" [1, -1]
    (Or.inr rfl) (by decide) (by decide) (by decide) (by decide) (by decide)).1 (by decide),
   (value_round_trip sampleTensorTypes sampleDecodeText emptyRecord 0 "uint8" []
    (Or.inl rfl) (by decide) (by decide) (by decide) (by decide) (by decide)).2 (by decide)⟩

/-! ## Properties of the attributes -/

theorem TensorFlowLiteAttribute.new_of_none (enumLookup : String → JsValue → JsValue)
    (toNumber : String → JsNumber) (metadata : TensorFlowLiteOperatorMetadata)
    (operator name : String) (value : JsValue)
    (h : metadata.getAttributeSchema operator (snakeCase name) = none) :
    TensorFlowLiteAttribute.new enumLookup toNumber metadata operator name value
      = ⟨none, value, snakeCase name, none⟩ := by
  unfold TensorFlowLiteAttribute.new
  simp only [h]

theorem TensorFlowLiteAttribute.new_of_some (enumLookup : String → JsValue → JsValue)
    (toNumber : String → JsNumber) (metadata : TensorFlowLiteOperatorMetadata)
    (operator name : String) (value : JsValue) (schema : AttributeSchema)
    (h : metadata.getAttributeSchema operator (snakeCase name) = some schema) :
    ∃ t v, TensorFlowLiteAttribute.new enumLookup toNumber metadata operator name value
      = ⟨t, v, snakeCase name,
          if schema.visible = some false then some false
          else
            match schema.default with
            | some d => if looseEq toNumber (resolveValue v) d then some false else none
            | none => none⟩ := by
  unfold TensorFlowLiteAttribute.new
  simp only [h]
  exact ⟨_, _, rfl⟩

theorem TensorFlowLiteAttribute.new_name (enumLookup : String → JsValue → JsValue)
    (toNumber : String → JsNumber) (metadata : TensorFlowLiteOperatorMetadata)
    (operator name : String) (value : JsValue) :
    (TensorFlowLiteAttribute.new enumLookup toNumber metadata operator name value).name
      = snakeCase name := by
  cases hs : metadata.getAttributeSchema operator (snakeCase name) with
  | none => rw [TensorFlowLiteAttribute.new_of_none _ _ _ _ _ _ hs]; rfl
  | some schema =>
    obtain ⟨t, v, h⟩ := TensorFlowLiteAttribute.new_of_some enumLookup toNumber metadata
      operator name value schema hs
    rw [h]; rfl

theorem TensorFlowLiteAttribute.new_visible (enumLookup : String → JsValue → JsValue)
    (toNumber : String → JsNumber) (metadata : TensorFlowLiteOperatorMetadata)
    (operator name : String) (value : JsValue) :
    (TensorFlowLiteAttribute.new enumLookup toNumber metadata operator name value).visible
        = false ↔
      ∃ schema, metadata.getAttributeSchema operator (snakeCase name) = some schema ∧
        (schema.visible = some false ∨
          (schema.visible ≠ some false ∧ ∃ d, schema.default = some d ∧
            looseEq toNumber (resolveValue (TensorFlowLiteAttribute.new enumLookup toNumber
              metadata operator name value).value) d = true)) := by
  cases hs : metadata.getAttributeSchema operator (snakeCase name) with
  | none =>
    rw [TensorFlowLiteAttribute.new_of_none _ _ _ _ _ _ hs]
    simp [TensorFlowLiteAttribute.visible]
  | some schema =>
    obtain ⟨t, v, h⟩ := TensorFlowLiteAttribute.new_of_some enumLookup toNumber metadata
      operator name value schema hs
    rw [h]
    simp only [TensorFlowLiteAttribute.visible, TensorFlowLiteAttribute.value,
      Option.some.injEq, exists_eq_left']
    by_cases hv : schema.visible = some false
    · simp [hv]
    · cases hd : schema.default with
      | none => simp [hv]
      | some d =>
        by_cases hl : looseEq toNumber (resolveValue v) d = true <;> simp [hv, hl]

theorem attributeMap_foldl (attributes : List AttributeSchema) :
    ∀ init : List (String × AttributeSchema),
      attributes.foldl (fun map (a : AttributeSchema) => (a.name, a) :: map) init
        = (attributes.map (fun a => (a.name, a))).reverse ++ init := by
  induction attributes with
  | nil => intro init; rfl
  | cons a rest ih =>
    intro init
    rw [List.foldl_cons, ih]
    simp

theorem attributeMap_lookup (attributes : List AttributeSchema) (name : String)
    (entry : AttributeSchema) :
    (attributes.foldl (fun map (a : AttributeSchema) => (a.name, a) :: map)
        ([] : List (String × AttributeSchema))).lookup name = some entry ↔
      ∃ pre post, attributes = pre ++ entry :: post ∧ entry.name = name ∧
        ∀ x ∈ post, x.name ≠ name := by
  rw [attributeMap_foldl, List.append_nil, List.lookup_eq_some_iff]
  constructor
  · rintro ⟨l₁, l₂, hl, hno⟩
    have hrev : attributes.map (fun a => (a.name, a))
        = l₂.reverse ++ (name, entry) :: l₁.reverse := by
      have := congrArg List.reverse hl
      simpa using this
    obtain ⟨pre, rest, hsplit, hpre, hrest⟩ := List.map_eq_append_iff.mp hrev
    obtain ⟨e, post, hcons, he, hpost⟩ := List.map_eq_cons_iff.mp hrest
    have hname : e.name = name := congrArg Prod.fst he
    have hentry : e = entry := congrArg Prod.snd he
    subst hentry
    refine ⟨pre, post, by rw [hsplit, hcons], hname, ?_⟩
    intro x hx heq
    have hmem : (x.name, x) ∈ l₁ := by
      have : (x.name, x) ∈ post.map (fun a => (a.name, a)) := List.mem_map_of_mem _ hx
      rw [hpost] at this
      simpa using this
    have := hno _ hmem
    simp [heq] at this
  · rintro ⟨pre, post, hsplit, hname, hno⟩
    refine ⟨(post.map (fun a => (a.name, a))).reverse,
      (pre.map (fun a => (a.name, a))).reverse, ?_, ?_⟩
    · rw [hsplit]
      simp [hname]
    · intro p hp
      simp only [List.mem_reverse, List.mem_map] at hp
      obtain ⟨x, hx, rfl⟩ := hp
      have := hno x hx
      simpa [bne_iff_ne, ne_comm] using this

theorem getAttributeSchema_eq_some_iff (metadata : TensorFlowLiteOperatorMetadata)
    (operator name : String) (entry : AttributeSchema) :
    metadata.getAttributeSchema operator name = some entry ↔
      ∃ schema attributes pre post, metadata.getSchema operator = some schema ∧
        schema.attributes = some attributes ∧ attributes = pre ++ entry :: post ∧
        entry.name = name ∧ ∀ x ∈ post, x.name ≠ name := by
  unfold TensorFlowLiteOperatorMetadata.getAttributeSchema
  cases hs : metadata.getSchema operator with
  | none => simp
  | some schema =>
    cases ha : schema.attributes with
    | none => simp [ha]
    | some attributes =>
      simp only [ha, attributeMap_lookup, Option.some.injEq, exists_and_left]
      constructor
      · rintro ⟨pre, post, h⟩
        exact ⟨schema, rfl, attributes, ha, pre, post, h⟩
      · rintro ⟨schema2, h2, attributes2, ha2, pre, post, h⟩
        subst h2
        rw [ha] at ha2
        cases ha2
        exact ⟨pre, post, h⟩

theorem JsNumber.eq_iff (x y : JsNumber) : x.eq y = true ↔ x = y ∧ x ≠ .nan := by
  simp [JsNumber.eq, and_comm]

theorem looseEq_resolveValue (toNumber : String → JsNumber) (v d : JsValue) :
    looseEq toNumber (resolveValue v) d = true ↔
      (∃ text, v = .fn text ∧ looseEq toNumber (.str text) d = true) ∨
      ((∀ text, v ≠ .fn text) ∧ looseEq toNumber v d = true) := by
  cases v <;> simp [resolveValue]

theorem TensorFlowLiteAttribute.new_visible_of_entry
    (enumLookup : String → JsValue → JsValue) (toNumber : String → JsNumber)
    (metadata : TensorFlowLiteOperatorMetadata) (operator name : String) (value : JsValue)
    (entry : AttributeSchema) (d : JsValue)
    (hentry : metadata.getAttributeSchema operator (snakeCase name) = some entry)
    (hvisible : entry.visible ≠ some false) (hdefault : entry.default = some d) :
    (TensorFlowLiteAttribute.new enumLookup toNumber metadata operator name value).visible
        = false ↔
      looseEq toNumber (resolveValue (TensorFlowLiteAttribute.new enumLookup toNumber
        metadata operator name value).value) d = true := by
  rw [TensorFlowLiteAttribute.new_visible]
  constructor
  · rintro ⟨schema, hs, h⟩
    rw [hentry] at hs
    cases hs
    rcases h with h | ⟨_, d2, hd2, h⟩
    · exact absurd h hvisible
    · rw [hdefault] at hd2
      cases hd2
      exact h
  · intro h
    exact ⟨entry, hentry, Or.inr ⟨hvisible, d, hdefault, h⟩⟩

/-- C10: the constructed attribute's `visible` is false exactly when the operator has a
schema whose `attributes` hold an entry for the snake_case name (the last one of that name)
and either that entry carries `visible: false`, or it does not and it carries a `default`
that `==` the attribute's value, where a function value is called first and its result
compared; in every other case `visible` is true, in particular when the operator has no
schema or the schema no entry of that name. For a default and a value of the same kind `==`
is equality (of numbers other than `NaN`, of strings, of booleans), and a lazily computed
value equals a string default when the computed text is that string. The attribute's name is
the snake_case form of the field name. -/
theorem attribute_visible_iff (enumLookup : String → JsValue → JsValue)
    (toNumber : String → JsNumber) (metadata : TensorFlowLiteOperatorMetadata)
    (operator name : String) (value : JsValue) :
    ((TensorFlowLiteAttribute.new enumLookup toNumber metadata operator name value).visible
        = false ↔
      ∃ schema attributes pre entry post, metadata.getSchema operator = some schema ∧
        schema.attributes = some attributes ∧ attributes = pre ++ entry :: post ∧
        entry.name = snakeCase name ∧ (∀ x ∈ post, x.name ≠ snakeCase name) ∧
        (entry.visible = some false ∨
          (entry.visible ≠ some false ∧ ∃ d, entry.default = some d ∧
            ((∃ text, (TensorFlowLiteAttribute.new enumLookup toNumber metadata operator
                  name value).value = .fn text ∧
                looseEq toNumber (.str text) d = true) ∨
             ((∀ text, (TensorFlowLiteAttribute.new enumLookup toNumber metadata operator
                  name value).value ≠ .fn text) ∧
                looseEq toNumber (TensorFlowLiteAttribute.new enumLookup toNumber metadata
                  operator name value).value d = true))))) ∧
    ((TensorFlowLiteAttribute.new enumLookup toNumber metadata operator name value).visible
        = true ↔
      ¬ ∃ schema attributes pre entry post, metadata.getSchema operator = some schema ∧
        schema.attributes = some attributes ∧ attributes = pre ++ entry :: post ∧
        entry.name = snakeCase name ∧ (∀ x ∈ post, x.name ≠ snakeCase name) ∧
        (entry.visible = some false ∨
          (entry.visible ≠ some false ∧ ∃ d, entry.default = some d ∧
            ((∃ text, (TensorFlowLiteAttribute.new enumLookup toNumber metadata operator
                  name value).value = .fn text ∧
                looseEq toNumber (.str text) d = true) ∨
             ((∀ text, (TensorFlowLiteAttribute.new enumLookup toNumber metadata operator
                  name value).value ≠ .fn text) ∧
                looseEq toNumber (TensorFlowLiteAttribute.new enumLookup toNumber metadata
                  operator name value).value d = true))))) ∧
    (TensorFlowLiteAttribute.new enumLookup toNumber metadata operator name value).name
      = snakeCase name ∧
    (metadata.getSchema operator = none →
      (TensorFlowLiteAttribute.new enumLookup toNumber metadata operator name value).visible
        = true) ∧
    (∀ schema, metadata.getSchema operator = some schema →
      (∀ attributes, schema.attributes = some attributes →
        ∀ x ∈ attributes, x.name ≠ snakeCase name) →
      (TensorFlowLiteAttribute.new enumLookup toNumber metadata operator name value).visible
        = true) ∧
    (∀ schema attributes pre entry post d, metadata.getSchema operator = some schema →
      schema.attributes = some attributes → attributes = pre ++ entry :: post →
      entry.name = snakeCase name → (∀ x ∈ post, x.name ≠ snakeCase name) →
      entry.visible ≠ some false → entry.default = some d →
      (∀ x y, (TensorFlowLiteAttribute.new enumLookup toNumber metadata operator name
            value).value = .num x → d = .num y →
          ((TensorFlowLiteAttribute.new enumLookup toNumber metadata operator name
            value).visible = false ↔ x = y ∧ x ≠ .nan)) ∧
      (∀ s t, (TensorFlowLiteAttribute.new enumLookup toNumber metadata operator name
            value).value = .str s → d = .str t →
          ((TensorFlowLiteAttribute.new enumLookup toNumber metadata operator name
            value).visible = false ↔ s = t)) ∧
      (∀ p q, (TensorFlowLiteAttribute.new enumLookup toNumber metadata operator name
            value).value = .bool p → d = .bool q →
          ((TensorFlowLiteAttribute.new enumLookup toNumber metadata operator name
            value).visible = false ↔ p = q)) ∧
      (∀ text t, (TensorFlowLiteAttribute.new enumLookup toNumber metadata operator name
            value).value = .fn text → d = .str t →
          ((TensorFlowLiteAttribute.new enumLookup toNumber metadata operator name
            value).visible = false ↔ text = t))) := by
  have hname := TensorFlowLiteAttribute.new_name enumLookup toNumber metadata operator name value
  have hvis := TensorFlowLiteAttribute.new_visible enumLookup toNumber metadata operator name
    value
  have hmain : (TensorFlowLiteAttribute.new enumLookup toNumber metadata operator name
        value).visible = false ↔
      ∃ schema attributes pre entry post, metadata.getSchema operator = some schema ∧
        schema.attributes = some attributes ∧ attributes = pre ++ entry :: post ∧
        entry.name = snakeCase name ∧ (∀ x ∈ post, x.name ≠ snakeCase name) ∧
        (entry.visible = some false ∨
          (entry.visible ≠ some false ∧ ∃ d, entry.default = some d ∧
            ((∃ text, (TensorFlowLiteAttribute.new enumLookup toNumber metadata operator
                  name value).value = .fn text ∧
                looseEq toNumber (.str text) d = true) ∨
             ((∀ text, (TensorFlowLiteAttribute.new enumLookup toNumber metadata operator
                  name value).value ≠ .fn text) ∧
                looseEq toNumber (TensorFlowLiteAttribute.new enumLookup toNumber metadata
                  operator name value).value d = true)))) := by
    rw [hvis]
    constructor
    · rintro ⟨entry, hentry, h⟩
      obtain ⟨schema, attributes, pre, post, hs, ha, hsplit, hn, hpost⟩ :=
        (getAttributeSchema_eq_some_iff metadata operator _ entry).mp hentry
      refine ⟨schema, attributes, pre, entry, post, hs, ha, hsplit, hn, hpost, ?_⟩
      rcases h with h | ⟨hv, d, hd, h⟩
      · exact Or.inl h
      · exact Or.inr ⟨hv, d, hd, (looseEq_resolveValue toNumber _ d).mp h⟩
    · rintro ⟨schema, attributes, pre, entry, post, hs, ha, hsplit, hn, hpost, h⟩
      refine ⟨entry, (getAttributeSchema_eq_some_iff metadata operator _ entry).mpr
        ⟨schema, attributes, pre, post, hs, ha, hsplit, hn, hpost⟩, ?_⟩
      rcases h with h | ⟨hv, d, hd, h⟩
      · exact Or.inl h
      · exact Or.inr ⟨hv, d, hd, (looseEq_resolveValue toNumber _ d).mpr h⟩
  have htrue : ∀ {P : Prop}, ((TensorFlowLiteAttribute.new enumLookup toNumber metadata
      operator name value).visible = false ↔ P) →
      ((TensorFlowLiteAttribute.new enumLookup toNumber metadata operator name
        value).visible = true ↔ ¬ P) := by
    intro P h
    rw [← h]
    simp
  refine ⟨hmain, htrue hmain, hname, ?_, ?_, ?_⟩
  · intro hnone
    apply (htrue hmain).mpr
    rintro ⟨schema, _, _, _, _, hs, _⟩
    rw [hnone] at hs
    exact Option.noConfusion hs
  · intro schema hs hno
    apply (htrue hmain).mpr
    rintro ⟨schema2, attributes, pre, entry, post, hs2, ha, hsplit, hn, _⟩
    rw [hs] at hs2
    cases hs2
    exact hno attributes ha entry (by rw [hsplit]; simp) hn
  · intro schema attributes pre entry post d hs ha hsplit hn hpost hv hd
    have hentry := (getAttributeSchema_eq_some_iff metadata operator _ entry).mpr
      ⟨schema, attributes, pre, post, hs, ha, hsplit, hn, hpost⟩
    have hkey := TensorFlowLiteAttribute.new_visible_of_entry enumLookup toNumber metadata
      operator name value entry d hentry hv hd
    refine ⟨?_, ?_, ?_, ?_⟩
    · intro x y hx hy
      rw [hkey, hx, hy]
      simp [resolveValue, looseEq, JsNumber.eq_iff]
    · intro s t hx hy
      rw [hkey, hx, hy]
      simp [resolveValue, looseEq]
    · intro p q hx hy
      rw [hkey, hx, hy]
      simp [resolveValue, looseEq]
    · intro text t hx hy
      rw [hkey, hx, hy]
      simp [resolveValue, looseEq]

/-- C10 witness: under `defaultsCatalog` a lazily computed `[1, 2]` against the default
`"[1, 2]"` is invisible and a lazily computed `[1, 3]` is visible; the fraction 1/2 against
the default 1/2 is invisible and 1/3 is visible; `axis` is compared with the later of its
two defaults; `NaN` equals no default; the string `"0"` equals the default 0; an entry with
`visible: true` and an equal default is invisible; an entry with `visible: false` is
invisible whatever the value; a field without entry and an operator without schema are
visible. -/
theorem attribute_visible_iff_witness :
    (defaultsAttribute "newShape" (.fn "[1, 2]")).visible = false ∧
    (defaultsAttribute "newShape" (.fn "[1, 3]")).visible = true ∧
    (defaultsAttribute "alpha" (.num (.finite (mkRat 1 2)))).visible = false ∧
    (defaultsAttribute "alpha" (.num (.finite (mkRat 1 3)))).visible = true ∧
    (defaultsAttribute "axis" (.num 0)).visible = false ∧
    (defaultsAttribute "axis" (.num 7)).visible = true ∧
    (defaultsAttribute "axis" (.num .nan)).visible = true ∧
    (defaultsAttribute "axis" (.str "0")).visible = false ∧
    (defaultsAttribute "shown" (.bool true)).visible = false ∧
    (defaultsAttribute "shown" (.bool false)).visible = true ∧
    (defaultsAttribute "hidden" (.num 5)).visible = false ∧
    (defaultsAttribute "other" (.num 0)).visible = true ∧
    (TensorFlowLiteAttribute.new sampleEnumLookup sampleToNumber defaultsCatalog "Conv" "axis"
      (.num 0)).visible = true ∧
    (defaultsAttribute "newShape" (.fn "[1, 2]")).name = "new_shape" :=
  ⟨(attribute_visible_iff sampleEnumLookup sampleToNumber defaultsCatalog "Reshape"
      "newShape" (.fn "[1, 2]")).1.mpr
      ⟨{ attributes := some defaultsAttributes }, defaultsAttributes, [],
        { name := "new_shape", default := some (.str "[1, 2]") }, defaultsAttributes.tail,
        by decide, rfl, rfl, by decide, by decide,
        Or.inr ⟨by decide, .str "[1, 2]", rfl, Or.inl ⟨"[1, 2]", rfl, rfl⟩⟩⟩,
   rfl, rfl, rfl, rfl, rfl, rfl, rfl, rfl, rfl, rfl, rfl,
   (attribute_visible_iff sampleEnumLookup sampleToNumber defaultsCatalog "Conv" "axis"
      (.num 0)).2.2.2.1 (by decide),
   rfl⟩

theorem attributesLoop_ok (enumLookup : String → JsValue → JsValue)
    (toNumber : String → JsNumber) (metadata : TensorFlowLiteOperatorMetadata)
    (operator : String) (options : OptionsRecord) (names : List String) :
    ∀ attributes : List TensorFlowLiteAttribute,
      (∀ name ∈ names, (options.accessor name).isSome →
        ∃ v, attributeValue toNumber options name = .ok v) →
      attributesLoop enumLookup toNumber metadata operator options names attributes =
        .ok (attributes ++
          (names.filter (fun name => (options.accessor name).isSome)).map (fun name =>
            TensorFlowLiteAttribute.new enumLookup toNumber metadata operator name
              (fieldValue toNumber options name))) := by
  induction names with
  | nil => intro attributes _; simp [attributesLoop]
  | cons name rest ih =>
    intro attributes hvalues
    have hrest : ∀ n ∈ rest, (options.accessor n).isSome →
        ∃ v, attributeValue toNumber options n = .ok v :=
      fun n hn => hvalues n (List.mem_cons_of_mem _ hn)
    by_cases hcall : (options.accessor name).isSome = true
    · obtain ⟨v, hv⟩ := hvalues name (List.mem_cons_self _ _) hcall
      have hfv : fieldValue toNumber options name = v := by simp [fieldValue, hv]
      rw [attributesLoop]
      simp only [hcall, if_true, hv]
      rw [ih _ hrest]
      simp [List.filter_cons, hcall, hfv]
    · rw [attributesLoop]
      simp only [hcall, Bool.false_eq_true, if_false]
      rw [ih _ hrest]
      simp [List.filter_cons, hcall]

/-- C9 counterexample: with the catalog default 0 for `axis` and `hidden` marked invisible,
the attributes of a node whose field `axis` has the value 0 still contain the attribute
`axis` (its value equal to the default) and the attribute `hidden`. -/
theorem nodeAttributes_counterexample :
    nodeAttributes sampleEnumLookup sampleToNumber attributeCatalog "Squeeze"
        (some (squeezeOptions 0))
      = .ok [⟨none, .num 0, "axis", some false⟩, ⟨none, .num 5, "hidden", some false⟩] :=
  rfl

/-- C9: suppression does not remove an attribute from the list, it clears its `visible`
flag. When reading the option fields raises no error, the `attributes` list of a node holds
exactly one attribute for every emitted field, in order, the one the attribute constructor
builds from the field name and value; its name is the snake_case field name, and its
`visible` is false exactly when the catalog attribute schema marks it invisible or, failing
that, declares a default that `==` its value (the computed text, for a lazily computed
value). -/
theorem nodeAttributes_keeps_every_field (enumLookup : String → JsValue → JsValue)
    (toNumber : String → JsNumber) (metadata : TensorFlowLiteOperatorMetadata)
    (operator : String) (options : OptionsRecord)
    (hvalues : ∀ name ∈ attributeNames options.keys, (options.accessor name).isSome →
      ∃ v, attributeValue toNumber options name = .ok v) :
    ∃ attributes,
      nodeAttributes enumLookup toNumber metadata operator (some options) = .ok attributes ∧
      attributes.length = (emittedFields options).length ∧
      ∀ (i : Nat) (name : String), (emittedFields options)[i]? = some name →
        ∃ a v, attributes[i]? = some a ∧ attributeValue toNumber options name = .ok v ∧
          a = TensorFlowLiteAttribute.new enumLookup toNumber metadata operator name v ∧
          a.name = snakeCase name ∧
          (a.visible = false ↔
            ∃ schema, metadata.getAttributeSchema operator (snakeCase name) = some schema ∧
              (schema.visible = some false ∨
                (schema.visible ≠ some false ∧ ∃ d, schema.default = some d ∧
                  ((∃ text, a.value = .fn text ∧ looseEq toNumber (.str text) d = true) ∨
                   ((∀ text, a.value ≠ .fn text) ∧ looseEq toNumber a.value d = true))))) := by
  refine ⟨_, attributesLoop_ok enumLookup toNumber metadata operator options _ [] hvalues,
    by simp [emittedFields], ?_⟩
  intro i name hi
  have hmem : name ∈ emittedFields options := List.getElem?_mem hi
  have hmem2 := List.mem_filter.mp hmem
  obtain ⟨v, hv⟩ := hvalues name hmem2.1 (by simpa using hmem2.2)
  have hfv : fieldValue toNumber options name = v := by simp [fieldValue, hv]
  refine ⟨TensorFlowLiteAttribute.new enumLookup toNumber metadata operator name v, v,
    ?_, hv, rfl, TensorFlowLiteAttribute.new_name _ _ _ _ _ _, ?_⟩
  · simp only [List.nil_append, List.getElem?_map]
    unfold emittedFields at hi
    rw [hi]
    simp [hfv]
  · rw [TensorFlowLiteAttribute.new_visible]
    simp only [looseEq_resolveValue]

/-- C9 witness: the field `axis` with value 0 and default 0 is in the list with `visible`
false; the same field with value 1 is in the list with value 1 and `visible` true. A record
with a field named `toString` and no field `toStringLength` is not read without error: the
constructor ends in a `TypeError`. -/
theorem nodeAttributes_keeps_every_field_witness :
    (nodeAttributes sampleEnumLookup sampleToNumber attributeCatalog "Squeeze"
        (some (squeezeOptions 0))).toOption.map
        (fun l => l.map (fun a => (a.name, a.value, a.visible)))
      = some [("axis", .num 0, false), ("hidden", .num 5, false)] ∧
    (nodeAttributes sampleEnumLookup sampleToNumber attributeCatalog "Squeeze"
        (some (squeezeOptions 1))).toOption.map
        (fun l => l.map (fun a => (a.name, a.value, a.visible)))
      = some [("axis", .num 1, true), ("hidden", .num 5, false)] ∧
    (attributeValue sampleToNumber inheritedNameOptions "toString" = .error .typeError ∧
      nodeAttributes sampleEnumLookup sampleToNumber attributeCatalog "Squeeze"
        (some inheritedNameOptions) = .error .typeError) ∧
    ∃ attributes,
      nodeAttributes sampleEnumLookup sampleToNumber attributeCatalog "Squeeze"
        (some (squeezeOptions 1)) = .ok attributes ∧
      attributes.length = (emittedFields (squeezeOptions 1)).length ∧
      ∀ (i : Nat) (name : String), (emittedFields (squeezeOptions 1))[i]? = some name →
        ∃ a v, attributes[i]? = some a ∧
          attributeValue sampleToNumber (squeezeOptions 1) name = .ok v ∧
          a = TensorFlowLiteAttribute.new sampleEnumLookup sampleToNumber attributeCatalog
            "Squeeze" name v ∧
          a.name = snakeCase name ∧
          (a.visible = false ↔
            ∃ schema, attributeCatalog.getAttributeSchema "Squeeze" (snakeCase name)
                = some schema ∧
              (schema.visible = some false ∨
                (schema.visible ≠ some false ∧ ∃ d, schema.default = some d ∧
                  ((∃ text, a.value = .fn text ∧
                      looseEq sampleToNumber (.str text) d = true) ∨
                   ((∀ text, a.value ≠ .fn text) ∧
                      looseEq sampleToNumber a.value d = true))))) :=
  ⟨rfl, rfl, ⟨rfl, rfl⟩,
   nodeAttributes_keeps_every_field sampleEnumLookup sampleToNumber attributeCatalog
    "Squeeze" (squeezeOptions 1) (by
      intro name hname _
      have hnames : attributeNames (squeezeOptions 1).keys = ["axis", "hidden"] := by decide
      rw [hnames] at hname
      simp only [List.mem_cons, List.mem_singleton, List.not_mem_nil, or_false] at hname
      rcases hname with rfl | rfl
      · exact ⟨.num 1, rfl⟩
      · exact ⟨.num 5, rfl⟩)⟩

/-! ## Properties of the attribute and operator names -/

theorem Char.upper_cases (c : Char) (h : c.isUpper = true) (P : Char → Prop)
    (hP : ∀ n, 65 ≤ n → n ≤ 90 → P (Char.ofNat n)) : P c := by
  have h1 : 65 ≤ c.toNat ∧ c.toNat ≤ 90 := by
    simp only [Char.isUpper, Bool.and_eq_true, decide_eq_true_eq, ge_iff_le] at h
    exact ⟨by simpa [Char.toNat, UInt32.le_def, Fin.le_def] using h.1,
      by simpa [Char.toNat, UInt32.le_def, Fin.le_def] using h.2⟩
  have := hP c.toNat h1.1 h1.2
  rwa [Char.ofNat_toNat] at this

theorem Char.toLower_of_isUpper (c : Char) (h : c.isUpper = true) :
    c.toLower ≠ c ∧ c.toLower.isUpper = false ∧ c.toLower ≠ '_' ∧ c.toLower.toUpper = c := by
  apply Char.upper_cases c h
  intro n h1 h2
  interval_cases n <;> decide

theorem Char.toLower_of_not_isUpper (c : Char) (h : c.isUpper = false) : c.toLower = c := by
  have h1 : ¬ (65 ≤ c.toNat ∧ c.toNat ≤ 90) := by
    intro hh
    have : c.isUpper = true := by
      simp only [Char.isUpper, Bool.and_eq_true, decide_eq_true_eq, ge_iff_le]
      exact ⟨by simpa [Char.toNat, UInt32.le_def, Fin.le_def] using hh.1,
        by simpa [Char.toNat, UInt32.le_def, Fin.le_def] using hh.2⟩
    rw [h] at this
    exact Bool.noConfusion this
  simp only [Char.toLower]
  rw [if_neg]
  simpa using h1

theorem snakeCase_data (name : String) :
    (snakeCase name).data =
      name.data.flatMap (fun c => if c.isUpper then ['_', c.toLower] else [c]) := by
  unfold snakeCase toLowerCase
  simp only
  generalize name.data = l
  induction l with
  | nil => rfl
  | cons c l ih =>
    simp only [List.map_cons, List.zip_cons_cons, List.flatMap_cons, ih]
    congr 1
    by_cases h : c.isUpper = true
    · simp [h, Ne.symm (Char.toLower_of_isUpper c h).1]
    · have h2 : c.isUpper = false := by simpa using h
      simp [h2, Char.toLower_of_not_isUpper c h2]

/-- C11: for a field name made of ASCII letters and digits the attribute name is the input
with each uppercase letter replaced by `'_'` followed by its lowercase form and every other
character kept; the result has no uppercase letter, its length is the input length plus the
number of uppercase letters, and deleting each `'_'` gives the lowercased input. -/
theorem snakeCase_spec (name : String) (h : ∀ c ∈ name.data, c.isAlphanum = true) :
    (snakeCase name).data =
      name.data.flatMap (fun c => if c.isUpper then ['_', c.toLower] else [c]) ∧
    (∀ c ∈ (snakeCase name).data, c.isUpper = false) ∧
    (snakeCase name).length = name.length + (name.data.filter Char.isUpper).length ∧
    (snakeCase name).data.filter (fun c => c != '_') = (toLowerCase name).data := by
  refine ⟨snakeCase_data name, ?_, ?_, ?_⟩
  · rw [snakeCase_data]
    intro c hc
    simp only [List.mem_flatMap] at hc
    obtain ⟨a, _, hca⟩ := hc
    by_cases hu : a.isUpper = true
    · simp only [hu, if_true, List.mem_cons, List.mem_singleton, List.not_mem_nil,
        or_false] at hca
      rcases hca with rfl | rfl
      · decide
      · exact (Char.toLower_of_isUpper a hu).2.1
    · simp only [hu, Bool.false_eq_true, if_false, List.mem_singleton] at hca
      rw [hca]
      simpa using hu
  · simp only [String.length, snakeCase_data]
    generalize name.data = l
    induction l with
    | nil => rfl
    | cons c l ih =>
      simp only [List.flatMap_cons, List.length_append, ih, List.length_cons, List.filter_cons]
      by_cases hu : c.isUpper = true
      · simp [hu]; omega
      · simp [hu]; omega
  · rw [snakeCase_data]
    unfold toLowerCase
    simp only
    have h2 : ∀ c ∈ name.data, c.isAlphanum = true := h
    revert h2
    generalize name.data = l
    intro h2
    induction l with
    | nil => rfl
    | cons c l ih =>
      have hc := h2 c (List.mem_cons_self _ _)
      have hl := ih (fun x hx => h2 x (List.mem_cons_of_mem _ hx))
      simp only [List.flatMap_cons, List.filter_append, hl, List.map_cons]
      by_cases hu : c.isUpper = true
      · have hne := (Char.toLower_of_isUpper c hu).2.2.1
        simp [hu, hne]
      · have hu2 : c.isUpper = false := by simpa using hu
        have hne : c ≠ '_' := by
          intro hcu
          rw [hcu] at hc
          exact absurd hc (by decide)
        simp [hu2, hne, Char.toLower_of_not_isUpper c hu2]

/-- C11 witness: `"fusedActivationFunction"` maps to `"fused_activation_function"`. -/
theorem snakeCase_spec_witness :
    snakeCase "fusedActivationFunction" = "fused_activation_function" ∧
    ((snakeCase "fusedActivationFunction").data =
      "fusedActivationFunction".data.flatMap
        (fun c => if c.isUpper then ['_', c.toLower] else [c]) ∧
    (∀ c ∈ (snakeCase "fusedActivationFunction").data, c.isUpper = false) ∧
    (snakeCase "fusedActivationFunction").length = "fusedActivationFunction".length +
      ("fusedActivationFunction".data.filter Char.isUpper).length ∧
    (snakeCase "fusedActivationFunction").data.filter (fun c => c != '_')
      = (toLowerCase "fusedActivationFunction").data) :=
  ⟨by decide, snakeCase_spec "fusedActivationFunction" (by decide)⟩

theorem Char.digit_cases (c : Char) (h : c.isDigit = true) (P : Char → Prop)
    (hP : ∀ n, 48 ≤ n → n ≤ 57 → P (Char.ofNat n)) : P c := by
  have h1 : 48 ≤ c.toNat ∧ c.toNat ≤ 57 := by
    simp only [Char.isDigit, Bool.and_eq_true, decide_eq_true_eq, ge_iff_le] at h
    exact ⟨by simpa [Char.toNat, UInt32.le_def, Fin.le_def] using h.1,
      by simpa [Char.toNat, UInt32.le_def, Fin.le_def] using h.2⟩
  have := hP c.toNat h1.1 h1.2
  rwa [Char.ofNat_toNat] at this

theorem Char.keyChar_facts (c : Char) (h : c.isUpper = true ∨ c.isDigit = true) :
    c ≠ '_' ∧ c.toLower ≠ '_' ∧ c.toUpper = c ∧ c.toLower.toUpper = c := by
  rcases h with h | h
  · apply Char.upper_cases c h
    intro n h1 h2
    interval_cases n <;> decide
  · apply Char.digit_cases c h
    intro n h1 h2
    interval_cases n <;> decide

theorem not_mem_splitChars (sep : Char) (l : List Char) :
    ∀ piece ∈ splitChars sep l, sep ∉ piece := by
  induction l with
  | nil => intro piece hp; simp [splitChars] at hp; simp [hp]
  | cons c rest ih =>
    intro piece hp
    unfold splitChars at hp
    by_cases hc : c = sep
    · simp only [hc, if_true, List.mem_cons] at hp
      rcases hp with rfl | hp
      · simp
      · exact ih piece hp
    · simp only [hc, if_false] at hp
      cases hs : splitChars sep rest with
      | nil =>
        rw [hs] at hp
        simp only [List.mem_singleton] at hp
        rw [hp]
        simp [Ne.symm hc]
      | cons p ps =>
        rw [hs] at hp ih
        simp only [List.mem_cons] at hp
        rcases hp with rfl | hp
        · have := ih p (List.mem_cons_self _ _)
          simp [Ne.symm hc, this]
        · exact ih piece (List.mem_cons_of_mem _ hp)

theorem splitChars_subset (sep : Char) (l : List Char) :
    ∀ piece ∈ splitChars sep l, ∀ x ∈ piece, x ∈ l := by
  induction l with
  | nil => intro piece hp x hx; simp [splitChars] at hp; rw [hp] at hx; exact absurd hx (by simp)
  | cons c rest ih =>
    intro piece hp x hx
    unfold splitChars at hp
    by_cases hc : c = sep
    · simp only [hc, if_true, List.mem_cons] at hp
      rcases hp with rfl | hp
      · exact absurd hx (by simp)
      · exact List.mem_cons_of_mem _ (ih piece hp x hx)
    · simp only [hc, if_false] at hp
      cases hs : splitChars sep rest with
      | nil =>
        rw [hs] at hp
        simp only [List.mem_singleton] at hp
        rw [hp] at hx
        simp only [List.mem_singleton] at hx
        rw [hx]; exact List.mem_cons_self _ _
      | cons p ps =>
        rw [hs] at hp ih
        simp only [List.mem_cons] at hp
        rcases hp with rfl | hp
        · simp only [List.mem_cons] at hx
          rcases hx with rfl | hx
          · exact List.mem_cons_self _ _
          · exact List.mem_cons_of_mem _ (ih p (List.mem_cons_self _ _) x hx)
        · exact List.mem_cons_of_mem _ (ih piece (List.mem_cons_of_mem _ hp) x hx)

theorem splitChars_flatten (sep : Char) (l : List Char) :
    (splitChars sep l).flatten = l.filter (fun c => c != sep) := by
  induction l with
  | nil => rfl
  | cons c rest ih =>
    unfold splitChars
    by_cases hc : c = sep
    · simp [hc, ih]
    · simp only [hc, if_false]
      cases hs : splitChars sep rest with
      | nil => rw [hs] at ih; simp [hc, ← ih]
      | cons p ps => rw [hs] at ih; simp [hc, ← ih]

theorem canonicalPiece_facts (s : List Char)
    (h : ∀ c ∈ s, c.isUpper = true ∨ c.isDigit = true) :
    '_' ∉ canonicalPiece s ∧ (canonicalPiece s).map Char.toUpper = s := by
  have hup : ∀ l : List Char, (∀ c ∈ l, c.isUpper = true ∨ c.isDigit = true) →
      l.map Char.toUpper = l := by
    intro l hl
    induction l with
    | nil => rfl
    | cons c l ih =>
      simp only [List.map_cons, ih (fun x hx => hl x (List.mem_cons_of_mem _ hx)),
        (Char.keyChar_facts c (hl c (List.mem_cons_self _ _))).2.2.1]
  have hlow : ∀ l : List Char, (∀ c ∈ l, c.isUpper = true ∨ c.isDigit = true) →
      (l.map Char.toLower).map Char.toUpper = l ∧ '_' ∉ l.map Char.toLower := by
    intro l hl
    induction l with
    | nil => exact ⟨rfl, by simp⟩
    | cons c l ih =>
      have hc := Char.keyChar_facts c (hl c (List.mem_cons_self _ _))
      have hr := ih (fun x hx => hl x (List.mem_cons_of_mem _ hx))
      constructor
      · simp only [List.map_cons, hr.1, hc.2.2.2]
      · simp only [List.map_cons, List.mem_cons, not_or]
        exact ⟨Ne.symm hc.2.1, hr.2⟩
  have hnot : '_' ∉ s := fun hm => (Char.keyChar_facts _ (h _ hm)).1 rfl
  unfold canonicalPiece
  split_ifs with hcond
  · exact ⟨hnot, hup s h⟩
  · cases s with
    | nil => exact ⟨by simp, rfl⟩
    | cons c rest =>
      have hc := Char.keyChar_facts c (h c (List.mem_cons_self _ _))
      have hr := hlow rest (fun x hx => h x (List.mem_cons_of_mem _ hx))
      constructor
      · simp only [List.take_succ_cons, List.take_zero, List.drop_succ_cons, List.drop_zero,
          List.singleton_append, List.mem_cons, not_or]
        exact ⟨Ne.symm hc.1, hr.2⟩
      · simp only [List.take_succ_cons, List.take_zero, List.drop_succ_cons, List.drop_zero,
          List.singleton_append, List.map_cons, hc.2.2.1, hr.1]

/-- C13: for an enumeration key made of uppercase letters, digits and `'_'` the canonical
name is the concatenation of the `'_'`-separated pieces, where a piece that is empty or one
of `2D`, `LSH`, `SVDF`, `RNN`, `L2`, `LSTM` is kept and any other piece keeps its first
character and lowercases the rest; the name contains no `'_'` and upper-casing it gives the
key with `'_'` removed. -/
theorem canonicalName_spec (key : String)
    (h : ∀ c ∈ key.data, c.isUpper = true ∨ c.isDigit = true ∨ c = '_') :
    (canonicalName key).data =
      ((splitChars '_' key.data).map (fun s =>
        if s = [] ∨ s ∈ ["2D".data, "LSH".data, "SVDF".data, "RNN".data, "L2".data,
            "LSTM".data]
        then s else s.take 1 ++ (s.drop 1).map Char.toLower)).flatten ∧
    '_' ∉ (canonicalName key).data ∧
    (canonicalName key).data.map Char.toUpper = key.data.filter (fun c => c != '_') := by
  have hpieces : ∀ piece ∈ splitChars '_' key.data,
      ∀ c ∈ piece, c.isUpper = true ∨ c.isDigit = true := by
    intro piece hp c hc
    have hne : c ≠ '_' := fun hcu => not_mem_splitChars '_' key.data piece hp (hcu ▸ hc)
    rcases h c (splitChars_subset '_' key.data piece hp c hc) with h1 | h1 | h1
    · exact Or.inl h1
    · exact Or.inr h1
    · exact absurd h1 hne
  refine ⟨?_, ?_, ?_⟩
  · unfold canonicalName
    simp only
    congr 1
    apply List.map_congr_left
    intro s _
    unfold canonicalPiece upperCase
    have : s.length < 1 ↔ s = [] := by
      cases s <;> simp
    simp only [this]
  · unfold canonicalName
    simp only [List.mem_flatten, List.mem_map, not_exists, not_and]
    intro l hl hmem
    obtain ⟨x, hx, rfl⟩ := hl
    exact (canonicalPiece_facts x (hpieces x hx)).1 hmem
  · rw [← splitChars_flatten]
    unfold canonicalName
    simp only [List.map_flatten, List.map_map]
    congr 1
    conv_rhs => rw [← List.map_id (splitChars '_' key.data)]
    apply List.map_congr_left
    intro s hs
    exact (canonicalPiece_facts s (hpieces s hs)).2

/-- C13 witness: `CONV_2D`, `LSH_PROJECTION` and `L2_NORMALIZATION`. -/
theorem canonicalName_spec_witness :
    canonicalName "CONV_2D" = "Conv2D" ∧
    canonicalName "LSH_PROJECTION" = "LSHProjection" ∧
    canonicalName "L2_NORMALIZATION" = "L2Normalization" ∧
    '_' ∉ (canonicalName "CONV_2D").data ∧
    (canonicalName "CONV_2D").data.map Char.toUpper
      = "CONV_2D".data.filter (fun c => c != '_') :=
  ⟨by decide, by decide, by decide,
   (canonicalName_spec "CONV_2D" (by decide)).2⟩

/-! ## Properties of the graph and model builders -/

theorem getInputsLoop_total (schema : Option Schema) (cs : List Int) (fuel : Nat) :
    ∀ (index : Nat) (results : List InputResult), cs.length - index ≤ fuel →
      ∃ r, getInputsLoop schema cs fuel index results = some r := by
  induction fuel with
  | zero =>
    intro index results h
    exact ⟨results, getInputsLoop_done schema cs 0 index results (by omega)⟩
  | succ fuel ih =>
    intro index results h
    by_cases hlt : index < cs.length
    · cases hv : slotVariadic schema index with
      | false =>
        rw [getInputsLoop_single schema cs fuel index results hlt hv]
        exact ih (index + 1) _ (by omega)
      | true =>
        rw [getInputsLoop_variadic schema cs fuel index results hlt hv]
        exact ⟨_, rfl⟩
    · exact ⟨results, getInputsLoop_done schema cs _ index results hlt⟩

theorem getInputs_total (metadata : TensorFlowLiteOperatorMetadata) (node : OperatorRecord)
    (operator : String) : ∃ r, metadata.getInputs node operator = some r :=
  getInputsLoop_total _ node.inputs node.inputs.length 0 [] (by omega)

theorem buildConnections_ok (env : Environment) (model : ModelRecord)
    (tensors : List TensorRecord) :
    ∀ (i : Nat) (connections : List TensorFlowLiteConnection) (names : List (Option String)),
      (∀ tensor ∈ tensors, (model.buffers tensor.buffer).isSome = true) →
      ∃ built, buildConnections env model tensors i connections names
          = .ok (connections ++ built, names ++ tensors.map TensorRecord.name) ∧
        built.length = tensors.length ∧
        ∀ (k : Nat) (tensor : TensorRecord), tensors[k]? = some tensor →
          built[k]? = some (tensorConnection env model (i + k) tensor) := by
  induction tensors with
  | nil =>
    intro i connections names _
    exact ⟨[], by simp [buildConnections], rfl, by simp⟩
  | cons tensor rest ih =>
    intro i connections names h
    obtain ⟨buffer, hb⟩ := Option.isSome_iff_exists.mp (h tensor (List.mem_cons_self _ _))
    obtain ⟨built, hbuilt, hlen, hget⟩ := ih (i + 1)
      (connections ++ [tensorConnection env model i tensor]) (names ++ [tensor.name])
      (fun t ht => h t (List.mem_cons_of_mem _ ht))
    refine ⟨tensorConnection env model i tensor :: built, ?_, by simp [hlen], ?_⟩
    · rw [buildConnections]
      simp only [hb]
      have : TensorFlowLiteConnection.new env tensor i
          (if buffer.dataLength > 0 then
            some (TensorFlowLiteTensor.new env.tensorTypes tensor i buffer) else none)
          = tensorConnection env model i tensor := by
        simp [tensorConnection, tensorInitializer, hb]
      rw [this, hbuilt]
      simp
    · intro k t hk
      cases k with
      | zero =>
        simp only [List.getElem?_cons_zero, Option.some.injEq] at hk
        simp [hk]
      | succ k =>
        simp only [List.getElem?_cons_succ] at hk
        have := hget k t hk
        simp only [List.getElem?_cons_succ, this]
        congr 2
        omega

theorem node_new_ok (env : Environment) (operatorCodeList : List JsName)
    (operator : SubGraphOperator) (connections : List TensorFlowLiteConnection)
    (h : attributesReadable env operatorCodeList operator = true) :
    ∃ node, TensorFlowLiteNode.new env operator
        (operatorNameAt operatorCodeList operator.opcodeIndex) connections = some (.ok node) ∧
      node.operator = operatorNameAt operatorCodeList operator.opcodeIndex ∧
      nodeAttributes env.enumLookup env.toNumber env.metadata
        (operatorNameAt operatorCodeList operator.opcodeIndex).text
        (nodeOptions env.window operator
          (operatorNameAt operatorCodeList operator.opcodeIndex)) = .ok node.attributes := by
  obtain ⟨inputs, hin⟩ := getInputs_total env.metadata operator.toOperatorRecord
    (operatorNameAt operatorCodeList operator.opcodeIndex).text
  unfold attributesReadable at h
  unfold TensorFlowLiteNode.new
  simp only [hin]
  cases ha : nodeAttributes env.enumLookup env.toNumber env.metadata
      (operatorNameAt operatorCodeList operator.opcodeIndex).text
      (nodeOptions env.window operator
        (operatorNameAt operatorCodeList operator.opcodeIndex)) with
  | error e => rw [ha] at h; simp [Except.toBool] at h
  | ok attrs => exact ⟨_, rfl, rfl, rfl⟩

theorem buildNodes_ok (env : Environment) (operatorCodeList : List JsName)
    (connections : List TensorFlowLiteConnection) (operators : List SubGraphOperator) :
    ∀ (nodes : List TensorFlowLiteNode) (tally : List (String × TallyValue)),
      (∀ operator ∈ operators, attributesReadable env operatorCodeList operator = true) →
      ∃ built tally2, buildNodes env operatorCodeList connections operators nodes tally
          = some (.ok (nodes ++ built, tally2)) ∧
        built.length = operators.length ∧
        ∀ (j : Nat) (operator : SubGraphOperator), operators[j]? = some operator →
          ∃ node, built[j]? = some node ∧
            TensorFlowLiteNode.new env operator
              (operatorNameAt operatorCodeList operator.opcodeIndex) connections
              = some (.ok node) := by
  induction operators with
  | nil =>
    intro nodes tally _
    exact ⟨[], tally, by simp [buildNodes], rfl, by simp⟩
  | cons operator rest ih =>
    intro nodes tally h
    obtain ⟨node, hnode, _, _⟩ := node_new_ok env operatorCodeList operator
      connections (h operator (List.mem_cons_self _ _))
    obtain ⟨built, tally2, hbuilt, hlen, hget⟩ := ih (nodes ++ [node])
      (tallyOperator tally node.operator.text) (fun o ho => h o (List.mem_cons_of_mem _ ho))
    refine ⟨node :: built, tally2, ?_, by simp [hlen], ?_⟩
    · rw [buildNodes]
      simp only [hnode, hbuilt]
      simp
    · intro j o hj
      cases j with
      | zero =>
        simp only [List.getElem?_cons_zero, Option.some.injEq] at hj
        subst hj
        exact ⟨node, by simp, hnode⟩
      | succ j =>
        simp only [List.getElem?_cons_succ] at hj
        simpa using hget j o hj

theorem graph_new_ok (env : Environment) (model : ModelRecord)
    (operatorCodeList : List JsName) (graph : SubGraphRecord) (name : String)
    (h : GraphBuilds env model operatorCodeList graph) :
    ∃ built, TensorFlowLiteGraph.new env graph name operatorCodeList model
        = some (.ok built) ∧
      built.name = (if truthyStr graph.name then graph.name.getD "" else name) ∧
      built.nodes.length = graph.operators.length ∧
      ∀ (j : Nat) (operator : SubGraphOperator), graph.operators[j]? = some operator →
        ∃ node, built.nodes[j]? = some node ∧
          node.operator = operatorNameAt operatorCodeList operator.opcodeIndex ∧
          nodeAttributes env.enumLookup env.toNumber env.metadata
            (operatorNameAt operatorCodeList operator.opcodeIndex).text
            (nodeOptions env.window operator
              (operatorNameAt operatorCodeList operator.opcodeIndex))
            = .ok node.attributes := by
  obtain ⟨connections, hconn, _, _⟩ := buildConnections_ok env model graph.tensors 0 [] [] h.1
  obtain ⟨nodes, tally, hnodes, hlen, hget⟩ := buildNodes_ok env operatorCodeList
    ([] ++ connections) graph.operators [] [] h.2
  simp only [List.nil_append] at hconn hnodes hget
  refine ⟨⟨if truthyStr graph.name then graph.name.getD "" else name, nodes,
      graph.inputs.map (fun inputIndex =>
        ⟨nameAt (List.map TensorRecord.name graph.tensors) inputIndex, true,
          [connectionAt connections inputIndex]⟩),
      graph.outputs.map (fun outputIndex =>
        ⟨nameAt (List.map TensorRecord.name graph.tensors) outputIndex, true,
          [connectionAt connections outputIndex]⟩), tally⟩, ?_, rfl, ?_, ?_⟩
  · unfold TensorFlowLiteGraph.new
    simp only [hconn, hnodes]
  · simpa [TensorFlowLiteGraph.nodes] using hlen
  · intro j operator hj
    obtain ⟨node, hnode, hnew⟩ := hget j operator hj
    obtain ⟨node2, hnew2, hop, hattr⟩ := node_new_ok env operatorCodeList
      operator connections (h.2 operator (List.getElem?_mem hj))
    rw [hnew] at hnew2
    have hnn : node = node2 := by
      simpa using hnew2
    subst hnn
    exact ⟨node, by simpa [TensorFlowLiteGraph.nodes] using hnode, hop, hattr⟩

theorem buildGraphs_ok (env : Environment) (model : ModelRecord)
    (operatorCodeList : List JsName) (subgraphsLength : Nat)
    (subgraphs : List SubGraphRecord) :
    ∀ (start : Nat) (graphs : List TensorFlowLiteGraph),
      (∀ graph ∈ subgraphs, GraphBuilds env model operatorCodeList graph) →
      ∃ built, buildGraphs env model operatorCodeList subgraphsLength subgraphs start graphs
          = some (.ok (graphs ++ built)) ∧
        built.length = subgraphs.length ∧
        ∀ (n : Nat) (graph : SubGraphRecord), subgraphs[n]? = some graph →
          ∃ g, built[n]? = some g ∧
            TensorFlowLiteGraph.new env graph
              (if subgraphsLength > 1 then "(" ++ toString (start + n) ++ ")" else "")
              operatorCodeList model = some (.ok g) := by
  induction subgraphs with
  | nil =>
    intro start graphs _
    exact ⟨[], by simp [buildGraphs], rfl, by simp⟩
  | cons graph rest ih =>
    intro start graphs h
    obtain ⟨g, hg, _⟩ := graph_new_ok env model operatorCodeList graph
      (if subgraphsLength > 1 then "(" ++ toString start ++ ")" else "")
      (h graph (List.mem_cons_self _ _))
    obtain ⟨built, hbuilt, hlen, hget⟩ := ih (start + 1) (graphs ++ [g])
      (fun x hx => h x (List.mem_cons_of_mem _ hx))
    refine ⟨g :: built, ?_, by simp [hlen], ?_⟩
    · rw [buildGraphs]
      simp only [hg, hbuilt]
      simp
    · intro n x hn
      cases n with
      | zero =>
        simp only [List.getElem?_cons_zero, Option.some.injEq] at hn
        subst hn
        exact ⟨g, by simp, by simpa using hg⟩
      | succ n =>
        simp only [List.getElem?_cons_succ] at hn
        obtain ⟨g2, hg2, hnew⟩ := hget n x hn
        refine ⟨g2, by simpa using hg2, ?_⟩
        have : start + (n + 1) = start + 1 + n := by omega
        rw [this]
        exact hnew

theorem model_new_ok (env : Environment) (model : ModelRecord)
    (h : ∀ graph ∈ model.subgraphs,
      GraphBuilds env model (operatorCodeList env.builtinOperators model.operatorCodes) graph) :
    ∃ graphs, TensorFlowLiteModel.new env model
        = some (.ok ⟨graphs, "TensorFlow Lite v" ++ toString model.version,
            if truthyStr model.description then model.description else none⟩) ∧
      graphs.length = model.subgraphs.length ∧
      ∀ (n : Nat) (graph : SubGraphRecord), model.subgraphs[n]? = some graph →
        ∃ g, graphs[n]? = some g ∧
          TensorFlowLiteGraph.new env graph
            (if model.subgraphs.length > 1 then "(" ++ toString n ++ ")" else "")
            (operatorCodeList env.builtinOperators model.operatorCodes) model
            = some (.ok g) := by
  obtain ⟨built, hbuilt, hlen, hget⟩ := buildGraphs_ok env model
    (operatorCodeList env.builtinOperators model.operatorCodes) model.subgraphs.length
    model.subgraphs 0 [] h
  refine ⟨built, ?_, hlen, ?_⟩
  · unfold TensorFlowLiteModel.new
    simp only [hbuilt, List.nil_append]
  · intro n graph hn
    simpa using hget n graph hn

/-- C12: when the graph constructor raises no error, node `j` of the built graph has the
operator name `operatorCodeList[opcodeIndex]` when `opcodeIndex` is within the table and
`"(" + opcodeIndex + ")"` when it is not; and an operator whose opcode index is outside the
table raises no error of its own: with no options type under its positional name it has no
option field to read. -/
theorem graph_operator_name (env : Environment) (model : ModelRecord)
    (codes : List JsName) (graph : SubGraphRecord) (name : String)
    (h : GraphBuilds env model codes graph) :
    (∃ built, TensorFlowLiteGraph.new env graph name codes model = some (.ok built) ∧
      built.nodes.length = graph.operators.length ∧
      ∀ (j : Nat) (operator : SubGraphOperator), graph.operators[j]? = some operator →
        ∃ node, built.nodes[j]? = some node ∧
          (operator.opcodeIndex < codes.length →
            some node.operator = codes[operator.opcodeIndex]?) ∧
          (codes.length ≤ operator.opcodeIndex →
            node.operator = .str ("(" ++ toString operator.opcodeIndex ++ ")"))) ∧
    (∀ operator : SubGraphOperator, codes.length ≤ operator.opcodeIndex →
      nodeOptions env.window operator (.str ("(" ++ toString operator.opcodeIndex ++ ")"))
        = none →
      attributesReadable env codes operator = true) := by
  constructor
  · obtain ⟨built, hbuilt, _, hlen, hget⟩ := graph_new_ok env model codes graph
      name h
    refine ⟨built, hbuilt, hlen, ?_⟩
    intro j operator hj
    obtain ⟨node, hnode, hop, _⟩ := hget j operator hj
    refine ⟨node, hnode, ?_, ?_⟩
    · intro hlt
      rw [hop]
      simp [operatorNameAt, hlt, List.getD_eq_getElem?_getD]
    · intro hge
      rw [hop]
      simp [operatorNameAt, Nat.not_lt.mpr hge]
  · intro operator hge hnone
    have hname : operatorNameAt codes operator.opcodeIndex
        = .str ("(" ++ toString operator.opcodeIndex ++ ")") := by
      simp [operatorNameAt, Nat.not_lt.mpr hge]
    unfold attributesReadable
    rw [hname, hnone]
    rfl

/-- C12 witness: in the sample subgraph the first operator has opcode index 0 of a table of
one entry and the second the opcode index 7; the nodes are named `Squeeze` and `(7)`. -/
theorem graph_operator_name_witness :
    ((TensorFlowLiteGraph.new sampleEnvironment sampleSubGraph "" [.str "Squeeze"]
        sampleModel).map (fun r => r.toOption.map (fun g => g.nodes.map (fun n => n.operator)))
      = some (some [.str "Squeeze", .str "(7)"])) ∧
    (∃ built, TensorFlowLiteGraph.new sampleEnvironment sampleSubGraph "" [.str "Squeeze"]
        sampleModel = some (.ok built) ∧
      built.nodes.length = sampleSubGraph.operators.length ∧
      ∀ (j : Nat) (operator : SubGraphOperator),
        sampleSubGraph.operators[j]? = some operator →
        ∃ node, built.nodes[j]? = some node ∧
          (operator.opcodeIndex < [JsName.str "Squeeze"].length →
            some node.operator = [JsName.str "Squeeze"][operator.opcodeIndex]?) ∧
          (([JsName.str "Squeeze"]).length ≤ operator.opcodeIndex →
            node.operator = .str ("(" ++ toString operator.opcodeIndex ++ ")"))) :=
  ⟨rfl,
   (graph_operator_name sampleEnvironment sampleModel [.str "Squeeze"] sampleSubGraph ""
    (by decide)).1⟩

theorem graphConnections_ok (env : Environment) (model : ModelRecord)
    (graph : SubGraphRecord)
    (h : ∀ tensor ∈ graph.tensors, (model.buffers tensor.buffer).isSome = true) :
    ∃ connections, graphConnections env model graph
        = .ok (connections, graph.tensors.map TensorRecord.name) ∧
      connections.length = graph.tensors.length ∧
      ∀ (i : Nat) (tensor : TensorRecord), graph.tensors[i]? = some tensor →
        connections[i]? = some (tensorConnection env model i tensor) := by
  obtain ⟨built, hbuilt, hlen, hget⟩ := buildConnections_ok env model graph.tensors 0 [] [] h
  refine ⟨built, by simpa [graphConnections] using hbuilt, hlen, ?_⟩
  intro i tensor hi
  simpa using hget i tensor hi

/-- C14: when every tensor of the subgraph has a backing buffer record, the graph
constructor builds one connection per tensor position; the connection at position `i` has
an Initializer exactly when the backing buffer of tensor `i` has data length > 0, an
Initializer holds non-empty data, the connection carries its own Type record exactly when
it has no Initializer, and its `type` is the Initializer's type, respectively its own. -/
theorem connection_initializer_exclusive (env : Environment) (model : ModelRecord)
    (graph : SubGraphRecord)
    (h : ∀ tensor ∈ graph.tensors, (model.buffers tensor.buffer).isSome = true) :
    ∃ connections names, graphConnections env model graph = .ok (connections, names) ∧
      connections.length = graph.tensors.length ∧
      ∀ (i : Nat) (tensor : TensorRecord) (buffer : BufferRecord),
        graph.tensors[i]? = some tensor → model.buffers tensor.buffer = some buffer →
        ∃ connection, connections[i]? = some connection ∧
          (connection.initializer.isSome = true ↔ 0 < buffer.dataLength) ∧
          (∀ t, connection.initializer = some t →
            ∃ data, t._data = some data ∧ 0 < data.length) ∧
          (connection._type.isSome = true ↔ connection.initializer = none) ∧
          (∀ t, connection.initializer = some t → connection.type = some t.type) ∧
          (connection.initializer = none → connection.type = connection._type) ∧
          connection.type = some (TensorFlowLiteTensorType.new env.tensorTypes tensor) := by
  obtain ⟨connections, hconn, hlen, hget⟩ := graphConnections_ok env model graph h
  refine ⟨connections, _, hconn, hlen, ?_⟩
  intro i tensor buffer hi hb
  refine ⟨_, hget i tensor hi, ?_⟩
  by_cases hd : 0 < buffer.dataLength
  · have hdata : ∃ data, buffer.dataArray = some data ∧ 0 < data.length := by
      cases hda : buffer.dataArray with
      | none => simp [BufferRecord.dataLength, hda] at hd
      | some data => exact ⟨data, rfl, by simpa [BufferRecord.dataLength, hda] using hd⟩
    obtain ⟨data, hda, hpos⟩ := hdata
    simp [tensorConnection, tensorInitializer, hb, hd, TensorFlowLiteConnection.new,
      TensorFlowLiteConnection.initializer, TensorFlowLiteConnection.type,
      TensorFlowLiteTensor.new, TensorFlowLiteTensor.type, hda, hpos]
  · simp [tensorConnection, tensorInitializer, hb, hd, TensorFlowLiteConnection.new,
      TensorFlowLiteConnection.initializer, TensorFlowLiteConnection.type]

/-- C14 witness: the sample subgraph has two tensors, the first with backing data and the
second without; the first connection has an Initializer and no Type record of its own, the
second has its own Type record and no Initializer. -/
theorem connection_initializer_exclusive_witness :
    ((graphConnections sampleEnvironment sampleModel sampleSubGraph).toOption.map
        (fun p => p.1.map (fun c => (c.initializer.isSome, c._type.isSome, c.type)))
      = some [(true, false, some ⟨"uint8", ⟨[2, 2]⟩⟩), (false, true, some ⟨"uint8", ⟨[2, 2]⟩⟩)]) ∧
    (∃ connections names,
      graphConnections sampleEnvironment sampleModel sampleSubGraph
        = .ok (connections, names) ∧
      connections.length = sampleSubGraph.tensors.length ∧
      ∀ (i : Nat) (tensor : TensorRecord) (buffer : BufferRecord),
        sampleSubGraph.tensors[i]? = some tensor →
        sampleModel.buffers tensor.buffer = some buffer →
        ∃ connection, connections[i]? = some connection ∧
          (connection.initializer.isSome = true ↔ 0 < buffer.dataLength) ∧
          (∀ t, connection.initializer = some t →
            ∃ data, t._data = some data ∧ 0 < data.length) ∧
          (connection._type.isSome = true ↔ connection.initializer = none) ∧
          (∀ t, connection.initializer = some t → connection.type = some t.type) ∧
          (connection.initializer = none → connection.type = connection._type) ∧
          connection.type
            = some (TensorFlowLiteTensorType.new sampleEnvironment.tensorTypes tensor)) :=
  ⟨by decide,
   connection_initializer_exclusive sampleEnvironment sampleModel sampleSubGraph
    (by decide)⟩

/-- C16 (the code at the failing input): the tensor at position 0 has no declared name and
a backing buffer with data; its connection has the id `null`, not `"0"`, because the `id`
getter returns the Initializer's name. Backed by an empty buffer the same tensor gives the
id `"0"`. -/
theorem connection_id_of_unnamed_initializer :
    ((graphConnections sampleEnvironment sampleModel unnamedDataSubGraph).toOption.map
        (fun p => p.1.map (fun c => (c.initializer.isSome, c._id, c.id)))
      = some [(true, "0", none)]) ∧
    ((graphConnections sampleEnvironment sampleModel unnamedSubGraph).toOption.map
        (fun p => p.1.map (fun c => (c.initializer.isSome, c._id, c.id)))
      = some [(false, "0", some "0")]) := by
  constructor <;> decide

theorem decimalValue_foldl (digits : List Char) (a : Nat) :
    digits.foldl (fun acc c => acc * 10 + (c.toNat - 48)) a
      = a * 10 ^ digits.length + decimalValue digits := by
  unfold decimalValue
  induction digits generalizing a with
  | nil => simp
  | cons c rest ih =>
    simp only [List.foldl_cons, List.length_cons]
    rw [ih (a * 10 + (c.toNat - 48)), ih (0 * 10 + (c.toNat - 48))]
    ring

theorem decimalValue_cons (c : Char) (digits : List Char) :
    decimalValue (c :: digits) = (c.toNat - 48) * 10 ^ digits.length + decimalValue digits := by
  have := decimalValue_foldl digits (0 * 10 + (c.toNat - 48))
  simp only [Nat.zero_mul, Nat.zero_add] at this
  simpa [decimalValue] using this

theorem digitChar_value (k : Nat) (h : k < 10) : (Nat.digitChar k).toNat - 48 = k := by
  interval_cases k <;> rfl

theorem decimalValue_toDigitsCore (fuel : Nat) :
    ∀ (n : Nat) (digits : List Char), n < fuel →
      decimalValue (Nat.toDigitsCore 10 fuel n digits)
        = n * 10 ^ digits.length + decimalValue digits := by
  induction fuel with
  | zero => intro n digits h; omega
  | succ fuel ih =>
    intro n digits h
    unfold Nat.toDigitsCore
    simp only
    have hmod : n % 10 < 10 := Nat.mod_lt _ (by decide)
    by_cases hz : n / 10 = 0
    · simp only [hz, if_true]
      rw [decimalValue_cons, digitChar_value _ hmod]
      have : n % 10 = n := Nat.mod_eq_of_lt (by omega)
      rw [this]
    · simp only [hz, if_false]
      rw [ih (n / 10) _ (by omega), decimalValue_cons, digitChar_value _ hmod,
        List.length_cons, pow_succ]
      have hn : n = 10 * (n / 10) + n % 10 := (Nat.div_add_mod n 10).symm
      generalize 10 ^ digits.length = p at *
      generalize decimalValue digits = v at *
      generalize n / 10 = q at *
      generalize n % 10 = r at *
      subst hn
      ring

theorem decimalValue_toString (n : Nat) : decimalValue (toString n).data = n := by
  have h := decimalValue_toDigitsCore (n + 1) n [] (by omega)
  simpa [decimalValue, toString, Nat.repr, Nat.toDigits, List.asString] using h

theorem toString_nat_injective (a b : Nat) (h : toString a = toString b) : a = b := by
  rw [← decimalValue_toString a, ← decimalValue_toString b, h]

/-- C15 (as stated, refuted): two tensors at positions 0 and 1 that carry the same declared
name `x` give two connections with the same id `x`. -/
theorem connection_id_unique_counterexample :
    (graphConnections sampleEnvironment sampleModel sameNameSubGraph).toOption.map
        (fun p => p.1.map (fun c => c.id))
      = some [some "x", some "x"] := by
  decide

/-- C15 (amended): for two connections built from distinct tensor positions `i != j` of a
subgraph whose tensors all have a backing buffer record: when both tensors carry a
non-empty declared name, the ids are equal exactly when the names are; and when neither
carries a declared name and neither connection has an Initializer, the ids differ (they
are the decimal texts of `i` and `j`). -/
theorem connection_id_unique (env : Environment) (model : ModelRecord)
    (graph : SubGraphRecord)
    (h : ∀ tensor ∈ graph.tensors, (model.buffers tensor.buffer).isSome = true) :
    ∃ connections names, graphConnections env model graph = .ok (connections, names) ∧
      ∀ (i j : Nat) (ti tj : TensorRecord), i ≠ j →
        graph.tensors[i]? = some ti → graph.tensors[j]? = some tj →
        ∃ ci cj, connections[i]? = some ci ∧ connections[j]? = some cj ∧
          (truthyStr ti.name = true → truthyStr tj.name = true →
            (ci.id = cj.id ↔ ti.name = tj.name)) ∧
          (truthyStr ti.name = false → truthyStr tj.name = false →
            ci.initializer = none → cj.initializer = none →
            ci.id = some (toString i) ∧ cj.id = some (toString j) ∧ ci.id ≠ cj.id) := by
  obtain ⟨connections, hconn, _, hget⟩ := graphConnections_ok env model graph h
  refine ⟨connections, _, hconn, ?_⟩
  intro i j ti tj hij hi hj
  have hid : ∀ (k : Nat) (t : TensorRecord), truthyStr t.name = true →
      (tensorConnection env model k t).id = t.name := by
    intro k t ht
    unfold tensorConnection TensorFlowLiteConnection.new TensorFlowLiteConnection.id
    cases hinit : tensorInitializer env model k t with
    | none =>
      cases hn : t.name with
      | none => rw [hn] at ht; simp [truthyStr] at ht
      | some n => rw [hn] at ht; simp [ht, hn]
    | some init =>
      unfold tensorInitializer at hinit
      cases hb : model.buffers t.buffer with
      | none => simp [hb] at hinit
      | some buffer =>
        simp only [hb] at hinit
        split_ifs at hinit
        · simp only [Option.some.injEq] at hinit
          rw [← hinit]
          rfl
  have hid2 : ∀ (k : Nat) (t : TensorRecord), truthyStr t.name = false →
      (tensorConnection env model k t).initializer = none →
      (tensorConnection env model k t).id = some (toString k) := by
    intro k t ht hinit
    unfold TensorFlowLiteConnection.initializer at hinit
    unfold TensorFlowLiteConnection.id
    rw [hinit]
    simp [tensorConnection, TensorFlowLiteConnection.new, ht]
  refine ⟨_, _, hget i ti hi, hget j tj hj, ?_, ?_⟩
  · intro h1 h2
    rw [hid i ti h1, hid j tj h2]
  · intro h1 h2 h3 h4
    refine ⟨hid2 i ti h1 h3, hid2 j tj h2 h4, ?_⟩
    rw [hid2 i ti h1 h3, hid2 j tj h2 h4]
    intro heq
    exact hij (toString_nat_injective i j (Option.some.inj heq))

/-- C15 witness: the two tensors of the sample subgraph are named `weights` and `input`;
their connections have these ids. -/
theorem connection_id_unique_witness :
    ((graphConnections sampleEnvironment sampleModel sampleSubGraph).toOption.map
        (fun p => p.1.map (fun c => c.id))
      = some [some "weights", some "input"]) ∧
    (∃ connections names,
      graphConnections sampleEnvironment sampleModel sampleSubGraph
        = .ok (connections, names) ∧
      ∀ (i j : Nat) (ti tj : TensorRecord), i ≠ j →
        sampleSubGraph.tensors[i]? = some ti → sampleSubGraph.tensors[j]? = some tj →
        ∃ ci cj, connections[i]? = some ci ∧ connections[j]? = some cj ∧
          (truthyStr ti.name = true → truthyStr tj.name = true →
            (ci.id = cj.id ↔ ti.name = tj.name)) ∧
          (truthyStr ti.name = false → truthyStr tj.name = false →
            ci.initializer = none → cj.initializer = none →
            ci.id = some (toString i) ∧ cj.id = some (toString j) ∧ ci.id ≠ cj.id)) :=
  ⟨by decide,
   connection_id_unique sampleEnvironment sampleModel sampleSubGraph (by decide)⟩

/-- C17: when every graph constructor raises no error, the model has exactly as many graphs
as subgraph records, in order; graph `n` is named by the subgraph's declared name when that
is non-empty, otherwise `"(n)"` when there is more than one subgraph and `""` when there is
one. -/
theorem model_graph_names (env : Environment) (model : ModelRecord)
    (h : ∀ graph ∈ model.subgraphs,
      GraphBuilds env model (operatorCodeList env.builtinOperators model.operatorCodes) graph) :
    ∃ built, TensorFlowLiteModel.new env model = some (.ok built) ∧
      built.graphs.length = model.subgraphs.length ∧
      ∀ (n : Nat) (graph : SubGraphRecord), model.subgraphs[n]? = some graph →
        ∃ g, built.graphs[n]? = some g ∧
          (∀ s, graph.name = some s → s ≠ "" → g.name = s) ∧
          ((graph.name = none ∨ graph.name = some "") → 1 < model.subgraphs.length →
            g.name = "(" ++ toString n ++ ")") ∧
          ((graph.name = none ∨ graph.name = some "") → model.subgraphs.length = 1 →
            g.name = "") := by
  obtain ⟨graphs, hnew, hlen, hget⟩ := model_new_ok env model h
  refine ⟨_, hnew, hlen, ?_⟩
  intro n graph hn
  obtain ⟨g, hg, hgnew⟩ := hget n graph hn
  obtain ⟨g2, hg2, hname, _⟩ := graph_new_ok env model
    (operatorCodeList env.builtinOperators model.operatorCodes) graph
    (if model.subgraphs.length > 1 then "(" ++ toString n ++ ")" else "")
    (h graph (List.getElem?_mem hn))
  rw [hgnew] at hg2
  have hgg : g = g2 := by simpa using hg2
  subst hgg
  refine ⟨g, hg, ?_, ?_, ?_⟩
  · intro s hs hne
    rw [hname]
    simp [hs, truthyStr, hne]
  · intro hs hlt
    rw [hname]
    rcases hs with hs | hs <;> simp [hs, truthyStr, hlt]
  · intro hs h1
    rw [hname]
    rcases hs with hs | hs <;> simp [hs, truthyStr, h1]

/-- C17 witness: the model with two subgraphs, the first without a name and the second
named `main`, has the graphs `(0)` and `main`; the model with one unnamed subgraph has one
graph named `""`. -/
theorem model_graph_names_witness :
    ((TensorFlowLiteModel.new sampleEnvironment twoGraphModel).map
        (fun r => r.toOption.map (fun m => m.graphs.map (fun g => g.name)))
      = some (some ["(0)", "main"])) ∧
    ((TensorFlowLiteModel.new sampleEnvironment sampleModel).map
        (fun r => r.toOption.map (fun m => m.graphs.map (fun g => g.name)))
      = some (some [""])) ∧
    (∃ built, TensorFlowLiteModel.new sampleEnvironment twoGraphModel = some (.ok built) ∧
      built.graphs.length = twoGraphModel.subgraphs.length ∧
      ∀ (n : Nat) (graph : SubGraphRecord), twoGraphModel.subgraphs[n]? = some graph →
        ∃ g, built.graphs[n]? = some g ∧
          (∀ s, graph.name = some s → s ≠ "" → g.name = s) ∧
          ((graph.name = none ∨ graph.name = some "") → 1 < twoGraphModel.subgraphs.length →
            g.name = "(" ++ toString n ++ ")") ∧
          ((graph.name = none ∨ graph.name = some "") → twoGraphModel.subgraphs.length = 1 →
            g.name = "")) :=
  ⟨rfl, rfl, model_graph_names sampleEnvironment twoGraphModel (by decide)⟩

/-- C18 (as stated, refuted): the model built from a record of version 3 has the format
`"TensorFlow Lite v3"`, not `"version 3"`. -/
theorem model_format_counterexample :
    ((TensorFlowLiteModel.new sampleEnvironment sampleModel).map
        (fun r => r.toOption.map (fun m => m.format))
      = some (some "TensorFlow Lite v3")) ∧
    "TensorFlow Lite v3" ≠ "version " ++ toString sampleModel.version :=
  ⟨rfl, by decide⟩

/-- C18 (amended): when every graph constructor raises no error, the built model's `format`
is `"TensorFlow Lite v"` followed by the version in decimal, and its `description` is the
record's description when that is a non-empty string and `null` when it is empty or
missing. -/
theorem model_format_description (env : Environment) (model : ModelRecord)
    (h : ∀ graph ∈ model.subgraphs,
      GraphBuilds env model (operatorCodeList env.builtinOperators model.operatorCodes) graph) :
    ∃ built, TensorFlowLiteModel.new env model = some (.ok built) ∧
      built.format = "TensorFlow Lite v" ++ toString model.version ∧
      (∀ s, model.description = some s → s ≠ "" → built.description = some s) ∧
      ((model.description = none ∨ model.description = some "") →
        built.description = none) := by
  obtain ⟨graphs, hnew, _, _⟩ := model_new_ok env model h
  refine ⟨_, hnew, rfl, ?_, ?_⟩
  · intro s hs hne
    simp [TensorFlowLiteModel.description, hs, truthyStr, hne]
  · intro hs
    rcases hs with hs | hs <;> simp [TensorFlowLiteModel.description, hs, truthyStr]

/-- C18 witness: the model with the description `"two graphs"` and version 3. -/
theorem model_format_description_witness :
    ((TensorFlowLiteModel.new sampleEnvironment twoGraphModel).map
        (fun r => r.toOption.map (fun m => (m.format, m.description)))
      = some (some ("TensorFlow Lite v3", some "two graphs"))) ∧
    (∃ built, TensorFlowLiteModel.new sampleEnvironment twoGraphModel = some (.ok built) ∧
      built.format = "TensorFlow Lite v" ++ toString twoGraphModel.version ∧
      (∀ s, twoGraphModel.description = some s → s ≠ "" → built.description = some s) ∧
      ((twoGraphModel.description = none ∨ twoGraphModel.description = some "") →
        built.description = none)) :=
  ⟨rfl, model_format_description sampleEnvironment twoGraphModel (by decide)⟩

/-- C19 counterexample: in the buffer of `deleteContext` the bytes at offsets 4..7 are all
127 (DEL), which is outside the printable range 32..126, so the claim as stated gives the
empty tag; `open` reports the message with the four DEL characters as the tag. -/
theorem open_identifier_mismatch_counterexample :
    ((deleteContext.buffer.drop 4).take 4).map (fun b => printableCode b.val)
      = [false, false, false, false] ∧
    printableTag deleteContext.buffer = "" ∧
    TensorFlowLiteModelFactory.open sampleEnvironment sampleReader none deleteContext
      = some [.error ("Invalid FlatBuffers identifier '"
          ++ String.mk [Char.ofNat 127, Char.ofNat 127, Char.ofNat 127, Char.ofNat 127]
          ++ "' in 'model.tflite'.")] ∧
    identifierText deleteContext.buffer ≠ printableTag deleteContext.buffer :=
  ⟨rfl, rfl, rfl, by
    rw [show identifierText deleteContext.buffer
          = String.mk [Char.ofNat 127, Char.ofNat 127, Char.ofNat 127, Char.ofNat 127] from rfl,
      show printableTag deleteContext.buffer = "" from rfl]
    decide⟩

/-- C19: when `host.require` gives no error and the identifier check of the container
buffer fails, `open` calls the callback exactly once, with an error and no model, and the
message is `"Invalid FlatBuffers identifier '" + tag + "' in '" + identifier + "'."`, where
`tag` is the 4 bytes at offsets 4..7 as characters when the buffer has at least 8 bytes
and each of them lies in the range 32..127, and the empty string otherwise. When none of
those bytes is 127 the tag is the one of the printable range 32..126. -/
theorem open_identifier_mismatch (env : Environment) (reader : SchemaReader)
    (context : OpenContext)
    (h : reader.bufferHasIdentifier context.buffer = .ok false) :
    TensorFlowLiteModelFactory.open env reader none context
      = some [.error ("Invalid FlatBuffers identifier '" ++
          (if 8 ≤ context.buffer.length ∧
              ∀ b ∈ (context.buffer.drop 4).take 4, 32 ≤ b.val ∧ b.val ≤ 127
           then String.mk (((context.buffer.drop 4).take 4).map (fun b => Char.ofNat b.val))
           else "")
          ++ "' in '" ++ context.identifier ++ "'.")] ∧
    ((∀ b ∈ (context.buffer.drop 4).take 4, b.val ≠ 127) →
      TensorFlowLiteModelFactory.open env reader none context
        = some [.error ("Invalid FlatBuffers identifier '" ++ printableTag context.buffer
            ++ "' in '" ++ context.identifier ++ "'.")]) := by
  have htag : identifierText context.buffer =
      (if 8 ≤ context.buffer.length ∧
          ∀ b ∈ (context.buffer.drop 4).take 4, 32 ≤ b.val ∧ b.val ≤ 127
       then String.mk (((context.buffer.drop 4).take 4).map (fun b => Char.ofNat b.val))
       else "") := by
    unfold identifierText
    simp only [ge_iff_le, List.all_eq_true, Bool.and_eq_true, decide_eq_true_eq]
  have hopen : TensorFlowLiteModelFactory.open env reader none context
      = some [.error ("Invalid FlatBuffers identifier '" ++ identifierText context.buffer
          ++ "' in '" ++ context.identifier ++ "'.")] := by
    unfold TensorFlowLiteModelFactory.open
    simp only [h]
  refine ⟨by rw [hopen, htag], ?_⟩
  intro hdel
  have hsame : printableTag context.buffer = identifierText context.buffer := by
    have hall : ((context.buffer.drop 4).take 4).all (fun c => printableCode c.val)
        = ((context.buffer.drop 4).take 4).all (fun c => c.val ≥ 32 && c.val ≤ 127) := by
      rw [Bool.eq_iff_iff]
      simp only [List.all_eq_true, printableCode, Bool.and_eq_true, decide_eq_true_eq,
        ge_iff_le]
      constructor <;> intro hx b hb <;> have h1 := hx b hb <;> have h2 := hdel b hb <;> omega
    unfold printableTag identifierText
    rw [hall]
  rw [hopen, hsame]

/-- C19 witness: a buffer with the tag `TFL4` at offsets 4..7 gives one error call with
that tag in the message; a buffer of 5 bytes gives the empty tag, and so does a buffer with
the byte 31 or the byte 128 among the four; the bytes 32, 126 and 127 are rendered. -/
theorem open_identifier_mismatch_witness :
    TensorFlowLiteModelFactory.open sampleEnvironment sampleReader none mismatchContext
      = some [.error "Invalid FlatBuffers identifier 'TFL4' in 'model.tflite'."] ∧
    TensorFlowLiteModelFactory.open sampleEnvironment sampleReader none shortBufferContext
      = some [.error "Invalid FlatBuffers identifier '' in 'model.lite'."] ∧
    TensorFlowLiteModelFactory.open sampleEnvironment sampleReader none
        ⟨"a.tflite", [0, 0, 0, 0, 84, 70, 31, 52]⟩
      = some [.error "Invalid FlatBuffers identifier '' in 'a.tflite'."] ∧
    TensorFlowLiteModelFactory.open sampleEnvironment sampleReader none
        ⟨"a.tflite", [0, 0, 0, 0, 84, 70, 128, 52]⟩
      = some [.error "Invalid FlatBuffers identifier '' in 'a.tflite'."] ∧
    TensorFlowLiteModelFactory.open sampleEnvironment sampleReader none
        ⟨"a.tflite", [0, 0, 0, 0, 32, 126, 127, 52]⟩
      = some [.error ("Invalid FlatBuffers identifier '"
          ++ String.mk [' ', '~', Char.ofNat 127, '4'] ++ "' in 'a.tflite'.")] ∧
    (TensorFlowLiteModelFactory.open sampleEnvironment sampleReader none mismatchContext
      = some [.error ("Invalid FlatBuffers identifier '" ++
          (if 8 ≤ mismatchContext.buffer.length ∧
              ∀ b ∈ (mismatchContext.buffer.drop 4).take 4, 32 ≤ b.val ∧ b.val ≤ 127
           then String.mk (((mismatchContext.buffer.drop 4).take 4).map
              (fun b => Char.ofNat b.val))
           else "")
          ++ "' in '" ++ mismatchContext.identifier ++ "'.")] ∧
    ((∀ b ∈ (mismatchContext.buffer.drop 4).take 4, b.val ≠ 127) →
      TensorFlowLiteModelFactory.open sampleEnvironment sampleReader none mismatchContext
        = some [.error ("Invalid FlatBuffers identifier '"
            ++ printableTag mismatchContext.buffer
            ++ "' in '" ++ mismatchContext.identifier ++ "'.")])) :=
  ⟨rfl, rfl, rfl, rfl, rfl,
   open_identifier_mismatch sampleEnvironment sampleReader mismatchContext rfl⟩

theorem suffix_last_two (b suffix : String) (x y : Char) (rest : List Char)
    (h : suffix.data.reverse = x :: y :: rest) :
    (b ++ suffix).data.reverse.take 2 = [x, y] := by
  simp [String.data_append, List.reverse_append, h]

theorem partner_not_inherited (b : String) :
    (b ++ "Array") ∉ objectPrototypeNames ∧ (b ++ "Length") ∉ objectPrototypeNames := by
  have hA := suffix_last_two b "Array" 'y' 'a' ['r', 'r', 'A'] rfl
  have hL := suffix_last_two b "Length" 'h' 't' ['g', 'n', 'e', 'L'] rfl
  constructor
  · intro h
    simp only [objectPrototypeNames, List.mem_cons, List.mem_singleton, List.not_mem_nil,
      or_false] at h
    rcases h with h | h | h | h | h | h | h | h | h | h | h | h <;>
      (rw [h] at hA; revert hA; decide)
  · intro h
    simp only [objectPrototypeNames, List.mem_cons, List.mem_singleton, List.not_mem_nil,
      or_false] at h
    rcases h with h | h | h | h | h | h | h | h | h | h | h | h <;>
      (rw [h] at hL; revert hL; decide)

theorem mapHas_partner (keys : List String) (b : String) :
    mapHas keys (b ++ "Array") = decide ((b ++ "Array") ∈ keys) ∧
    mapHas keys (b ++ "Length") = decide ((b ++ "Length") ∈ keys) := by
  obtain ⟨hA, hL⟩ := partner_not_inherited b
  have hpA : b ++ "Array" ≠ "__proto__" := fun h => hA (by rw [h]; decide)
  have hpL : b ++ "Length" ≠ "__proto__" := fun h => hL (by rw [h]; decide)
  simp [mapHas, assignedKeys, hA, hL, hpA, hpL]

theorem attributeNames_foldl (keys : List String) (bs : List String) :
    ∀ init : List String,
      bs.foldl
        (fun names attributeName =>
          if mapHas keys (attributeName ++ "Array") ∧ mapHas keys (attributeName ++ "Length")
          then
            names.filter (fun item =>
              item != attributeName ++ "Array" && item != attributeName ++ "Length")
          else names) init
      = init.filter (fun name => decide (¬ ∃ b ∈ bs, (b ++ "Array") ∈ keys ∧
          (b ++ "Length") ∈ keys ∧ (name = b ++ "Array" ∨ name = b ++ "Length"))) := by
  induction bs with
  | nil => intro init; simp
  | cons b rest ih =>
    intro init
    rw [List.foldl_cons, ih]
    obtain ⟨hmA, hmL⟩ := mapHas_partner keys b
    by_cases hc : (b ++ "Array") ∈ keys ∧ (b ++ "Length") ∈ keys
    · simp only [hmA, hmL, hc, decide_True, and_self, if_true, List.filter_filter]
      apply List.filter_congr
      intro name _
      simp only [List.mem_cons, exists_eq_or_imp, hc, true_and, not_or, Bool.and_eq_true,
        decide_eq_true_eq, bne_iff_ne, ne_eq, Bool.decide_and, Bool.decide_eq_true]
      by_cases h1 : name = b ++ "Array" <;> by_cases h2 : name = b ++ "Length" <;>
        simp [h1, h2]
    · have hc2 : ¬ (mapHas keys (b ++ "Array") = true ∧ mapHas keys (b ++ "Length") = true) := by
        rw [hmA, hmL]
        simpa using hc
      simp only [hc2, if_false]
      apply List.filter_congr
      intro name _
      have : ¬ ((b ++ "Array") ∈ keys ∧ (b ++ "Length") ∈ keys ∧
          (name = b ++ "Array" ∨ name = b ++ "Length")) := fun h => hc ⟨h.1, h.2.1⟩
      simp only [List.mem_cons, exists_eq_or_imp, this, false_or]

theorem assignedKeys_of_plain (keys : List String) (h : "__proto__" ∉ keys) :
    assignedKeys keys = keys := by
  unfold assignedKeys
  apply List.filter_eq_self.mpr
  intro name hname
  have : name ≠ "__proto__" := fun heq => h (heq ▸ hname)
  simpa using this

theorem attributeNames_eq_filter (keys : List String) (h : "__proto__" ∉ keys) :
    attributeNames keys
      = keys.filter (fun name => decide (name ≠ "__init" ∧ ¬ pairedField keys name)) := by
  unfold attributeNames pairedField
  rw [attributeNames_foldl, List.filter_filter, assignedKeys_of_plain keys h]
  apply List.filter_congr
  intro name _
  by_cases h : name = "__init" <;> simp [h]

theorem isArrayName_of_plain (keys : List String) (b : String)
    (hplain : ∀ name ∈ keys, name ∉ objectPrototypeNames) (hb : b ∈ keys) :
    isArrayName keys b = decide ((b ++ "Array") ∈ keys ∧ (b ++ "Length") ∈ keys) := by
  have hproto : "__proto__" ∉ keys := fun h => hplain _ h (by decide)
  have hbp : b ≠ "__proto__" := fun h => hproto (h ▸ hb)
  obtain ⟨hmA, hmL⟩ := mapHas_partner keys b
  have h1 : mapHas (arrayNames keys) b = decide (b ∈ assignedKeys (arrayNames keys)) := by
    simp [mapHas, hplain b hb]
  rw [isArrayName, h1, decide_eq_decide]
  simp only [assignedKeys, arrayNames, List.mem_filter, hmA, hmL, hb, bne_iff_ne, ne_eq, hbp,
    not_false_eq_true, and_true, true_and, Bool.and_eq_true, decide_eq_true_eq]

theorem isArrayName_of_inherited (keys : List String) (name : String)
    (h : name ∈ objectPrototypeNames) : isArrayName keys name = true := by
  simp [isArrayName, mapHas, h]

theorem collectElements_array (items : List Int) (positions : List Nat) :
    ∀ array : List String,
      collectElements (.array items) positions array
        = .ok (array ++ positions.map (itemText items)) := by
  induction positions with
  | nil => intro array; simp [collectElements]
  | cons k rest ih =>
    intro array
    rw [collectElements]
    simp only [elementText]
    rw [ih]
    simp [itemText]

theorem numberTurns_intCast (n : Int) :
    numberTurns (n : JsNumber) = min n.toNat (MAX_ARRAY_LENGTH + 1) := by
  show min (-((-((n : ℚ)).num) / (((n : ℚ)).den : Int))).toNat (MAX_ARRAY_LENGTH + 1) = _
  simp

theorem attributeValue_pair (toNumber : String → JsNumber) (options : OptionsRecord)
    (b : String) (n : Int) (items : List Int)
    (hpair : isArrayName options.keys b = true)
    (hlen : options.accessor (b ++ "Length") = some (.num n))
    (harr : options.accessor (b ++ "Array") = some (.array items))
    (hmax : n.toNat ≤ MAX_ARRAY_LENGTH) :
    attributeValue toNumber options b
      = .ok (.fn ("[" ++ ", ".intercalate ((List.range n.toNat).map (itemText items))
          ++ "]")) := by
  unfold attributeValue
  have hturns : lengthTurns toNumber (.num (n : JsNumber)) = n.toNat := by
    simp only [lengthTurns, numberTurns_intCast]
    omega
  simp only [hpair, if_true, callAccessor, hlen, harr, hturns, collectElements_array,
    List.nil_append, hmax, Nat.min_eq_left]

theorem attributeValue_pair_empty (toNumber : String → JsNumber) (options : OptionsRecord)
    (b : String) (n : Int) (a : JsValue)
    (hpair : isArrayName options.keys b = true)
    (hlen : options.accessor (b ++ "Length") = some (.num n))
    (harr : options.accessor (b ++ "Array") = some a)
    (hn : n ≤ 0) :
    attributeValue toNumber options b = .ok (.fn "[]") := by
  unfold attributeValue
  have hturns : lengthTurns toNumber (.num (n : JsNumber)) = 0 := by
    simp only [lengthTurns, numberTurns_intCast]
    omega
  simp only [hpair, if_true, callAccessor, hlen, harr, hturns, Nat.zero_min, List.range_zero,
    collectElements, Nat.zero_le]
  rfl

theorem attributeValue_plain (toNumber : String → JsNumber) (options : OptionsRecord)
    (name : String) (h : isArrayName options.keys name = false) :
    attributeValue toNumber options name = callAccessor options name := by
  simp [attributeValue, h]

/-- A field named like an inherited property of a plain object passes the test
`attributeArrayNamesMap[name]` without having partners, so the node constructor calls
`options[name + 'Length']`, which is `undefined`, and ends in a `TypeError`. -/
theorem nodeAttributes_inherited_name :
    isArrayName inheritedNameOptions.keys "toString" = true ∧
    nodeAttributes sampleEnumLookup sampleToNumber attributeCatalog "Reshape"
      (some inheritedNameOptions) = .error .typeError :=
  ⟨by decide, rfl⟩

/-- C20 counterexample: in the options record with the keys `__init`, `__initArray` and
`__initLength` the base `__init` occurs with both partners, yet no attribute is emitted, as
`'__init'` is never pushed; and with the keys `x`, `xArray`, `xLength`, `xArrayArray`,
`xArrayLength` the base `xArray` occurs with both partners, yet only `x` is emitted, as
`xArray` is itself filtered out as a partner of `x`. -/
theorem nodeAttributes_field_pairs_counterexample :
    (("__init" ∈ initPairOptions.keys ∧ "__init" ++ "Array" ∈ initPairOptions.keys ∧
        "__init" ++ "Length" ∈ initPairOptions.keys) ∧
      nodeAttributes sampleEnumLookup sampleToNumber attributeCatalog "Reshape"
        (some initPairOptions) = .ok []) ∧
    (("xArray" ∈ nestedPairOptions.keys ∧ "xArray" ++ "Array" ∈ nestedPairOptions.keys ∧
        "xArray" ++ "Length" ∈ nestedPairOptions.keys) ∧
      (nodeAttributes sampleEnumLookup sampleToNumber attributeCatalog "Reshape"
        (some nestedPairOptions)).toOption.map (fun l => l.map (fun a => (a.name, a.value)))
        = some [("x", .fn "[4, -1]")]) :=
  ⟨⟨by decide, rfl⟩, ⟨by decide, rfl⟩⟩

/-- C20: take an options record whose keys `F` are distinct, none of them the name of a
property that a plain object inherits, and all methods, and in which the `Length` accessor
of every base with both partners returns an integer of at most `MAX_ARRAY_LENGTH` and, when
that integer is positive, the `Array` accessor an array of integers. Then the node
constructor returns, and the names emitted as attributes are, in `F`'s order and each once,
the names of `F` other than `'__init'` and other than every `b + "Array"` and
`b + "Length"` for which `b`, `b + "Array"` and `b + "Length"` all occur in `F`. An emitted
name `b` with both partners in `F` is emitted as an array-valued attribute whose value lists
the elements `0..length-1` of the array accessor in order (none when the length is not
positive); every other emitted name carries the result of its own accessor. An operator
with no typed options record has zero attributes. -/
theorem nodeAttributes_field_pairs (enumLookup : String → JsValue → JsValue)
    (toNumber : String → JsNumber) (metadata : TensorFlowLiteOperatorMetadata)
    (operator : String) (options : OptionsRecord)
    (hnodup : options.keys.Nodup)
    (hplain : ∀ name ∈ options.keys, name ∉ objectPrototypeNames)
    (hcall : ∀ name ∈ options.keys, (options.accessor name).isSome = true)
    (hread : ∀ b ∈ options.keys, (b ++ "Array") ∈ options.keys →
      (b ++ "Length") ∈ options.keys →
      ∃ n : Int, options.accessor (b ++ "Length") = some (.num n) ∧
        n.toNat ≤ MAX_ARRAY_LENGTH ∧
        (0 < n → ∃ items : List Int, options.accessor (b ++ "Array") = some (.array items))) :
    nodeAttributes enumLookup toNumber metadata operator none = .ok [] ∧
    ∃ attributes,
      nodeAttributes enumLookup toNumber metadata operator (some options) = .ok attributes ∧
      attributes.map (fun a => a.name)
        = (options.keys.filter (fun name =>
            decide (name ≠ "__init" ∧ ¬ pairedField options.keys name))).map snakeCase ∧
      (options.keys.filter (fun name =>
          decide (name ≠ "__init" ∧ ¬ pairedField options.keys name))).Nodup ∧
      ∀ (i : Nat) (b : String),
        (options.keys.filter (fun name =>
          decide (name ≠ "__init" ∧ ¬ pairedField options.keys name)))[i]? = some b →
        ((b ++ "Array") ∈ options.keys → (b ++ "Length") ∈ options.keys →
          ∃ (n : Int) (items : List Int),
            options.accessor (b ++ "Length") = some (.num n) ∧
            (0 < n → options.accessor (b ++ "Array") = some (.array items)) ∧
            attributes[i]? = some (TensorFlowLiteAttribute.new enumLookup toNumber metadata
              operator b
              (.fn ("[" ++ ", ".intercalate ((List.range n.toNat).map (itemText items))
                ++ "]")))) ∧
        (¬ ((b ++ "Array") ∈ options.keys ∧ (b ++ "Length") ∈ options.keys) →
          ∃ v, options.accessor b = some v ∧
            attributes[i]? = some (TensorFlowLiteAttribute.new enumLookup toNumber metadata
              operator b v)) := by
  refine ⟨rfl, ?_⟩
  have hproto : "__proto__" ∉ options.keys := fun h => hplain _ h (by decide)
  have hfilter := attributeNames_eq_filter options.keys hproto
  have hsub : ∀ name ∈ attributeNames options.keys, name ∈ options.keys := by
    intro name hname
    rw [hfilter] at hname
    exact (List.mem_filter.mp hname).1
  have hall : (attributeNames options.keys).filter
      (fun name => (options.accessor name).isSome) = attributeNames options.keys := by
    apply List.filter_eq_self.mpr
    intro name hname
    exact hcall name (hsub name hname)
  have hvalue : ∀ b ∈ options.keys,
      ((b ++ "Array") ∈ options.keys → (b ++ "Length") ∈ options.keys →
        ∃ (n : Int) (items : List Int),
          options.accessor (b ++ "Length") = some (.num n) ∧
          (0 < n → options.accessor (b ++ "Array") = some (.array items)) ∧
          attributeValue toNumber options b
            = .ok (.fn ("[" ++ ", ".intercalate ((List.range n.toNat).map (itemText items))
                ++ "]"))) ∧
      (¬ ((b ++ "Array") ∈ options.keys ∧ (b ++ "Length") ∈ options.keys) →
        ∃ v, options.accessor b = some v ∧ attributeValue toNumber options b = .ok v) := by
    intro b hb
    have hisArray := isArrayName_of_plain options.keys b hplain hb
    constructor
    · intro hA hL
      have hpair : isArrayName options.keys b = true := by rw [hisArray]; simp [hA, hL]
      obtain ⟨n, hlen, hmax, hitems⟩ := hread b hb hA hL
      by_cases hn : 0 < n
      · obtain ⟨items, harr⟩ := hitems hn
        exact ⟨n, items, hlen, fun _ => harr,
          attributeValue_pair toNumber options b n items hpair hlen harr hmax⟩
      · obtain ⟨a, harr⟩ := Option.isSome_iff_exists.mp (hcall _ hA)
        refine ⟨n, [], hlen, fun h => absurd h hn, ?_⟩
        rw [attributeValue_pair_empty toNumber options b n a hpair hlen harr (by omega)]
        have : n.toNat = 0 := by omega
        rw [this]
        rfl
    · intro hno
      obtain ⟨v, hv⟩ := Option.isSome_iff_exists.mp (hcall b hb)
      refine ⟨v, hv, ?_⟩
      rw [attributeValue_plain toNumber options b (by rw [hisArray]; simpa using hno)]
      simp [callAccessor, hv]
  have hvalues : ∀ name ∈ attributeNames options.keys, (options.accessor name).isSome →
      ∃ v, attributeValue toNumber options name = .ok v := by
    intro name hname _
    obtain ⟨h1, h2⟩ := hvalue name (hsub name hname)
    by_cases hp : (name ++ "Array") ∈ options.keys ∧ (name ++ "Length") ∈ options.keys
    · obtain ⟨n, items, _, _, hv⟩ := h1 hp.1 hp.2
      exact ⟨_, hv⟩
    · obtain ⟨v, _, hv⟩ := h2 hp
      exact ⟨v, hv⟩
  have hloop := attributesLoop_ok enumLookup toNumber metadata operator options
    (attributeNames options.keys) [] hvalues
  rw [hall, List.nil_append] at hloop
  refine ⟨_, hloop, ?_, ?_, ?_⟩
  · rw [← hfilter, List.map_map]
    apply List.map_congr_left
    intro name _
    exact TensorFlowLiteAttribute.new_name _ _ _ _ _ _
  · exact hnodup.filter _
  · intro i b hi
    rw [← hfilter] at hi
    have hb : b ∈ options.keys := hsub b (List.getElem?_mem hi)
    obtain ⟨h1, h2⟩ := hvalue b hb
    constructor
    · intro hA hL
      obtain ⟨n, items, hlen, harr, hval⟩ := h1 hA hL
      refine ⟨n, items, hlen, harr, ?_⟩
      have hfv : fieldValue toNumber options b
          = .fn ("[" ++ ", ".intercalate ((List.range n.toNat).map (itemText items))
              ++ "]") := by
        simp [fieldValue, hval]
      simp only [List.getElem?_map, hi, Option.map_some', hfv]
    · intro hno
      obtain ⟨v, hv, hval⟩ := h2 hno
      refine ⟨v, hv, ?_⟩
      have hfv : fieldValue toNumber options b = v := by simp [fieldValue, hval]
      simp only [List.getElem?_map, hi, Option.map_some', hfv]

/-- C20 witness: the keys `__init`, `axis`, `newShape`, `newShapeLength`, `newShapeArray`
give the attributes `axis` and `new_shape`, the second with the value `[4, -1]`; when the
vector is absent, with length 0 and the array `null`, the value is `[]`. -/
theorem nodeAttributes_field_pairs_witness :
    ((nodeAttributes sampleEnumLookup sampleToNumber attributeCatalog "Reshape"
        (some reshapeOptions)).toOption.map (fun l => l.map (fun a => (a.name, a.value)))
      = some [("axis", .num 1), ("new_shape", .fn "[4, -1]")]) ∧
    ((nodeAttributes sampleEnumLookup sampleToNumber attributeCatalog "Reshape"
        (some absentVectorOptions)).toOption.map (fun l => l.map (fun a => (a.name, a.value)))
      = some [("axis", .num 1), ("new_shape", .fn "[]")]) ∧
    (nodeAttributes sampleEnumLookup sampleToNumber attributeCatalog "Reshape" none = .ok [] ∧
    ∃ attributes,
      nodeAttributes sampleEnumLookup sampleToNumber attributeCatalog "Reshape"
        (some reshapeOptions) = .ok attributes ∧
      attributes.map (fun a => a.name)
        = (reshapeOptions.keys.filter (fun name =>
            decide (name ≠ "__init" ∧ ¬ pairedField reshapeOptions.keys name))).map
            snakeCase ∧
      (reshapeOptions.keys.filter (fun name =>
          decide (name ≠ "__init" ∧ ¬ pairedField reshapeOptions.keys name))).Nodup ∧
      ∀ (i : Nat) (b : String),
        (reshapeOptions.keys.filter (fun name =>
          decide (name ≠ "__init" ∧ ¬ pairedField reshapeOptions.keys name)))[i]? = some b →
        ((b ++ "Array") ∈ reshapeOptions.keys → (b ++ "Length") ∈ reshapeOptions.keys →
          ∃ (n : Int) (items : List Int),
            reshapeOptions.accessor (b ++ "Length") = some (.num n) ∧
            (0 < n → reshapeOptions.accessor (b ++ "Array") = some (.array items)) ∧
            attributes[i]? = some (TensorFlowLiteAttribute.new sampleEnumLookup
              sampleToNumber attributeCatalog "Reshape" b
              (.fn ("[" ++ ", ".intercalate ((List.range n.toNat).map (itemText items))
                ++ "]")))) ∧
        (¬ ((b ++ "Array") ∈ reshapeOptions.keys ∧ (b ++ "Length") ∈ reshapeOptions.keys) →
          ∃ v, reshapeOptions.accessor b = some v ∧
            attributes[i]? = some (TensorFlowLiteAttribute.new sampleEnumLookup
              sampleToNumber attributeCatalog "Reshape" b v))) :=
  ⟨rfl, rfl,
   nodeAttributes_field_pairs sampleEnumLookup sampleToNumber attributeCatalog "Reshape"
    reshapeOptions (by decide) (by decide) (by decide) (by
      intro b hb hA hL
      simp only [reshapeOptions, List.mem_cons, List.mem_singleton, List.not_mem_nil,
        or_false] at hb
      rcases hb with rfl | rfl | rfl | rfl | rfl
      · exact absurd hA (by decide)
      · exact absurd hA (by decide)
      · exact ⟨2, rfl, by decide, fun _ => ⟨[4, -1], rfl⟩⟩
      · exact absurd hA (by decide)
      · exact absurd hA (by decide))⟩

/-! ## Conservation of connections and exact size of a decoded value -/

theorem getInputsLoop_slices (schema : Option Schema) (cs : List Int) (fuel : Nat) :
    ∀ (index : Nat) (results : List InputResult), cs.length - index ≤ fuel →
      ∃ (added : List InputResult) (slices : List (List Int)),
        getInputsLoop schema cs fuel index results = some (results ++ added) ∧
        slices.flatten = cs.drop index ∧ (∀ s ∈ slices, s ≠ []) ∧
        added.map InputResult.connections = slices.map sliceConnections := by
  induction fuel with
  | zero =>
    intro index results h
    refine ⟨[], [], ?_, ?_, by simp, rfl⟩
    · rw [getInputsLoop_done schema cs 0 index results (by omega)]; simp
    · rw [List.drop_eq_nil_of_le (by omega)]; rfl
  | succ fuel ih =>
    intro index results h
    by_cases hlt : index < cs.length
    · cases hv : slotVariadic schema index with
      | false =>
        obtain ⟨added, slices, hrun, hflat, hne, hconn⟩ := ih (index + 1)
          (results ++ [⟨slotName schema index, slotVisible schema index,
            sliceConnections [cs[index]]⟩]) (by omega)
        refine ⟨⟨slotName schema index, slotVisible schema index,
            sliceConnections [cs[index]]⟩ :: added, [cs[index]] :: slices, ?_, ?_, ?_, ?_⟩
        · rw [getInputsLoop_single schema cs fuel index results hlt hv, hrun]
          simp
        · rw [List.flatten_cons, hflat, List.drop_eq_getElem_cons hlt]
          rfl
        · intro s hs
          simp only [List.mem_cons] at hs
          rcases hs with rfl | hs
          · simp
          · exact hne s hs
        · simp [hconn]
      | true =>
        refine ⟨[⟨slotName schema index, slotVisible schema index,
            sliceConnections (cs.drop index)⟩], [cs.drop index], ?_, by simp, ?_, rfl⟩
        · rw [getInputsLoop_variadic schema cs fuel index results hlt hv]
        · intro s hs
          simp only [List.mem_singleton] at hs
          rw [hs]
          intro hnil
          have := congrArg List.length hnil
          simp at this
          omega
    · refine ⟨[], [], ?_, ?_, by simp, rfl⟩
      · rw [getInputsLoop_done schema cs _ index results hlt]; simp
      · rw [List.drop_eq_nil_of_le (by omega)]; rfl

theorem sliceConnections_flatten (slices : List (List Int)) :
    (slices.map sliceConnections).flatten = sliceConnections slices.flatten := by
  induction slices with
  | nil => rfl
  | cons s rest ih =>
    simp only [List.map_cons, List.flatten_cons, ih]
    simp [sliceConnections]

/-- C21: for every raw input index list and every schema, present or absent, `getInputs`
returns; the returned arguments are built from consecutive non-empty slices of the raw
list that together make up the whole list, so every argument covers at least one raw
position; and concatenating the connection lists of the arguments in order gives the raw
list with every `-1` removed. -/
theorem getInputs_conserves_connections (metadata : TensorFlowLiteOperatorMetadata)
    (node : OperatorRecord) (operator : String) :
    ∃ results, metadata.getInputs node operator = some results ∧
      (∃ slices : List (List Int), slices.flatten = node.inputs ∧
        (∀ s ∈ slices, s ≠ []) ∧ slices.length = results.length ∧
        results.map InputResult.connections
          = slices.map (fun s => (s.filter (fun c => c != -1)).map ConnectionRef.mk)) ∧
      (results.map InputResult.connections).flatten
        = (node.inputs.filter (fun c => c != -1)).map ConnectionRef.mk := by
  obtain ⟨added, slices, hrun, hflat, hne, hconn⟩ :=
    getInputsLoop_slices (metadata.getSchema operator) node.inputs node.inputs.length 0 []
      (by omega)
  simp only [List.nil_append, List.drop_zero] at hrun hflat
  refine ⟨added, hrun, ⟨slices, hflat, hne, ?_, hconn⟩, ?_⟩
  · have := congrArg List.length hconn
    simpa using this.symm
  · rw [hconn, sliceConnections_flatten, hflat]
    rfl

theorem TensorValue.hasMarkerList_append (xs ys : List TensorValue) :
    TensorValue.hasMarkerList (xs ++ ys)
      = (TensorValue.hasMarkerList xs || TensorValue.hasMarkerList ys) := by
  induction xs with
  | nil => simp [TensorValue.hasMarkerList]
  | cons x xs ih => simp [TensorValue.hasMarkerList, ih, Bool.or_assoc]

theorem decodeScalar_scalar (context : Context) (w : Nat)
    (hw : scalarWidth context.dataType = some w)
    (hfit : context.index + w ≤ context.data.length) :
    ∃ v, decodeScalar context = .ok (some v, context.advance w 1) ∧ v.leaves = 1 ∧
      v.hasMarker = false ∧
      ∀ other : Nat, decodeScalar (context.withLimit other)
        = .ok (some v, (context.advance w 1).withLimit other) := by
  unfold scalarWidth at hw
  unfold decodeScalar Context.advance Context.withLimit
  split_ifs at hw with h1 h2 h3 h4 h5 <;> simp only [Option.some.injEq] at hw <;> subst hw
  · exact ⟨.number (littleEndian ((context.data.drop context.index).take 1) : Nat),
      by simp [h1, getUint8, readBytes, hfit], by simp [TensorValue.leaves],
      by simp [TensorValue.hasMarker], by intro other; simp [h1, getUint8, readBytes, hfit]⟩
  · exact ⟨.number (toSigned 32 (littleEndian ((context.data.drop context.index).take 4))),
      by simp [h1, h2, getInt32, readBytes, hfit], by simp [TensorValue.leaves],
      by simp [TensorValue.hasMarker],
      by intro other; simp [h1, h2, getInt32, readBytes, hfit]⟩
  · exact ⟨.int64 (toSigned 64 (littleEndian ((context.data.drop context.index).take 8))),
      by simp [h1, h2, h3, getInt64, readBytes, hfit], by simp [TensorValue.leaves],
      by simp [TensorValue.hasMarker],
      by intro other; simp [h1, h2, h3, getInt64, readBytes, hfit]⟩
  · exact ⟨.float16 (littleEndian ((context.data.drop context.index).take 2)),
      by simp [h1, h2, h3, h4, getFloat16, readBytes, hfit], by simp [TensorValue.leaves],
      by simp [TensorValue.hasMarker],
      by intro other; simp [h1, h2, h3, h4, getFloat16, readBytes, hfit]⟩
  · exact ⟨.float32 (littleEndian ((context.data.drop context.index).take 4)),
      by simp [h1, h2, h3, h4, h5, getFloat32, readBytes, hfit], by simp [TensorValue.leaves],
      by simp [TensorValue.hasMarker],
      by intro other; simp [h1, h2, h3, h4, h5, getFloat32, readBytes, hfit]⟩

theorem overLimit_of_limit (context : Context) (L : Nat) (h : context.limit = some L) :
    overLimit context = decide (L < context.count) := by
  simp [overLimit, h]

theorem decodeLeafLoop_cutoff (w L : Nat) (n : Nat) :
    ∀ (context : Context) (results : List TensorValue),
      scalarWidth context.dataType = some w → context.limit = some L →
      context.count ≤ L + 1 →
      context.index + w * min n (L + 1 - context.count) ≤ context.data.length →
      ∃ vs, decodeLeafLoop n context results
            = .ok (results ++ vs, context.advance w (min n (L + 1 - context.count))) ∧
        TensorValue.leavesList vs = min n (L + 1 - context.count) ∧
        (TensorValue.hasMarkerList vs = true ↔ L + 1 < context.count + n) ∧
        (context.count + n ≤ L + 1 →
          ∀ other : Nat, context.count + n ≤ other + 1 →
            decodeLeafLoop n (context.withLimit other) results
              = .ok (results ++ vs, (context.advance w n).withLimit other)) := by
  induction n with
  | zero =>
    intro context results _ _ hc _
    refine ⟨[], ?_, ?_, ?_, ?_⟩
    · simp [decodeLeafLoop, Context.advance_zero]
    · simp [TensorValue.leavesList]
    · simp [TensorValue.hasMarkerList]; omega
    · intro _ other _
      simp [decodeLeafLoop, Context.advance_zero]
  | succ n ih =>
    intro context results hw hl hc hfit
    by_cases hover : L < context.count
    · have hzero : min (n + 1) (L + 1 - context.count) = 0 := by omega
      refine ⟨[.string "..."], ?_, ?_, ?_, ?_⟩
      · rw [decodeLeafLoop, hzero, Context.advance_zero]
        simp [overLimit_of_limit context L hl, hover]
      · rw [hzero]; simp [TensorValue.leavesList, TensorValue.leaves]
      · simp [TensorValue.hasMarkerList, TensorValue.hasMarker]; omega
      · intro h; omega
    · have hmin : min (n + 1) (L + 1 - context.count)
          = 1 + min n (L + 1 - (context.count + 1)) := by omega
      rw [hmin] at hfit ⊢
      rw [Nat.mul_add, Nat.mul_one] at hfit
      obtain ⟨v, hv, hleaf, hmark, hother⟩ :=
        decodeScalar_scalar context w hw (by omega)
      have hcount : (context.advance w 1).count = context.count + 1 := rfl
      have hidx : (context.advance w 1).index = context.index + w := by
        simp [Context.advance]
      obtain ⟨vs, h1, h2, h3, h4⟩ := ih (context.advance w 1) (results ++ [v]) hw hl
        (by rw [hcount]; omega) (by rw [hcount, hidx]; exact (by
          have : (context.advance w 1).data = context.data := rfl
          rw [this]; omega))
      rw [hcount] at h1 h2 h3 h4
      refine ⟨v :: vs, ?_, ?_, ?_, ?_⟩
      · rw [decodeLeafLoop]
        simp only [overLimit_of_limit context L hl, hover, decide_False, Bool.false_eq_true,
          if_false, hv]
        rw [h1, Context.advance_advance]; simp
      · simp [TensorValue.leavesList, h2, hleaf]
      · simp only [TensorValue.hasMarkerList, hmark, Bool.false_or]
        rw [h3]; omega
      · intro hle other hole
        have hnot : ¬ other < context.count := by omega
        rw [decodeLeafLoop]
        simp only [overLimit_of_limit (context.withLimit other) other rfl,
          show (context.withLimit other).count = context.count from rfl, hnot, decide_False,
          Bool.false_eq_true, if_false, hother other]
        rw [h4 (by omega) other (by omega), Context.advance_advance, Nat.add_comm 1 n]; simp

theorem decodeNestedLoop_cutoff (t : String) (dims : List Int) (data : List Byte)
    (w L p : Nat) (decode : Context → Option (Except JsError (TensorValue × Context)))
    (hdec : DecodesUpTo t dims data w L decode p) (n : Nat) :
    ∀ (context : Context) (results : List TensorValue),
      context.dataType = t → context.dimensions = dims → context.data = data →
      context.limit = some L → context.count ≤ L + 1 → (context.count ≤ L ∨ 0 < p) →
      context.index + w * min (n * p) (L + 1 - context.count) ≤ data.length →
      ∃ vs, decodeNestedLoop decode n context results
            = some (.ok (results ++ vs,
                context.advance w (min (n * p) (L + 1 - context.count)))) ∧
        TensorValue.leavesList vs = min (n * p) (L + 1 - context.count) ∧
        (TensorValue.hasMarkerList vs = true ↔ L + 1 < context.count + n * p) ∧
        (context.count + n * p ≤ L + 1 →
          ∀ other : Nat, (context.count ≤ other ∨ 0 < p) → context.count + n * p ≤ other + 1 →
            decodeNestedLoop decode n (context.withLimit other) results
              = some (.ok (results ++ vs, (context.advance w (n * p)).withLimit other))) := by
  induction n with
  | zero =>
    intro context results _ _ _ _ hc _ _
    refine ⟨[], ?_, ?_, ?_, ?_⟩
    · simp [decodeNestedLoop, Context.advance_zero]
    · simp [TensorValue.leavesList]
    · simp [TensorValue.hasMarkerList]; omega
    · intro _ other _ _
      simp [decodeNestedLoop, Context.advance_zero]
  | succ n ih =>
    intro context results hty hdims hdata hl hc hp hfit
    have hmul : (n + 1) * p = p + n * p := by rw [Nat.add_mul, Nat.one_mul, Nat.add_comm]
    rw [hmul] at hfit ⊢
    generalize hq : n * p = q at hfit ih ⊢
    by_cases hover : L < context.count
    · have hzero : min (p + q) (L + 1 - context.count) = 0 := by omega
      refine ⟨[.string "..."], ?_, ?_, ?_, ?_⟩
      · rw [decodeNestedLoop, hzero, Context.advance_zero]
        simp [overLimit_of_limit context L hl, hover]
      · rw [hzero]; simp [TensorValue.leavesList, TensorValue.leaves]
      · simp [TensorValue.hasMarkerList, TensorValue.hasMarker]; omega
      · intro h; omega
    · have hmin : min (p + q) (L + 1 - context.count)
          = min p (L + 1 - context.count)
            + min q (L + 1 - (context.count + min p (L + 1 - context.count))) := by omega
      rw [hmin] at hfit ⊢
      rw [Nat.mul_add] at hfit
      obtain ⟨v, hv, hleaf, hmark, hother⟩ :=
        hdec context hty hdims hdata hl (by omega) (by omega)
      generalize hm : min p (L + 1 - context.count) = m at hfit hv hleaf ⊢
      have hcount : (context.advance w m).count = context.count + m := rfl
      have hidx : (context.advance w m).index = context.index + w * m := rfl
      obtain ⟨vs, h1, h2, h3, h4⟩ := ih (context.advance w m) (results ++ [v]) hty hdims
        hdata hl (by rw [hcount]; omega) (by rw [hcount]; omega)
        (by rw [hcount, hidx]; omega)
      rw [hcount] at h1 h2 h3 h4
      refine ⟨v :: vs, ?_, ?_, ?_, ?_⟩
      · rw [decodeNestedLoop]
        simp only [overLimit_of_limit context L hl, hover, decide_False, Bool.false_eq_true,
          if_false, hv]
        rw [h1, Context.advance_advance]; simp
      · simp [TensorValue.leavesList, h2, hleaf]
      · simp only [TensorValue.hasMarkerList, Bool.or_eq_true, hmark, h3]
        omega
      · intro hle other hpo hole
        have hnot : ¬ other < context.count := by omega
        have hmp : m = p := by omega
        subst hmp
        rw [decodeNestedLoop]
        simp only [overLimit_of_limit (context.withLimit other) other rfl,
          show (context.withLimit other).count = context.count from rfl, hnot, decide_False,
          Bool.false_eq_true, if_false,
          hother (by omega) other (by omega) (by omega)]
        rw [h4 (by omega) other (by omega) (by omega), Context.advance_advance]; simp

theorem _decode_cutoff (t : String) (dims : List Int) (data : List Byte) (w L : Nat)
    (hw : scalarWidth t = some w) :
    ∀ (fuel d : Nat), d < dims.length → dims.length - d ≤ fuel →
      DecodesUpTo t dims data w L (fun context => _decode fuel context d)
        (elementCount (dims.drop d)) := by
  intro fuel
  induction fuel with
  | zero => intro d h1 h2; omega
  | succ fuel ih =>
    intro d hd hfuel context hty hdims hdata hl hc hfit
    obtain ⟨s, hs⟩ : ∃ s, dims[d]? = some s := ⟨dims[d], List.getElem?_eq_getElem hd⟩
    have hcount := elementCount_drop dims d s hs
    have hdims2 : ∀ other, (context.withLimit other).dimensions = dims := fun _ => hdims
    simp only [_decode, hdims, hdims2, hs, loopTurns]
    by_cases hlast : d + 1 = dims.length
    · have hcond : (d : Int) = (dims.length : Int) - 1 := by omega
      have hnil : dims.drop (d + 1) = [] := List.drop_eq_nil_of_le (by omega)
      have hp : elementCount (dims.drop d) = s.toNat := by
        rw [hcount, hnil]; simp [elementCount]
      rw [hp] at hfit ⊢
      obtain ⟨vs, h1, h2, h3, h4⟩ := decodeLeafLoop_cutoff w L s.toNat context []
        (by rw [hty]; exact hw) hl (by omega) (by rw [hdata]; exact hfit)
      simp only [hcond, if_true]
      refine ⟨.array vs, ?_, ?_, ?_, ?_⟩
      · rw [h1]; simp
      · simpa [TensorValue.leaves] using h2
      · simpa [TensorValue.hasMarker] using h3
      · intro hle other _ hole
        rw [h4 hle other hole]; simp
    · have hcond : ¬ (d : Int) = (dims.length : Int) - 1 := by omega
      have hsub := ih (d + 1) (by omega) (by omega)
      rw [hcount] at hfit ⊢
      obtain ⟨vs, h1, h2, h3, h4⟩ := decodeNestedLoop_cutoff t dims data w L _ _ hsub
        s.toNat context [] hty hdims hdata hl (by omega) (Or.inl hc) hfit
      simp only [hcond, if_false]
      refine ⟨.array vs, ?_, ?_, ?_, ?_⟩
      · rw [h1]; simp
      · simpa [TensorValue.leaves] using h2
      · simpa [TensorValue.hasMarker] using h3
      · intro hle other hco hole
        rw [h4 hle other (Or.inl hco) hole]; simp

theorem elementCount_eq_prod (dims : List Int) (h : ∀ x ∈ dims, 0 ≤ x) :
    (elementCount dims : Int) = dims.prod := by
  induction dims with
  | nil => simp [elementCount]
  | cons x xs ih =>
    have hx : 0 ≤ x := h x (List.mem_cons_self _ _)
    have hxs := ih (fun y hy => h y (List.mem_cons_of_mem _ hy))
    simp only [elementCount, List.map_cons, List.prod_cons, Nat.cast_mul] at hxs ⊢
    rw [hxs, Int.toNat_of_nonneg hx]

theorem _decode_cutoff_start (context : Context) (w L : Nat)
    (hw : scalarWidth context.dataType = some w) (hshape : context.dimensions ≠ [])
    (hindex : context.index = 0) (hcount : context.count = 0)
    (hlimit : context.limit = some L)
    (hlen : w * elementCount context.dimensions ≤ context.data.length) :
    ∃ v, _decode (context.dimensions.length + 1) context 0
          = some (.ok (v, context.advance w (min (elementCount context.dimensions) (L + 1)))) ∧
      v.leaves = min (elementCount context.dimensions) (L + 1) ∧
      (v.hasMarker = true ↔ L + 1 < elementCount context.dimensions) ∧
      (elementCount context.dimensions ≤ L + 1 →
        ∀ other : Nat, elementCount context.dimensions ≤ other + 1 →
          _decode (context.dimensions.length + 1) (context.withLimit other) 0
            = some (.ok (v, (context.advance w (elementCount context.dimensions)).withLimit
                other))) := by
  have hpos : 0 < context.dimensions.length := List.length_pos.mpr hshape
  have hmono : w * min (elementCount context.dimensions) (L + 1)
      ≤ w * elementCount context.dimensions := Nat.mul_le_mul_left _ (Nat.min_le_left _ _)
  obtain ⟨v, h1, h2, h3, h4⟩ := _decode_cutoff context.dataType context.dimensions
    context.data w L hw (context.dimensions.length + 1) 0 hpos (by omega) context rfl rfl rfl
    hlimit (by omega) (by
      simp only [List.drop_zero, hindex, hcount, Nat.sub_zero, Nat.zero_add]
      omega)
  simp only [List.drop_zero, hcount, Nat.sub_zero, Nat.zero_add] at h1 h2 h3 h4
  exact ⟨v, h1, h2, h3, fun hle other hole => h4 hle other (Nat.zero_le _) hole⟩

/-- C5: for a fixed-width data type of width `w`, a non-empty shape, a cutoff `k` and a
buffer that holds `w` bytes for each of the first `min (elementCount) (k + 1)` scalars,
`_decode` with `context.limit = k` from offset 0 and count 0 returns a value with at most
`k + 1` decoded leaf elements, namely `min (elementCount) (k + 1)` of them, after which count
and offset stand at that number of scalars; the marker `'...'` occurs in the value exactly
when scalars are left over, that is when `elementCount > k + 1`. -/
theorem decode_cutoff_bound (context : Context) (w k : Nat)
    (hw : scalarWidth context.dataType = some w)
    (hshape : context.dimensions ≠ [])
    (hindex : context.index = 0) (hcount : context.count = 0)
    (hlimit : context.limit = some k)
    (hlen : w * min (elementCount context.dimensions) (k + 1) ≤ context.data.length) :
    ∃ v final, _decode (context.dimensions.length + 1) context 0 = some (.ok (v, final)) ∧
      v.leaves ≤ k + 1 ∧
      v.leaves = min (elementCount context.dimensions) (k + 1) ∧
      (v.hasMarker = true ↔ k + 1 < elementCount context.dimensions) ∧
      final.count = v.leaves ∧ final.index = w * v.leaves := by
  have hpos : 0 < context.dimensions.length := List.length_pos.mpr hshape
  obtain ⟨v, h1, h2, h3, _⟩ := _decode_cutoff context.dataType context.dimensions
    context.data w k hw (context.dimensions.length + 1) 0 hpos (by omega) context rfl rfl rfl
    hlimit (by omega) (by
      simp only [List.drop_zero, hindex, hcount, Nat.sub_zero, Nat.zero_add]
      exact hlen)
  simp only [List.drop_zero, hcount, Nat.sub_zero, Nat.zero_add] at h1 h2 h3
  refine ⟨v, _, h1, ?_, h2, h3, ?_, ?_⟩
  · rw [h2]; exact Nat.min_le_right _ _
  · simp [Context.advance, hcount, h2]
  · simp [Context.advance, hindex, h2]

/-- C5 witness: under shape `[2, 3]` with cutoff 3 and a buffer of four bytes `_decode`
returns four scalars and the marker. -/
theorem decode_cutoff_bound_witness :
    (_decode 3 truncatedContext 0
      = some (.ok (.array [.array [.number 1, .number 2, .number 3],
                           .array [.number 4, .string "..."]],
                   { truncatedContext with index := 4, count := 4 }))) ∧
    (∃ v final, _decode (truncatedContext.dimensions.length + 1) truncatedContext 0
        = some (.ok (v, final)) ∧
      v.leaves ≤ 3 + 1 ∧
      v.leaves = min (elementCount truncatedContext.dimensions) (3 + 1) ∧
      (v.hasMarker = true ↔ 3 + 1 < elementCount truncatedContext.dimensions) ∧
      final.count = v.leaves ∧ final.index = 1 * v.leaves) :=
  ⟨rfl, decode_cutoff_bound truncatedContext 1 3 (by decide) (by decide) rfl rfl rfl
    (by decide)⟩

/-- C22: for a fixed-width data type of width `w`, a non-empty shape of non-negative
dimensions, a cutoff `L` and a buffer of at least `w * product` bytes, where `product` is
the product of the dimensions, `_decode` from offset 0 returns a value with
`min product (L + 1)` scalar leaves after `w` bytes for each of them, and the marker
`'...'` occurs in the value exactly when `product > L + 1`. When `product ≤ 10001` the decode
with cutoff 10000 and the decode with cutoff `MAX_SAFE_INTEGER` return the same value, which
has no marker, and for a tensor over that buffer `toString` renders the value that `value`
returns. For the empty shape `_decode` returns the empty array and leaves the context as it
was. -/
theorem decode_exact_size (context : Context) (w L : Nat)
    (hw : scalarWidth context.dataType = some w)
    (hshape : context.dimensions ≠ [])
    (hnonneg : ∀ x ∈ context.dimensions, 0 ≤ x)
    (hindex : context.index = 0) (hcount : context.count = 0)
    (hlimit : context.limit = some L)
    (hlen : w * elementCount context.dimensions ≤ context.data.length) :
    (elementCount context.dimensions : Int) = context.dimensions.prod ∧
    (∃ v final, _decode (context.dimensions.length + 1) context 0 = some (.ok (v, final)) ∧
      v.leaves = min (elementCount context.dimensions) (L + 1) ∧
      (v.hasMarker = true ↔ L + 1 < elementCount context.dimensions) ∧
      final.index = w * min (elementCount context.dimensions) (L + 1)) ∧
    (elementCount context.dimensions ≤ 10001 →
      ∃ v preview full,
        _decode (context.dimensions.length + 1) (context.withLimit 10000) 0
          = some (.ok (v, preview)) ∧
        _decode (context.dimensions.length + 1) (context.withLimit MAX_SAFE_INTEGER) 0
          = some (.ok (v, full)) ∧
        v.leaves = elementCount context.dimensions ∧ v.hasMarker = false) ∧
    (elementCount context.dimensions ≤ 10001 →
      ∀ (tensor : TensorFlowLiteTensor) (decodeText : List Byte → String)
        (stringify : TensorValue → String),
        tensor._data = some context.data → tensor._type.dataType = context.dataType →
        tensor._type.shape.dimensions = context.dimensions →
        ∃ v, tensor.value decodeText = some (.ok (some v)) ∧
          tensor.toString decodeText stringify = some (.ok (stringify v))) ∧
    (∀ c : Context, c.dimensions = [] →
      _decode (c.dimensions.length + 1) c 0 = some (.ok (.array [], c))) := by
  refine ⟨elementCount_eq_prod _ hnonneg, ?_, ?_, ?_, ?_⟩
  · obtain ⟨v, h1, h2, h3, _⟩ :=
      _decode_cutoff_start context w L hw hshape hindex hcount hlimit hlen
    exact ⟨v, _, h1, h2, h3, by simp [Context.advance, hindex]⟩
  · intro hsmall
    obtain ⟨v, h1, h2, h3, h4⟩ := _decode_cutoff_start (context.withLimit 10000) w 10000
      hw hshape hindex hcount rfl hlen
    have hmax : elementCount context.dimensions ≤ MAX_SAFE_INTEGER + 1 := by
      have : (10001 : Nat) ≤ MAX_SAFE_INTEGER + 1 := by decide
      omega
    have hfull := h4 hsmall MAX_SAFE_INTEGER hmax
    have hmin : min (elementCount context.dimensions) (10000 + 1)
        = elementCount context.dimensions := by
      have : (context.withLimit 10000).dimensions = context.dimensions := rfl
      omega
    refine ⟨v, _, _, h1, hfull, ?_, ?_⟩
    · exact h2.trans hmin
    · cases hm : v.hasMarker with
      | false => rfl
      | true =>
        have := h3.mp hm
        have hd : (context.withLimit 10000).dimensions = context.dimensions := rfl
        rw [hd] at this
        omega
  · intro hsmall tensor decodeText stringify hdata hty hdims
    have hstr : context.dataType ≠ "string" := by
      intro h
      rw [h] at hw
      simp [scalarWidth] at hw
    obtain ⟨v, h1, _, _, h4⟩ := _decode_cutoff_start
      ⟨none, 0, 0, context.dataType, context.dimensions, context.data, [], some 10000⟩ w 10000
      hw hshape rfl rfl rfl hlen
    have hmax : elementCount context.dimensions ≤ MAX_SAFE_INTEGER + 1 := by
      have : (10001 : Nat) ≤ MAX_SAFE_INTEGER + 1 := by decide
      omega
    have hfull := h4 hsmall MAX_SAFE_INTEGER hmax
    refine ⟨v, ?_, ?_⟩
    · simp only [TensorFlowLiteTensor.value, TensorFlowLiteTensor._context, hdata, hty, hdims,
        hstr, if_false]
      simp only [Context.withLimit] at hfull
      simp [hfull]
    · simp only [TensorFlowLiteTensor.toString, TensorFlowLiteTensor._context, hdata, hty, hdims,
        hstr, if_false]
      simp [h1]
  · intro c hc
    simp [_decode, hc, loopTurns, decodeNestedLoop]

/-- C22 witness: six `uint8` scalars under shape `[2, 3]` with cutoff 3 decode to four
scalars and the marker; the tensor over the same buffer has six scalars, and its preview
renders the value of `value`. -/
theorem decode_exact_size_witness :
    ((_decode 3 cutoffMatrixContext 0).map (fun r => r.toOption.map (fun p => p.1))
      = some (some (.array [.array [.number 1, .number 2, .number 3],
                            .array [.number 4, .string "..."]]))) ∧
    (∃ v final, _decode 3 cutoffMatrixContext 0 = some (.ok (v, final)) ∧
      v.leaves = min (elementCount cutoffMatrixContext.dimensions) (3 + 1) ∧
      (v.hasMarker = true ↔ 3 + 1 < elementCount cutoffMatrixContext.dimensions) ∧
      final.index = 1 * min (elementCount cutoffMatrixContext.dimensions) (3 + 1)) ∧
    (∃ v, previewTensor.value sampleDecodeText = some (.ok (some v)) ∧
      previewTensor.toString sampleDecodeText sampleStringify
        = some (.ok (sampleStringify v))) :=
  ⟨rfl,
   (decode_exact_size cutoffMatrixContext 1 3 (by decide) (by decide) (by decide) rfl rfl rfl
      (by decide)).2.1,
   (decode_exact_size cutoffMatrixContext 1 3 (by decide) (by decide) (by decide) rfl rfl rfl
      (by decide)).2.2.2.1 (by decide) previewTensor sampleDecodeText sampleStringify
      rfl rfl rfl⟩

end TFLite
